import Mathlib

/-!
# EDAII_Proyecto_Final: the hash-table stores

A shallow embedding of the four chained hash tables of the repository
(`hash_alimentos.c`, `hash_clientes.c`, `hash_menus.c`, `hash_pedidos.c`).

Conventions of the embedding

* a C `int` is an `Int`; conversions to unsigned types are written out with `%`;
* a C string is the `String` of its bytes before the terminating NUL, and its
  size in bytes is `String.utf8ByteSize`;
* a `float` price is the rational number it denotes;
* a chain of nodes linked through `next` is the `List` of its records, head first;
* a table is its array of 64 chains, `Fin 64 → List _`;
* a function that writes through its table pointer returns the new table next to
  its `bool` result;
* an access outside an array (a bucket index of 64 or more, a `strcpy` or `memcpy`
  past the end of a field) has no defined result in C: such a run is `Except.error`,
  and every read of `tabla->buckets[index]` with an `unsigned int` index is guarded by
  `index < 64`;
* `printf` output is not part of the state and is left out;
* `malloc` for a new node succeeds or not according to the argument `mallocOk`.
-/

namespace EDAII

/-! ## Common definitions -/

/-- The ways in which a run leaves defined behaviour. -/
inductive Fault where
  | outOfBounds
  | bufferOverflow
  deriving DecidableEq, Repr

/-- A table: 64 buckets, each one a chain of records. -/
structure Tabla (α : Type) where
  buckets : Fin 64 → List α

/-- The table with every bucket `NULL` (the loop of the four `crearTabla...`). -/
def Tabla.vacia {α : Type} : Tabla α :=
  { buckets := fun _ => [] }

/-- Assignment `tabla->buckets[i] = cadena`. -/
def Tabla.poner {α : Type} (t : Tabla α) (i : Fin 64) (cadena : List α) : Tabla α :=
  { buckets := Function.update t.buckets i cadena }

/-- The two nested loops shared by the four `obtenerNumeroDe...`: one increment of
`contador` for every node of every bucket. -/
def Tabla.contar {α : Type} (t : Tabla α) : Nat :=
  (List.finRange 64).foldl (fun contador i => (t.buckets i).foldl (fun c _ => c + 1) contador) 0

/-- The loop `while (actual) { if (actual->key == id) return actual; actual = actual->next; }`. -/
def cadenaBuscar {α : Type} (key : α → Int) (id : Int) : List α → Option α
  | [] => none
  | actual :: resto => if key actual = id then some actual else cadenaBuscar key id resto

/-- The unlink loop of the four `eliminar...`: the chain without its first node of
key `id`, or `none` when the loop reaches `NULL`. -/
def cadenaEliminar {α : Type} (key : α → Int) (id : Int) : List α → Option (List α)
  | [] => none
  | actual :: resto =>
    if key actual = id then some resto
    else (cadenaEliminar key id resto).map (fun r => actual :: r)

/-- Writes through the pointer returned by the lookup: the first node of key `id`
is replaced by `f` of itself. -/
def cadenaModificar {α : Type} (key : α → Int) (id : Int) (f : α → α) : List α → List α
  | [] => []
  | actual :: resto =>
    if key actual = id then f actual :: resto
    else actual :: cadenaModificar key id f resto

/-- The call `strcpy(dest, src)` into a field `char dest[cap]`: the bytes of `src`
and its NUL must fit. -/
def strcpy (cap : Nat) (src : String) : Except Fault String :=
  if src.utf8ByteSize < cap then .ok src else .error .bufferOverflow

/-- The call `memcpy(dest, src, n * sizeof(int))` into a field `int dest[cap]` from an
array holding the entries `src`: the first `n` entries. A negative `n` becomes a
huge `size_t`. -/
def memcpyInts (cap : Nat) (src : List Int) (n : Int) : Except Fault (List Int) :=
  if n < 0 ∨ (cap : Int) < n ∨ (src.length : Int) < n then .error .bufferOverflow
  else .ok (src.take n.toNat)

/-- The test `strcmp(s, "Si") == 0 ... else strcmp(s, "No") == 0 ...` of
`insertarAlimento` and `actualizarAlimento`. -/
def parseDisponible (disponibleStr : String) : Option Int :=
  if disponibleStr = "Si" then some 1
  else if disponibleStr = "No" then some 0
  else none

/-! ## hash_alimentos.c -/

/-- The record `struct Alimento` without its `next` pointer. -/
structure Alimento where
  id : Int
  nombre : String
  precio : ℚ
  disponible : Int
  deriving DecidableEq, Repr

/-- The table `HashTable` of `hash_alimentos.h`. -/
abbrev HashTable := Tabla Alimento

/-- The function `crearTablaHash`. -/
def crearTablaHash : HashTable := Tabla.vacia

/-- The function `hashFunctionMidSquare`: the product is taken in `unsigned long long`,
`midBits` is an `unsigned int`. -/
def hashFunctionMidSquare (id : Int) : Nat :=
  let idU : Nat := (id % 2 ^ 64).toNat
  let square : Nat := (idU * idU) % 2 ^ 64
  let midBits : Nat := ((square >>> 10) &&& ((1 <<< 6) - 1)) % 2 ^ 32
  midBits % 64

/-- The bucket index of `id` as an index of the bucket array. -/
def indiceAlimento (id : Int) : Fin 64 :=
  ⟨hashFunctionMidSquare id, Nat.mod_lt _ (by decide)⟩

/-- The function `buscarAlimento`; `none` is `NULL`. -/
def buscarAlimento (tabla : HashTable) (id : Int) : Option Alimento :=
  cadenaBuscar Alimento.id id (tabla.buckets (indiceAlimento id))

/-- The function `obtenerNumeroDeAlimentos`. -/
def obtenerNumeroDeAlimentos (tabla : HashTable) : Nat := tabla.contar

/-- The function `insertarAlimento`. -/
def insertarAlimento (mallocOk : Bool) (tabla : HashTable) (id : Int) (nombre : String)
    (precio : ℚ) (disponibleStr : String) : Except Fault (Bool × HashTable) :=
  match parseDisponible disponibleStr with
  | none => .ok (false, tabla)
  | some disponible =>
    match buscarAlimento tabla id with
    | some _ => .ok (false, tabla)
    | none =>
      let index := indiceAlimento id
      if !mallocOk then .ok (false, tabla)
      else
        match strcpy 50 nombre with
        | .error e => .error e
        | .ok nombreCopiado =>
          let nuevo : Alimento :=
            { id := id, nombre := nombreCopiado, precio := precio, disponible := disponible }
          .ok (true, tabla.poner index (nuevo :: tabla.buckets index))

/-- The function `eliminarAlimento`. -/
def eliminarAlimento (tabla : HashTable) (id : Int) : Bool × HashTable :=
  let index := indiceAlimento id
  match cadenaEliminar Alimento.id id (tabla.buckets index) with
  | some cadena => (true, tabla.poner index cadena)
  | none => (false, tabla)

/-- The function `actualizarAlimento`. -/
def actualizarAlimento (tabla : HashTable) (idAlimento : Int) (nuevoNombre : String)
    (nuevoPrecio : ℚ) (nuevaDisponibilidadStr : String) : Except Fault (Bool × HashTable) :=
  match buscarAlimento tabla idAlimento with
  | none => .ok (false, tabla)
  | some _ =>
    match parseDisponible nuevaDisponibilidadStr with
    | none => .ok (false, tabla)
    | some nuevaDisponibilidad =>
      match strcpy 50 nuevoNombre with
      | .error e => .error e
      | .ok nombreCopiado =>
        let index := indiceAlimento idAlimento
        .ok (true, tabla.poner index
          (cadenaModificar Alimento.id idAlimento
            (fun a => { a with nombre := nombreCopiado, precio := nuevoPrecio,
                               disponible := nuevaDisponibilidad })
            (tabla.buckets index)))

/-! ## hash_clientes.c -/

/-- The record `struct Cliente` without its `next` pointer. -/
structure Cliente where
  idCliente : Int
  nombre : String
  telefono : String
  deriving DecidableEq, Repr

/-- The table `ClientesHashTable`. -/
abbrev ClientesHashTable := Tabla Cliente

/-- The function `crearTablaClientes`. -/
def crearTablaClientes : ClientesHashTable := Tabla.vacia

/-- The function `hashCliente`: `idCliente % 64` is the remainder of C, which has the sign
of `idCliente`; the `int` result is then converted to the return type `unsigned int`. -/
def hashCliente (idCliente : Int) : Nat :=
  ((Int.tmod idCliente 64) % 2 ^ 32).toNat

/-- The function `buscarCliente`; `.ok none` is `NULL`. -/
def buscarCliente (tabla : ClientesHashTable) (idCliente : Int) :
    Except Fault (Option Cliente) :=
  let index := hashCliente idCliente
  if h : index < 64 then
    .ok (cadenaBuscar Cliente.idCliente idCliente (tabla.buckets ⟨index, h⟩))
  else .error .outOfBounds

/-- The function `obtenerNumeroDeClientes`. -/
def obtenerNumeroDeClientes (tabla : ClientesHashTable) : Nat := tabla.contar

/-- The function `agregarCliente`. -/
def agregarCliente (mallocOk : Bool) (tabla : ClientesHashTable) (idCliente : Int)
    (nombre telefono : String) : Except Fault (Bool × ClientesHashTable) :=
  match buscarCliente tabla idCliente with
  | .error e => .error e
  | .ok (some _) => .ok (false, tabla)
  | .ok none =>
    let index := hashCliente idCliente
    if h : index < 64 then
      if !mallocOk then .ok (false, tabla)
      else
        match strcpy 50 nombre with
        | .error e => .error e
        | .ok nombreCopiado =>
          match strcpy 15 telefono with
          | .error e => .error e
          | .ok telefonoCopiado =>
            let nuevo : Cliente :=
              { idCliente := idCliente, nombre := nombreCopiado, telefono := telefonoCopiado }
            .ok (true, tabla.poner ⟨index, h⟩ (nuevo :: tabla.buckets ⟨index, h⟩))
    else .error .outOfBounds

/-- The function `eliminarCliente`. -/
def eliminarCliente (tabla : ClientesHashTable) (idCliente : Int) :
    Except Fault (Bool × ClientesHashTable) :=
  let index := hashCliente idCliente
  if h : index < 64 then
    match cadenaEliminar Cliente.idCliente idCliente (tabla.buckets ⟨index, h⟩) with
    | some cadena => .ok (true, tabla.poner ⟨index, h⟩ cadena)
    | none => .ok (false, tabla)
  else .error .outOfBounds

/-- The function `actualizarCliente`. -/
def actualizarCliente (tabla : ClientesHashTable) (idCliente : Int)
    (nuevoNombre nuevoTelefono : String) : Except Fault (Bool × ClientesHashTable) :=
  match buscarCliente tabla idCliente with
  | .error e => .error e
  | .ok none => .ok (false, tabla)
  | .ok (some _) =>
    let index := hashCliente idCliente
    if h : index < 64 then
      match strcpy 50 nuevoNombre with
      | .error e => .error e
      | .ok nombreCopiado =>
        match strcpy 15 nuevoTelefono with
        | .error e => .error e
        | .ok telefonoCopiado =>
          .ok (true, tabla.poner ⟨index, h⟩
            (cadenaModificar Cliente.idCliente idCliente
              (fun c => { c with nombre := nombreCopiado, telefono := telefonoCopiado })
              (tabla.buckets ⟨index, h⟩)))
    else .error .outOfBounds

/-! ## hash_menus.c -/

/-- The record `struct Menu` without its `next` pointer. Of the array `alimentos[50]`
the record keeps the slots written by the last `memcpy`: the program reads no slot at
or past `numAlimentos`. -/
structure Menu where
  idMenu : Int
  fecha : String
  alimentos : List Int
  numAlimentos : Int
  deriving DecidableEq, Repr

/-- The table `MenuHashTable`. -/
abbrev MenuHashTable := Tabla Menu

/-- The function `crearTablaMenus`. -/
def crearTablaMenus : MenuHashTable := Tabla.vacia

/-- The function `hashIDMenu`: the C remainder converted to `unsigned int`. -/
def hashIDMenu (idMenu : Int) : Nat :=
  ((Int.tmod idMenu 64) % 2 ^ 32).toNat

/-- The function `buscarMenuPorID`; `.ok none` is `NULL`. -/
def buscarMenuPorID (tabla : MenuHashTable) (idMenu : Int) : Except Fault (Option Menu) :=
  let index := hashIDMenu idMenu
  if h : index < 64 then
    .ok (cadenaBuscar Menu.idMenu idMenu (tabla.buckets ⟨index, h⟩))
  else .error .outOfBounds

/-- The function `obtenerNumeroDeMenus`. -/
def obtenerNumeroDeMenus (tabla : MenuHashTable) : Nat := tabla.contar

/-- The validation loop of `agregarMenu`, `for (i = 0; i < numAlimentos; i++)`: the first
argument counts the iterations left, the list is the caller's array from `alimentos[i]`
on. The result `false` is the `return false` inside the loop. -/
def cicloValidarAlimentos (tablaAlimentos : HashTable) : Nat → List Int → Except Fault Bool
  | 0, _ => .ok true
  | _ + 1, [] => .error .outOfBounds
  | restantes + 1, idAlimento :: resto =>
    match buscarAlimento tablaAlimentos idAlimento with
    | none => .ok false
    | some alimento =>
      if alimento.disponible = 0 then .ok false
      else cicloValidarAlimentos tablaAlimentos restantes resto

/-- The function `agregarMenu`. -/
def agregarMenu (mallocOk : Bool) (tabla : MenuHashTable) (idMenu : Int) (fecha : String)
    (alimentos : List Int) (numAlimentos : Int) (tablaAlimentos : HashTable) :
    Except Fault (Bool × MenuHashTable) :=
  match buscarMenuPorID tabla idMenu with
  | .error e => .error e
  | .ok (some _) => .ok (false, tabla)
  | .ok none =>
    match cicloValidarAlimentos tablaAlimentos numAlimentos.toNat alimentos with
    | .error e => .error e
    | .ok false => .ok (false, tabla)
    | .ok true =>
      let index := hashIDMenu idMenu
      if h : index < 64 then
        if !mallocOk then .ok (false, tabla)
        else
          match strcpy 11 fecha with
          | .error e => .error e
          | .ok fechaCopiada =>
            match memcpyInts 50 alimentos numAlimentos with
            | .error e => .error e
            | .ok copia =>
              let nuevo : Menu :=
                { idMenu := idMenu, fecha := fechaCopiada, alimentos := copia,
                  numAlimentos := numAlimentos }
              .ok (true, tabla.poner ⟨index, h⟩ (nuevo :: tabla.buckets ⟨index, h⟩))
      else .error .outOfBounds

/-- The function `eliminarMenu`. -/
def eliminarMenu (tabla : MenuHashTable) (idMenu : Int) : Except Fault (Bool × MenuHashTable) :=
  let index := hashIDMenu idMenu
  if h : index < 64 then
    match cadenaEliminar Menu.idMenu idMenu (tabla.buckets ⟨index, h⟩) with
    | some cadena => .ok (true, tabla.poner ⟨index, h⟩ cadena)
    | none => .ok (false, tabla)
  else .error .outOfBounds

/-- The function `actualizarMenu`. It has no food-table parameter and makes no lookup
of the new food ids. -/
def actualizarMenu (tabla : MenuHashTable) (idMenu : Int) (nuevaFecha : String)
    (nuevosAlimentos : List Int) (numAlimentos : Int) : Except Fault (Bool × MenuHashTable) :=
  match buscarMenuPorID tabla idMenu with
  | .error e => .error e
  | .ok none => .ok (false, tabla)
  | .ok (some _) =>
    let index := hashIDMenu idMenu
    if h : index < 64 then
      match strcpy 11 nuevaFecha with
      | .error e => .error e
      | .ok fechaCopiada =>
        match memcpyInts 50 nuevosAlimentos numAlimentos with
        | .error e => .error e
        | .ok copia =>
          .ok (true, tabla.poner ⟨index, h⟩
            (cadenaModificar Menu.idMenu idMenu
              (fun m => { m with fecha := fechaCopiada, alimentos := copia,
                                 numAlimentos := numAlimentos })
              (tabla.buckets ⟨index, h⟩)))
    else .error .outOfBounds

/-! ## hash_pedidos.c -/

/-- The record `struct Pedido` without its `next` pointer; `menus` as in `Menu`. -/
structure Pedido where
  idPedido : Int
  idCliente : Int
  fecha : String
  menus : List Int
  numMenus : Int
  estado : String
  deriving DecidableEq, Repr

/-- The table `PedidosHashTable`. -/
abbrev PedidosHashTable := Tabla Pedido

/-- The function `crearTablaPedidos`. -/
def crearTablaPedidos : PedidosHashTable := Tabla.vacia

/-- The function `hashPedido`: the C remainder converted to `unsigned int`. -/
def hashPedido (idPedido : Int) : Nat :=
  ((Int.tmod idPedido 64) % 2 ^ 32).toNat

/-- The function `buscarPedido`; `.ok none` is `NULL`. -/
def buscarPedido (tablaPedidos : PedidosHashTable) (idPedido : Int) :
    Except Fault (Option Pedido) :=
  let index := hashPedido idPedido
  if h : index < 64 then
    .ok (cadenaBuscar Pedido.idPedido idPedido (tablaPedidos.buckets ⟨index, h⟩))
  else .error .outOfBounds

/-- The function `obtenerNumeroDePedidos`. -/
def obtenerNumeroDePedidos (tabla : PedidosHashTable) : Nat := tabla.contar

/-- The validation loop of `agregarPedido`, `for (i = 0; i < numMenus; i++)`, read as
`cicloValidarAlimentos` is. -/
def cicloValidarMenus (tablaMenus : MenuHashTable) : Nat → List Int → Except Fault Bool
  | 0, _ => .ok true
  | _ + 1, [] => .error .outOfBounds
  | restantes + 1, idMenu :: resto =>
    match buscarMenuPorID tablaMenus idMenu with
    | .error e => .error e
    | .ok none => .ok false
    | .ok (some _) => cicloValidarMenus tablaMenus restantes resto

/-- The function `agregarPedido`. -/
def agregarPedido (mallocOk : Bool) (tablaPedidos : PedidosHashTable)
    (tablaMenus : MenuHashTable) (tablaClientes : ClientesHashTable)
    (idPedido idCliente : Int) (fecha : String) (menus : List Int) (numMenus : Int)
    (estado : String) : Except Fault (Bool × PedidosHashTable) :=
  match buscarPedido tablaPedidos idPedido with
  | .error e => .error e
  | .ok (some _) => .ok (false, tablaPedidos)
  | .ok none =>
    match buscarCliente tablaClientes idCliente with
    | .error e => .error e
    | .ok none => .ok (false, tablaPedidos)
    | .ok (some _) =>
      match cicloValidarMenus tablaMenus numMenus.toNat menus with
      | .error e => .error e
      | .ok false => .ok (false, tablaPedidos)
      | .ok true =>
        let index := hashPedido idPedido
        if h : index < 64 then
          if !mallocOk then .ok (false, tablaPedidos)
          else
            match strcpy 11 fecha with
            | .error e => .error e
            | .ok fechaCopiada =>
              match memcpyInts 50 menus numMenus with
              | .error e => .error e
              | .ok copia =>
                match strcpy 15 estado with
                | .error e => .error e
                | .ok estadoCopiado =>
                  let nuevo : Pedido :=
                    { idPedido := idPedido, idCliente := idCliente, fecha := fechaCopiada,
                      menus := copia, numMenus := numMenus, estado := estadoCopiado }
                  .ok (true, tablaPedidos.poner ⟨index, h⟩
                    (nuevo :: tablaPedidos.buckets ⟨index, h⟩))
        else .error .outOfBounds

/-- The function `eliminarPedido`. -/
def eliminarPedido (tablaPedidos : PedidosHashTable) (idPedido : Int) :
    Except Fault (Bool × PedidosHashTable) :=
  let index := hashPedido idPedido
  if h : index < 64 then
    match cadenaEliminar Pedido.idPedido idPedido (tablaPedidos.buckets ⟨index, h⟩) with
    | some cadena => .ok (true, tablaPedidos.poner ⟨index, h⟩ cadena)
    | none => .ok (false, tablaPedidos)
  else .error .outOfBounds

/-- The function `actualizarPedido`. -/
def actualizarPedido (tabla : PedidosHashTable) (idPedido : Int) (nuevoEstado : String) :
    Except Fault (Bool × PedidosHashTable) :=
  match buscarPedido tabla idPedido with
  | .error e => .error e
  | .ok none => .ok (false, tabla)
  | .ok (some _) =>
    let index := hashPedido idPedido
    if h : index < 64 then
      match strcpy 15 nuevoEstado with
      | .error e => .error e
      | .ok estadoCopiado =>
        .ok (true, tabla.poner ⟨index, h⟩
          (cadenaModificar Pedido.idPedido idPedido
            (fun p => { p with estado := estadoCopiado })
            (tabla.buckets ⟨index, h⟩)))
    else .error .outOfBounds

/-! ## Arrays: snapshot, quicksort and binary search

The four files hold the same `copiar...DesdeTabla`, `particion...`, `quicksort...Parallel`
and `busquedaBinaria...Parallel`, up to the record type and the field compared. They are
embedded once, with the field as the argument `key`, and instantiated per file.

An array is the `List` of its cells and an index is an `int`. The two `omp` sections of
the quicksort work on the disjoint ranges `[low, pi - 1]` and `[pi + 1, high]`; they are
run one after the other, and either order gives the same array
(`quicksort_secciones_conmutan`). Every worker of the `omp parallel` region of the binary
search runs the same loop on its own `low`, `high` and `mid` over an array nobody writes,
and a worker that finds the key stores its `mid` in `resultado`: the function is embedded
as the loop of one worker, `resultado` staying -1 when the loop ends without a match. The
region with several workers under a schedule is `busquedaBinariaPlanificada`, further
down. -/

/-- A read `arr[k]`. -/
def leer {α : Type} (arr : List α) (k : Int) : Except Fault α :=
  if 0 ≤ k then
    match arr[k.toNat]? with
    | some v => .ok v
    | none => .error .outOfBounds
  else .error .outOfBounds

/-- A write `arr[k] = v`. -/
def escribir {α : Type} (arr : List α) (k : Int) (v : α) : Except Fault (List α) :=
  if 0 ≤ k ∧ k.toNat < arr.length then .ok (arr.set k.toNat v) else .error .outOfBounds

/-- The three statements `temp = arr[a]; arr[a] = arr[b]; arr[b] = temp;`. -/
def intercambiar {α : Type} (arr : List α) (a b : Int) : Except Fault (List α) :=
  match leer arr a with
  | .error e => .error e
  | .ok temp =>
    match leer arr b with
    | .error e => .error e
    | .ok vb =>
      match escribir arr a vb with
      | .error e => .error e
      | .ok arr1 => escribir arr1 b temp

/-- The inner loop of `copiar...DesdeTabla` on one chain: `arr[index++] = *actual`. -/
def copiarCadena {α : Type} : List α → List α × Int → Except Fault (List α × Int)
  | [], estado => .ok estado
  | actual :: resto, (arr, index) =>
    match escribir arr index actual with
    | .error e => .error e
    | .ok arr1 => copiarCadena resto (arr1, index + 1)

/-- The outer loop of `copiar...DesdeTabla` over the chains of the buckets still to visit. -/
def copiarCadenas {α : Type} : List (List α) → List α × Int → Except Fault (List α × Int)
  | [], estado => .ok estado
  | cadena :: resto, estado =>
    match copiarCadena cadena estado with
    | .error e => .error e
    | .ok estado1 => copiarCadenas resto estado1

/-- The body shared by the four `copiar...DesdeTabla`: buckets 0 to 63 in turn, `index`
starting at 0; the result is the caller's array after the call. -/
def Tabla.copiar {α : Type} (t : Tabla α) (destino : List α) : Except Fault (List α) :=
  match copiarCadenas ((List.finRange 64).map t.buckets) (destino, 0) with
  | .error e => .error e
  | .ok (arr, _) => .ok arr

/-- The loop `for (j = low; j < high; j++)` of the four `particion...`; the first argument
counts the iterations left, the last two are `i` and `j`. The result is the array and `i`
at the end of the loop. -/
def cicloParticion {α K : Type} [LT K] [DecidableRel (fun a b : K => a < b)] (key : α → K)
    (pivot : K) : Nat → List α → Int → Int → Except Fault (List α × Int)
  | 0, arr, i, _ => .ok (arr, i)
  | restantes + 1, arr, i, j =>
    match leer arr j with
    | .error e => .error e
    | .ok aj =>
      if key aj < pivot then
        match intercambiar arr (i + 1) j with
        | .error e => .error e
        | .ok arr1 => cicloParticion key pivot restantes arr1 (i + 1) (j + 1)
      else cicloParticion key pivot restantes arr i (j + 1)

/-- The body shared by the four `particion...`: the pivot is the key of `arr[high]`, the
result is the array after the last exchange and the returned index `i + 1`. -/
def particion {α K : Type} [LT K] [DecidableRel (fun a b : K => a < b)] (key : α → K)
    (arr : List α) (low high : Int) : Except Fault (List α × Int) :=
  match leer arr high with
  | .error e => .error e
  | .ok ultimo =>
    match cicloParticion key (key ultimo) (high - low).toNat arr (low - 1) low with
    | .error e => .error e
    | .ok (arr1, i) =>
      match intercambiar arr1 (i + 1) high with
      | .error e => .error e
      | .ok arr2 => .ok (arr2, i + 1)

/-- The recursion of the four `quicksort...Parallel` with a bound on its depth; with
`profundidad` 0 the range is taken to have at most one cell. -/
def quicksortHasta {α K : Type} [LT K] [DecidableRel (fun a b : K => a < b)] (key : α → K) :
    Nat → List α → Int → Int → Except Fault (List α)
  | 0, arr, _, _ => .ok arr
  | profundidad + 1, arr, low, high =>
    if low < high then
      match particion key arr low high with
      | .error e => .error e
      | .ok (arr1, pi) =>
        match quicksortHasta key profundidad arr1 low (pi - 1) with
        | .error e => .error e
        | .ok arr2 => quicksortHasta key profundidad arr2 (pi + 1) high
    else .ok arr

/-- The body shared by the four `quicksort...Parallel`. Every recursive call is on a range
shorter by at least one cell, so a depth of `high - low` is never used up. -/
def quicksort {α K : Type} [LT K] [DecidableRel (fun a b : K => a < b)] (key : α → K)
    (arr : List α) (low high : Int) : Except Fault (List α) :=
  quicksortHasta key (high - low).toNat arr low high

/-- The loop `while (low <= high)` of one worker of the four `busquedaBinaria...Parallel`;
`mid = low + (high - low) / 2` with the division of C. The result is the final value of
`resultado`. -/
def cicloBusqueda {α : Type} (key : α → Int) (arr : List α) (idBuscado : Int)
    (low high : Int) : Except Fault Int :=
  if low ≤ high then
    match leer arr (low + (high - low).tdiv 2) with
    | .error e => .error e
    | .ok r =>
      if key r = idBuscado then .ok (low + (high - low).tdiv 2)
      else if key r < idBuscado then
        cicloBusqueda key arr idBuscado (low + (high - low).tdiv 2 + 1) high
      else cicloBusqueda key arr idBuscado low (low + (high - low).tdiv 2 - 1)
  else .ok (-1)
termination_by (high - low + 1).toNat
decreasing_by
  all_goals
    have hdiv : (high - low).tdiv 2 = (high - low) / 2 :=
      Int.tdiv_eq_ediv (by omega) (by decide)
    rw [hdiv]
    omega

/-- The body shared by the four `busquedaBinaria...Parallel`: `low = 0`,
`high = n - 1`. -/
def busquedaBinaria {α : Type} (key : α → Int) (arr : List α) (n : Int) (idBuscado : Int) :
    Except Fault Int :=
  cicloBusqueda key arr idBuscado 0 (n - 1)

/-- The function `copiarAlimentosDesdeTabla`. -/
def copiarAlimentosDesdeTabla (tabla : HashTable) (alimentos : List Alimento) :
    Except Fault (List Alimento) := tabla.copiar alimentos

/-- The function `particionAlimentos`: the field compared is `precio`. -/
def particionAlimentos (alimentos : List Alimento) (low high : Int) :
    Except Fault (List Alimento × Int) := particion Alimento.precio alimentos low high

/-- The function `quicksortAlimentosParallel`: it orders by `precio`. -/
def quicksortAlimentosParallel (alimentos : List Alimento) (low high : Int) :
    Except Fault (List Alimento) := quicksort Alimento.precio alimentos low high

/-- The function `busquedaBinariaAlimentosParallel`: the field compared is `id`. -/
def busquedaBinariaAlimentosParallel (alimentos : List Alimento) (numAlimentos : Int)
    (idBuscado : Int) : Except Fault Int :=
  busquedaBinaria Alimento.id alimentos numAlimentos idBuscado

/-- The function `copiarClientesDesdeTabla`. -/
def copiarClientesDesdeTabla (tabla : ClientesHashTable) (clientes : List Cliente) :
    Except Fault (List Cliente) := tabla.copiar clientes

/-- The function `particionClientes`. -/
def particionClientes (clientes : List Cliente) (low high : Int) :
    Except Fault (List Cliente × Int) := particion Cliente.idCliente clientes low high

/-- The function `quicksortClientesParallel`. -/
def quicksortClientesParallel (clientes : List Cliente) (low high : Int) :
    Except Fault (List Cliente) := quicksort Cliente.idCliente clientes low high

/-- The function `busquedaBinariaClientesParallel`. -/
def busquedaBinariaClientesParallel (clientes : List Cliente) (numClientes : Int)
    (idBuscado : Int) : Except Fault Int :=
  busquedaBinaria Cliente.idCliente clientes numClientes idBuscado

/-- The function `copiarMenusDesdeTabla`. -/
def copiarMenusDesdeTabla (tabla : MenuHashTable) (menus : List Menu) :
    Except Fault (List Menu) := tabla.copiar menus

/-- The function `particionMenus`. -/
def particionMenus (menus : List Menu) (low high : Int) : Except Fault (List Menu × Int) :=
  particion Menu.idMenu menus low high

/-- The function `quicksortMenusParallel`. -/
def quicksortMenusParallel (menus : List Menu) (low high : Int) : Except Fault (List Menu) :=
  quicksort Menu.idMenu menus low high

/-- The function `busquedaBinariaMenusParallel`. -/
def busquedaBinariaMenusParallel (menus : List Menu) (numMenus : Int) (idBuscado : Int) :
    Except Fault Int :=
  busquedaBinaria Menu.idMenu menus numMenus idBuscado

/-- The function `copiarPedidosDesdeTabla`. -/
def copiarPedidosDesdeTabla (tabla : PedidosHashTable) (pedidos : List Pedido) :
    Except Fault (List Pedido) := tabla.copiar pedidos

/-- The function `particionPedidos`. -/
def particionPedidos (pedidos : List Pedido) (low high : Int) :
    Except Fault (List Pedido × Int) := particion Pedido.idPedido pedidos low high

/-- The function `quicksortPedidosParallel`. -/
def quicksortPedidosParallel (pedidos : List Pedido) (low high : Int) :
    Except Fault (List Pedido) := quicksort Pedido.idPedido pedidos low high

/-- The function `busquedaBinariaPedidosParallel`. -/
def busquedaBinariaPedidosParallel (pedidos : List Pedido) (numPedidos : Int)
    (idBuscado : Int) : Except Fault Int :=
  busquedaBinaria Pedido.idPedido pedidos numPedidos idBuscado

/-- The records of a table in the order of the snapshot: the chain of bucket 0, then
that of bucket 1, up to bucket 63. -/
def Tabla.registros {α : Type} (t : Tabla α) : List α :=
  ((List.finRange 64).map t.buckets).flatten

/-! ## The `omp parallel` region of the binary search

Every worker of the region has its own `low`, `high` and `mid`, declared inside the
region; the array is only read; `resultado` is shared and is written inside
`omp critical`, one worker at a time. A run of the region is an interleaving of the loop
iterations of the workers: the schedule names, step after step, the worker that makes its
next iteration. The function returns `resultado` once every worker has left its loop. -/

/-- The private variables of one worker: `low`, `high`, and whether it is still in its
`while` loop. -/
structure Trabajador where
  low : Int
  high : Int
  enCiclo : Bool
  deriving DecidableEq, Repr

/-- The state of the region: the shared `resultado` and the workers. -/
structure Region where
  resultado : Int
  trabajadores : List Trabajador

/-- One iteration of `while (low <= high)` by one worker, from the test of the condition
on: the loop is left when the test fails; otherwise `arr[mid]` is read and the worker
either writes `resultado = mid` in the critical section and leaves the loop (`break`), or
moves its own `low` or `high`. A worker that has left its loop does nothing. -/
def pasoTrabajador {α : Type} (key : α → Int) (arr : List α) (idBuscado : Int)
    (w : Trabajador) (resultado : Int) : Except Fault (Trabajador × Int) :=
  if w.enCiclo then
    if w.low ≤ w.high then
      match leer arr (w.low + (w.high - w.low).tdiv 2) with
      | .error e => .error e
      | .ok r =>
        if key r = idBuscado then
          .ok ({ w with enCiclo := false }, w.low + (w.high - w.low).tdiv 2)
        else if key r < idBuscado then
          .ok ({ w with low := w.low + (w.high - w.low).tdiv 2 + 1 }, resultado)
        else .ok ({ w with high := w.low + (w.high - w.low).tdiv 2 - 1 }, resultado)
    else .ok ({ w with enCiclo := false }, resultado)
  else .ok (w, resultado)

/-- One step of the region: the worker number `quien` makes its next iteration; a number
that names no worker leaves the state as it is. -/
def pasoRegion {α : Type} (key : α → Int) (arr : List α) (idBuscado : Int)
    (estado : Region) (quien : Nat) : Except Fault Region :=
  match estado.trabajadores[quien]? with
  | none => .ok estado
  | some w =>
    match pasoTrabajador key arr idBuscado w estado.resultado with
    | .error e => .error e
    | .ok (w', resultado') =>
      .ok { resultado := resultado', trabajadores := estado.trabajadores.set quien w' }

/-- The steps of a schedule, one after the other. -/
def ejecutarRegion {α : Type} (key : α → Int) (arr : List α) (idBuscado : Int) :
    Region → List Nat → Except Fault Region
  | estado, [] => .ok estado
  | estado, quien :: resto =>
    match pasoRegion key arr idBuscado estado quien with
    | .error e => .error e
    | .ok estado' => ejecutarRegion key arr idBuscado estado' resto

/-- The state at the entry of the region: `resultado = -1` and, for each of the `hilos`
workers, `low = 0`, `high = n - 1`. -/
def regionInicial (hilos : Nat) (n : Int) : Region :=
  { resultado := -1,
    trabajadores := List.replicate hilos { low := 0, high := n - 1, enCiclo := true } }

/-- Every worker has left its loop: the end of the region. -/
def Region.terminada (estado : Region) : Bool :=
  estado.trabajadores.all (fun w => !w.enCiclo)

/-- The body shared by the four `busquedaBinaria...Parallel` with `hilos` workers under a
schedule: the value returned when the schedule brings every worker out of its loop,
`none` when the schedule stops before that. -/
def busquedaBinariaPlanificada {α : Type} (key : α → Int) (arr : List α) (n : Int)
    (idBuscado : Int) (hilos : Nat) (plan : List Nat) : Except Fault (Option Int) :=
  match ejecutarRegion key arr idBuscado (regionInicial hilos n) plan with
  | .error e => .error e
  | .ok final => if final.terminada then .ok (some final.resultado) else .ok none

/-- The function `busquedaBinariaMenusParallel` with `hilos` workers under a schedule. -/
def busquedaBinariaMenusPlanificada (menus : List Menu) (numMenus : Int) (idBuscado : Int)
    (hilos : Nat) (plan : List Nat) : Except Fault (Option Int) :=
  busquedaBinariaPlanificada Menu.idMenu menus numMenus idBuscado hilos plan

/-- The iterations a worker can still make, plus one while it is in its loop. -/
def Trabajador.medida (w : Trabajador) : Nat :=
  if w.enCiclo then (w.high - w.low + 1).toNat + 1 else 0

/-- The iterations the workers of the region can still make. -/
def Region.medida (estado : Region) : Nat :=
  (estado.trabajadores.map Trabajador.medida).sum

/-! ## main.c: the global tables -/

/-- The four global tables of `main.c`. -/
structure Sistema where
  tablaAlimentos : HashTable
  tablaMenus : MenuHashTable
  tablaClientes : ClientesHashTable
  tablaPedidos : PedidosHashTable

/-- The statement `eliminarAlimento(tablaAlimentos, id);` of `menuGesAlimentos`, on the
global tables: the call receives the food table and nothing else. -/
def Sistema.eliminarAlimento (s : Sistema) (id : Int) : Bool × Sistema :=
  ((EDAII.eliminarAlimento s.tablaAlimentos id).1,
    { s with tablaAlimentos := (EDAII.eliminarAlimento s.tablaAlimentos id).2 })

/-! ## Reference notions of the specification -/

/-- The reference sort of the specification ("a trusted sequential sort") for menus:
insertion sort in ascending order of `idMenu`. -/
def ordenReferenciaMenus (menus : List Menu) : List Menu :=
  menus.insertionSort (fun a b => a.idMenu ≤ b.idMenu)

/-- Stability of a sort by price: for every price, the records of that price come in
`salida` in the order they have in `entrada`. -/
def OrdenRelativoConservado (entrada salida : List Alimento) : Prop :=
  ∀ p : ℚ, salida.filter (fun a => decide (a.precio = p))
    = entrada.filter (fun a => decide (a.precio = p))

/-! ## serializar_datos.c

The text written to the file is the list of the strings of the `fprintf` calls, in the
order of the calls. The conversion `%.2f` of a price is the argument `formato2f`. -/

/-- The conversion `%d` of `fprintf`. -/
def formatoD (n : Int) : String := toString n

/-- The body of the loop over `j` of `guardarMenus` for the food id
`actual->alimentos[j]`: the strings of one list entry. -/
def guardarAlimentoDeMenu (formato2f : ℚ → String) (tablaAlimentos : HashTable)
    (idAlimento : Int) : List String :=
  match buscarAlimento tablaAlimentos idAlimento with
  | some alimento =>
    ["      - id: " ++ formatoD alimento.id ++ "\n",
     "        nombre: \"" ++ alimento.nombre ++ "\"\n",
     "        precio: " ++ formato2f alimento.precio ++ "\n",
     "        disponible: " ++ (if alimento.disponible ≠ 0 then "Si" else "No") ++ "\n"]
  | none =>
    ["      - id: " ++ formatoD idAlimento ++ "\n",
     "        error: \"No encontrado\"\n"]

/-- The loop `for (j = 0; j < actual->numAlimentos; j++)` of `guardarMenus`: the first
argument counts the iterations left, the list holds the slots from `alimentos[j]` on. A
slot that the record does not hold has no defined value. -/
def cicloGuardarAlimentos (formato2f : ℚ → String) (tablaAlimentos : HashTable) :
    Nat → List Int → Except Fault (List String)
  | 0, _ => .ok []
  | _ + 1, [] => .error .outOfBounds
  | restantes + 1, idAlimento :: resto =>
    match cicloGuardarAlimentos formato2f tablaAlimentos restantes resto with
    | .error e => .error e
    | .ok escrito => .ok (guardarAlimentoDeMenu formato2f tablaAlimentos idAlimento ++ escrito)

/-- The body of the loop `while (actual)` of `guardarMenus` for one menu. -/
def guardarMenu (formato2f : ℚ → String) (tablaAlimentos : HashTable) (actual : Menu) :
    Except Fault (List String) :=
  match cicloGuardarAlimentos formato2f tablaAlimentos actual.numAlimentos.toNat
      actual.alimentos with
  | .error e => .error e
  | .ok entradas =>
    .ok (["  - id: " ++ formatoD actual.idMenu ++ "\n",
          "    fecha: \"" ++ actual.fecha ++ "\"\n",
          "    alimentos:\n"] ++ entradas)

/-- The two outer loops of `guardarMenus` over the menus still to write, in the order of
the buckets and of the chains. -/
def guardarListaDeMenus (formato2f : ℚ → String) (tablaAlimentos : HashTable) :
    List Menu → Except Fault (List String)
  | [] => .ok []
  | actual :: resto =>
    match guardarMenu formato2f tablaAlimentos actual with
    | .error e => .error e
    | .ok bloque =>
      match guardarListaDeMenus formato2f tablaAlimentos resto with
      | .error e => .error e
      | .ok escrito => .ok (bloque ++ escrito)

/-- The function `guardarMenus`. -/
def guardarMenus (formato2f : ℚ → String) (tablaMenus : MenuHashTable)
    (tablaAlimentos : HashTable) : Except Fault (List String) :=
  match guardarListaDeMenus formato2f tablaAlimentos tablaMenus.registros with
  | .error e => .error e
  | .ok escrito => .ok ("menus:\n" :: escrito)

/-! ## Tables reachable from the empty table -/

/-- The food tables built from `crearTablaHash` by calls of `insertarAlimento`,
`actualizarAlimento` and `eliminarAlimento` that return, with any arguments whose prices
satisfy `P`. -/
inductive AlimentosAlcanzable (P : ℚ → Prop) : HashTable → Prop where
  | crear : AlimentosAlcanzable P crearTablaHash
  | insertar (mallocOk : Bool) (t t' : HashTable) (id : Int) (nombre : String) (precio : ℚ)
      (disponibleStr : String) (b : Bool) :
      AlimentosAlcanzable P t → P precio →
      insertarAlimento mallocOk t id nombre precio disponibleStr = .ok (b, t') →
      AlimentosAlcanzable P t'
  | actualizar (t t' : HashTable) (id : Int) (nombre : String) (precio : ℚ)
      (disponibleStr : String) (b : Bool) :
      AlimentosAlcanzable P t → P precio →
      actualizarAlimento t id nombre precio disponibleStr = .ok (b, t') →
      AlimentosAlcanzable P t'
  | eliminar (t : HashTable) (id : Int) :
      AlimentosAlcanzable P t → AlimentosAlcanzable P (eliminarAlimento t id).2

/-- The menu tables built from `crearTablaMenus` by calls of `agregarMenu`,
`actualizarMenu` and `eliminarMenu` that return, with any arguments. -/
inductive MenusAlcanzable : MenuHashTable → Prop where
  | crear : MenusAlcanzable crearTablaMenus
  | agregar (mallocOk : Bool) (t t' : MenuHashTable) (idMenu : Int) (fecha : String)
      (alimentos : List Int) (numAlimentos : Int) (tablaAlimentos : HashTable) (b : Bool) :
      MenusAlcanzable t →
      agregarMenu mallocOk t idMenu fecha alimentos numAlimentos tablaAlimentos = .ok (b, t') →
      MenusAlcanzable t'
  | actualizar (t t' : MenuHashTable) (idMenu : Int) (nuevaFecha : String)
      (nuevosAlimentos : List Int) (numAlimentos : Int) (b : Bool) :
      MenusAlcanzable t →
      actualizarMenu t idMenu nuevaFecha nuevosAlimentos numAlimentos = .ok (b, t') →
      MenusAlcanzable t'
  | eliminar (t t' : MenuHashTable) (idMenu : Int) (b : Bool) :
      MenusAlcanzable t → eliminarMenu t idMenu = .ok (b, t') → MenusAlcanzable t'

/-- The order tables built from `crearTablaPedidos` by calls of `agregarPedido`,
`actualizarPedido` and `eliminarPedido` that return, with any arguments whose status
strings satisfy `P`. -/
inductive PedidosAlcanzable (P : String → Prop) : PedidosHashTable → Prop where
  | crear : PedidosAlcanzable P crearTablaPedidos
  | agregar (mallocOk : Bool) (t t' : PedidosHashTable) (tablaMenus : MenuHashTable)
      (tablaClientes : ClientesHashTable) (idPedido idCliente : Int) (fecha : String)
      (menus : List Int) (numMenus : Int) (estado : String) (b : Bool) :
      PedidosAlcanzable P t → P estado →
      agregarPedido mallocOk t tablaMenus tablaClientes idPedido idCliente fecha menus
        numMenus estado = .ok (b, t') →
      PedidosAlcanzable P t'
  | actualizar (t t' : PedidosHashTable) (idPedido : Int) (nuevoEstado : String) (b : Bool) :
      PedidosAlcanzable P t → P nuevoEstado →
      actualizarPedido t idPedido nuevoEstado = .ok (b, t') → PedidosAlcanzable P t'
  | eliminar (t t' : PedidosHashTable) (idPedido : Int) (b : Bool) :
      PedidosAlcanzable P t → eliminarPedido t idPedido = .ok (b, t') → PedidosAlcanzable P t'

/-- The client tables built from `crearTablaClientes` by calls of `agregarCliente`,
`actualizarCliente` and `eliminarCliente` that return, with any arguments whose ids
satisfy `P`. -/
inductive ClientesAlcanzable (P : Int → Prop) : ClientesHashTable → Prop where
  | crear : ClientesAlcanzable P crearTablaClientes
  | agregar (mallocOk : Bool) (t t' : ClientesHashTable) (idCliente : Int)
      (nombre telefono : String) (b : Bool) :
      ClientesAlcanzable P t → P idCliente →
      agregarCliente mallocOk t idCliente nombre telefono = .ok (b, t') →
      ClientesAlcanzable P t'
  | actualizar (t t' : ClientesHashTable) (idCliente : Int)
      (nuevoNombre nuevoTelefono : String) (b : Bool) :
      ClientesAlcanzable P t → P idCliente →
      actualizarCliente t idCliente nuevoNombre nuevoTelefono = .ok (b, t') →
      ClientesAlcanzable P t'
  | eliminar (t t' : ClientesHashTable) (idCliente : Int) (b : Bool) :
      ClientesAlcanzable P t → P idCliente →
      eliminarCliente t idCliente = .ok (b, t') → ClientesAlcanzable P t'

/-! ## Tables used by the examples -/

/-- The food table with the single record Taco of id 1, used by the examples. -/
def tablaTaco : HashTable :=
  crearTablaHash.poner (indiceAlimento 1)
    [{ id := 1, nombre := "Taco", precio := 5 / 2, disponible := 1 }]

/-- The food table with Taco (id 1, available) and Sopa (id 2, not available). -/
def tablaTacoSopa : HashTable :=
  tablaTaco.poner (indiceAlimento 2)
    ({ id := 2, nombre := "Sopa", precio := 3, disponible := 0 } ::
      tablaTaco.buckets (indiceAlimento 2))

/-- The menu table with the single menu 10 of 2024-01-01 listing food 1. -/
def tablaMenu10 : MenuHashTable :=
  crearTablaMenus.poner ⟨10, by decide⟩
    [{ idMenu := 10, fecha := "2024-01-01", alimentos := [1], numAlimentos := 1 }]

/-- The client table with the single client Ana of id 5. -/
def tablaCliente5 : ClientesHashTable :=
  crearTablaClientes.poner ⟨5, by decide⟩
    [{ idCliente := 5, nombre := "Ana", telefono := "5550001" }]

/-- The order table with the single order 1 of client 5, of status "Cancelado". -/
def tablaPedidoCancelado : PedidosHashTable :=
  crearTablaPedidos.poner ⟨1, by decide⟩
    ({ idPedido := 1, idCliente := 5, fecha := "2024-03-04", menus := [10], numMenus := 1,
       estado := "Cancelado" } :: crearTablaPedidos.buckets ⟨1, by decide⟩)

/-- The order table with the single order 1 of client 5, of status "Pendiente". -/
def tablaPedidoPendiente : PedidosHashTable :=
  crearTablaPedidos.poner ⟨1, by decide⟩
    [{ idPedido := 1, idCliente := 5, fecha := "2024-03-04", menus := [10], numMenus := 1,
       estado := "Pendiente" }]

/-- The food table with the single record Taco of id 1 and price -1. -/
def tablaPrecioNegativo : HashTable :=
  crearTablaHash.poner (indiceAlimento 1)
    ({ id := 1, nombre := "Taco", precio := -1, disponible := 1 }
      :: crearTablaHash.buckets (indiceAlimento 1))

/-- The menu table with the single menu 10 of 2024-01-01 listing the foods 1 and 99. -/
def tablaMenuColgante : MenuHashTable :=
  crearTablaMenus.poner ⟨10, by decide⟩
    [{ idMenu := 10, fecha := "2024-01-01", alimentos := [1, 99], numAlimentos := 2 }]

/-- The client table after `agregarCliente` of client 69 into `tablaCliente5`. -/
def tablaClientes5y69 : ClientesHashTable :=
  tablaCliente5.poner ⟨5, by decide⟩
    ({ idCliente := 69, nombre := "Luis", telefono := "5550002" }
      :: tablaCliente5.buckets ⟨5, by decide⟩)

/-- Three menus in the order of the ids 30, 10, 20. -/
def menusDesordenados : List Menu :=
  [{ idMenu := 30, fecha := "2024-01-03", alimentos := [1], numAlimentos := 1 },
   { idMenu := 10, fecha := "2024-01-01", alimentos := [1], numAlimentos := 1 },
   { idMenu := 20, fecha := "2024-01-02", alimentos := [1], numAlimentos := 1 }]

/-- Three menus in ascending order of the ids 10, 20, 30. -/
def menusOrdenados : List Menu :=
  [{ idMenu := 10, fecha := "2024-01-01", alimentos := [1], numAlimentos := 1 },
   { idMenu := 20, fecha := "2024-01-02", alimentos := [1], numAlimentos := 1 },
   { idMenu := 30, fecha := "2024-01-03", alimentos := [1], numAlimentos := 1 }]

/-- Four orders in the order of the ids 9, 7, 3, 5. -/
def pedidosDesordenados : List Pedido :=
  [{ idPedido := 9, idCliente := 5, fecha := "2024-03-04", menus := [10], numMenus := 1,
     estado := "Pendiente" },
   { idPedido := 7, idCliente := 5, fecha := "2024-03-04", menus := [10], numMenus := 1,
     estado := "Pendiente" },
   { idPedido := 3, idCliente := 5, fecha := "2024-03-04", menus := [10], numMenus := 1,
     estado := "Pendiente" },
   { idPedido := 5, idCliente := 5, fecha := "2024-03-04", menus := [10], numMenus := 1,
     estado := "Pendiente" }]

/-- Three clients in the order of the ids 7, 3, 5. -/
def clientesDesordenados : List Cliente :=
  [{ idCliente := 7, nombre := "Eva", telefono := "5550007" },
   { idCliente := 3, nombre := "Leo", telefono := "5550003" },
   { idCliente := 5, nombre := "Ana", telefono := "5550001" }]

/-- The order table whose bucket 1 holds the orders 65 and 1, in this order, and whose
bucket 2 holds the order 2. -/
def tablaTresPedidos : PedidosHashTable :=
  (crearTablaPedidos.poner ⟨1, by decide⟩
    [{ idPedido := 65, idCliente := 5, fecha := "2024-03-05", menus := [10], numMenus := 1,
       estado := "Pendiente" },
     { idPedido := 1, idCliente := 5, fecha := "2024-03-04", menus := [10], numMenus := 1,
       estado := "Pendiente" }]).poner ⟨2, by decide⟩
    [{ idPedido := 2, idCliente := 5, fecha := "2024-03-06", menus := [10], numMenus := 1,
       estado := "Completado" }]

/-- The client table after `agregarCliente` of client 7 into `tablaClientes5y69`: bucket 5
holds the clients 69 and 5, in this order, and bucket 7 holds the client 7. -/
def tablaTresClientes : ClientesHashTable :=
  tablaClientes5y69.poner ⟨7, by decide⟩
    ({ idCliente := 7, nombre := "Eva", telefono := "5550007" }
      :: tablaClientes5y69.buckets ⟨7, by decide⟩)

/-- A food table whose bucket 0 holds two records of id 1. -/
def tablaDosTacos : HashTable :=
  crearTablaHash.poner (indiceAlimento 1)
    [{ id := 1, nombre := "Taco", precio := 5 / 2, disponible := 1 },
     { id := 1, nombre := "Torta", precio := 4, disponible := 1 }]

/-- The global tables after the scenario Food 1 "Taco" 2.50 available, Menu 10 of
2024-01-01 with the foods [1]. -/
def sistemaTacoMenu10 : Sistema :=
  { tablaAlimentos := tablaTaco, tablaMenus := tablaMenu10,
    tablaClientes := crearTablaClientes, tablaPedidos := crearTablaPedidos }

/-- The global tables with the food table `tablaDosTacos` and Menu 10. -/
def sistemaDosTacos : Sistema :=
  { tablaAlimentos := tablaDosTacos, tablaMenus := tablaMenu10,
    tablaClientes := crearTablaClientes, tablaPedidos := crearTablaPedidos }

/-- The food table after the insert of food 1 (price 3) into the empty table. -/
def tablaUnAlimento : HashTable :=
  crearTablaHash.poner (indiceAlimento 1)
    ({ id := 1, nombre := "Taco", precio := 3, disponible := 1 } ::
      crearTablaHash.buckets (indiceAlimento 1))

/-- The food table after the further insert of food 2 (price 2). -/
def tablaDosAlimentos : HashTable :=
  tablaUnAlimento.poner (indiceAlimento 2)
    ({ id := 2, nombre := "Sopa", precio := 2, disponible := 1 } ::
      tablaUnAlimento.buckets (indiceAlimento 2))

/-- The food table after the further insert of food 3 (price 1): the three ids hash to
bucket 0 and each insert goes to the head of the chain. -/
def tablaTresAlimentos : HashTable :=
  tablaDosAlimentos.poner (indiceAlimento 3)
    ({ id := 3, nombre := "Flan", precio := 1, disponible := 1 } ::
      tablaDosAlimentos.buckets (indiceAlimento 3))

/-! ## Lemmas on chains and tables -/

theorem hashFunctionMidSquare_lt (id : Int) : hashFunctionMidSquare id < 64 :=
  Nat.mod_lt _ (by decide)

theorem Tabla.buckets_poner_same {α : Type} (t : Tabla α) (i : Fin 64) (c : List α) :
    (t.poner i c).buckets i = c := by
  simp [Tabla.poner]

theorem Tabla.buckets_poner_other {α : Type} (t : Tabla α) (i j : Fin 64) (c : List α)
    (h : j ≠ i) : (t.poner i c).buckets j = t.buckets j := by
  simp [Tabla.poner, Function.update_noteq h]

/-- A record of a table built by one assignment to the empty table is in the assigned
chain. -/
theorem Tabla.mem_vacia_poner {α : Type} (i j : Fin 64) (c : List α) (a : α)
    (h : a ∈ ((Tabla.vacia : Tabla α).poner i c).buckets j) : a ∈ c := by
  by_cases hji : j = i
  · subst hji
    rwa [Tabla.buckets_poner_same] at h
  · rw [Tabla.buckets_poner_other _ _ _ _ hji] at h
    simp [Tabla.vacia] at h

theorem cadenaBuscar_eq_none {α : Type} (key : α → Int) (id : Int) (l : List α)
    (h : ∀ a ∈ l, key a ≠ id) : cadenaBuscar key id l = none := by
  induction l with
  | nil => rfl
  | cons a l ih =>
    have ha : key a ≠ id := h a (List.mem_cons_self a l)
    simp only [cadenaBuscar, if_neg ha]
    exact ih (fun b hb => h b (List.mem_cons_of_mem a hb))

theorem cadenaEliminar_eq_none {α : Type} (key : α → Int) (id : Int) (l : List α)
    (h : cadenaBuscar key id l = none) : cadenaEliminar key id l = none := by
  induction l with
  | nil => rfl
  | cons a l ih =>
    by_cases ha : key a = id
    · simp [cadenaBuscar, ha] at h
    · simp only [cadenaBuscar, if_neg ha] at h
      simp [cadenaEliminar, ha, ih h]

theorem parseDisponible_valid (s : String) (h : s = "Si" ∨ s = "No") :
    parseDisponible s = some (if s = "Si" then 1 else 0) := by
  rcases h with h | h <;> subst h <;> rfl

theorem strcpy_fits (cap : Nat) (s : String) (h : s.utf8ByteSize < cap) :
    strcpy cap s = .ok s := by
  simp [strcpy, h]

/-! ## Food store: insert, find, delete, update -/

/-- C1: `insertarAlimento` of an id that no record of the table carries, with a name of
at most 49 bytes and an availability string `"Si"` or `"No"`, returns `true` (allocation
succeeding), and `buscarAlimento` on the new table returns the record with exactly the
given id, name and price and with `disponible` 1 for `"Si"`, 0 for `"No"`. The id is any
integer, so every 32-bit id, negative ones included. -/
theorem insertarAlimento_then_buscarAlimento (tabla : HashTable) (id : Int) (nombre : String)
    (precio : ℚ) (disponibleStr : String)
    (hAbsent : ∀ i : Fin 64, ∀ a ∈ tabla.buckets i, a.id ≠ id)
    (hNombre : nombre.utf8ByteSize ≤ 49)
    (hDisp : disponibleStr = "Si" ∨ disponibleStr = "No") :
    ∃ tabla', insertarAlimento true tabla id nombre precio disponibleStr = .ok (true, tabla') ∧
      buscarAlimento tabla' id =
        some { id := id, nombre := nombre, precio := precio,
               disponible := if disponibleStr = "Si" then 1 else 0 } := by
  have hb : buscarAlimento tabla id = none :=
    cadenaBuscar_eq_none Alimento.id id _ (hAbsent (indiceAlimento id))
  have hcpy : strcpy 50 nombre = .ok nombre := strcpy_fits 50 nombre (by omega)
  refine ⟨tabla.poner (indiceAlimento id)
    ({ id := id, nombre := nombre, precio := precio,
       disponible := if disponibleStr = "Si" then 1 else 0 } ::
      tabla.buckets (indiceAlimento id)), ?_, ?_⟩
  · simp only [insertarAlimento, parseDisponible_valid disponibleStr hDisp, hb, hcpy]
    rfl
  · simp [buscarAlimento, Tabla.buckets_poner_same, cadenaBuscar]

/-- C1 witness: id -7, name "Taco", price 5/2, available, into the empty table. -/
theorem insertarAlimento_then_buscarAlimento_witness :
    ∃ tabla', insertarAlimento true crearTablaHash (-7) "Taco" (5 / 2) "Si" = .ok (true, tabla') ∧
      buscarAlimento tabla' (-7) =
        some { id := -7, nombre := "Taco", precio := 5 / 2,
               disponible := if "Si" = "Si" then 1 else 0 } :=
  insertarAlimento_then_buscarAlimento crearTablaHash (-7) "Taco" (5 / 2) "Si"
    (by simp [crearTablaHash, Tabla.vacia]) (by decide) (by decide)

/-- C2: when the table already holds a record of id `k` (the one `buscarAlimento` finds),
`insertarAlimento` with id `k`, any name, any price and an availability string `"Si"` or
`"No"` returns `false` whether or not memory is available, and the table is the same:
the lookup of `k` still gives the original record and the count is unchanged. -/
theorem insertarAlimento_duplicate (mallocOk : Bool) (tabla : HashTable) (k : Int)
    (original : Alimento) (nombre : String) (precio : ℚ) (disponibleStr : String)
    (hHolds : buscarAlimento tabla k = some original)
    (hDisp : disponibleStr = "Si" ∨ disponibleStr = "No") :
    ∃ tabla', insertarAlimento mallocOk tabla k nombre precio disponibleStr = .ok (false, tabla') ∧
      tabla' = tabla ∧ buscarAlimento tabla' k = some original ∧
      obtenerNumeroDeAlimentos tabla' = obtenerNumeroDeAlimentos tabla := by
  refine ⟨tabla, ?_, rfl, hHolds, rfl⟩
  simp only [insertarAlimento, parseDisponible_valid disponibleStr hDisp, hHolds]

/-- C3: when no record of the table carries id `k`, `buscarAlimento` returns `NULL`, and
`eliminarAlimento` and `actualizarAlimento` (with any new fields) return `false` and leave
the table as it was. -/
theorem alimento_absent_key (tabla : HashTable) (k : Int)
    (hAbsent : ∀ i : Fin 64, ∀ a ∈ tabla.buckets i, a.id ≠ k) :
    buscarAlimento tabla k = none ∧
    eliminarAlimento tabla k = (false, tabla) ∧
    ∀ (nuevoNombre : String) (nuevoPrecio : ℚ) (nuevaDisp : String),
      actualizarAlimento tabla k nuevoNombre nuevoPrecio nuevaDisp = .ok (false, tabla) := by
  have hb : buscarAlimento tabla k = none :=
    cadenaBuscar_eq_none Alimento.id k _ (hAbsent (indiceAlimento k))
  refine ⟨hb, ?_, ?_⟩
  · simp only [eliminarAlimento, cadenaEliminar_eq_none Alimento.id k _ hb]
  · intro n p d
    simp only [actualizarAlimento, hb]

/-- C2 witness: a second insert of id 1 into the table holding Taco. -/
theorem insertarAlimento_duplicate_witness :
    ∃ tabla', insertarAlimento true tablaTaco 1 "Sopa" 3 "No" = .ok (false, tabla') ∧
      tabla' = tablaTaco ∧
      buscarAlimento tabla' 1 =
        some { id := 1, nombre := "Taco", precio := 5 / 2, disponible := 1 } ∧
      obtenerNumeroDeAlimentos tabla' = obtenerNumeroDeAlimentos tablaTaco :=
  insertarAlimento_duplicate true tablaTaco 1
    { id := 1, nombre := "Taco", precio := 5 / 2, disponible := 1 } "Sopa" 3 "No"
    (by rfl) (by decide)

/-- C3 witness: id 2 in the table that holds only Taco (id 1). -/
theorem alimento_absent_key_witness :
    buscarAlimento tablaTaco 2 = none ∧
    eliminarAlimento tablaTaco 2 = (false, tablaTaco) ∧
    ∀ (nuevoNombre : String) (nuevoPrecio : ℚ) (nuevaDisp : String),
      actualizarAlimento tablaTaco 2 nuevoNombre nuevoPrecio nuevaDisp = .ok (false, tablaTaco) :=
  alimento_absent_key tablaTaco 2 (by
    intro i a ha
    have hmem := Tabla.mem_vacia_poner _ i _ a ha
    rw [List.mem_singleton.mp hmem]
    decide)

/-! ## Lemmas on the modulo hashes and the validation loops -/

/-- For a non-negative id the C remainder is the mathematical one and the conversion
to `unsigned int` changes nothing: the index is below 64. -/
theorem modulo_index_lt (id : Int) (h : 0 ≤ id) : ((Int.tmod id 64) % 2 ^ 32).toNat < 64 := by
  rw [Int.tmod_eq_emod h (by decide)]
  omega

theorem hashIDMenu_lt (idMenu : Int) (h : 0 ≤ idMenu) : hashIDMenu idMenu < 64 :=
  modulo_index_lt idMenu h

theorem hashCliente_lt (idCliente : Int) (h : 0 ≤ idCliente) : hashCliente idCliente < 64 :=
  modulo_index_lt idCliente h

theorem hashPedido_lt (idPedido : Int) (h : 0 ≤ idPedido) : hashPedido idPedido < 64 :=
  modulo_index_lt idPedido h

theorem memcpyInts_all (cap : Nat) (src : List Int) (h : src.length ≤ cap) :
    memcpyInts cap src src.length = .ok src := by
  have h1 : ¬ ((src.length : Int) < 0 ∨ (cap : Int) < src.length ∨
      (src.length : Int) < src.length) := by omega
  simp only [memcpyInts, if_neg h1, Int.toNat_natCast, List.take_length]

/-- The loop of `agregarMenu` returns `false` as soon as the array holds an id that is
missing from the food table or resolves to a food with `disponible == 0`. -/
theorem cicloValidarAlimentos_rechaza (tablaAlimentos : HashTable) (alimentos : List Int)
    (hBad : ∃ id ∈ alimentos, ∀ a, buscarAlimento tablaAlimentos id = some a → a.disponible = 0) :
    cicloValidarAlimentos tablaAlimentos alimentos.length alimentos = .ok false := by
  induction alimentos with
  | nil => simp at hBad
  | cons x xs ih =>
    simp only [List.length_cons, cicloValidarAlimentos]
    cases hx : buscarAlimento tablaAlimentos x with
    | none => rfl
    | some a =>
      by_cases hd : a.disponible = 0
      · simp [hd]
      · simp only [if_neg hd]
        apply ih
        obtain ⟨id, hmem, hid⟩ := hBad
        rcases List.mem_cons.mp hmem with rfl | hmem'
        · exact absurd (hid a hx) hd
        · exact ⟨id, hmem', hid⟩

/-- The loop of `agregarMenu` runs to its end when every id of the array resolves to a
food with `disponible` other than 0. -/
theorem cicloValidarAlimentos_acepta (tablaAlimentos : HashTable) (alimentos : List Int)
    (hOk : ∀ id ∈ alimentos, ∃ a, buscarAlimento tablaAlimentos id = some a ∧ a.disponible ≠ 0) :
    cicloValidarAlimentos tablaAlimentos alimentos.length alimentos = .ok true := by
  induction alimentos with
  | nil => rfl
  | cons x xs ih =>
    obtain ⟨a, hx, hd⟩ := hOk x (List.mem_cons_self x xs)
    simp only [List.length_cons, cicloValidarAlimentos, hx, if_neg hd]
    exact ih (fun id hid => hOk id (List.mem_cons_of_mem x hid))

/-- With a menu id whose bucket index is inside the bucket array, `agregarMenu` rejects a
food list that holds a missing or an unavailable food and leaves the menu table as it was. -/
theorem agregarMenu_rechaza_en_rango (mallocOk : Bool) (tabla : MenuHashTable) (idMenu : Int)
    (fecha : String) (alimentos : List Int) (tablaAlimentos : HashTable)
    (hIdx : hashIDMenu idMenu < 64)
    (hBad : ∃ id ∈ alimentos, ∀ a, buscarAlimento tablaAlimentos id = some a → a.disponible = 0) :
    agregarMenu mallocOk tabla idMenu fecha alimentos alimentos.length tablaAlimentos
      = .ok (false, tabla) := by
  simp only [agregarMenu, buscarMenuPorID, dif_pos hIdx, Int.toNat_natCast,
    cicloValidarAlimentos_rechaza tablaAlimentos alimentos hBad]
  cases cadenaBuscar Menu.idMenu idMenu (tabla.buckets ⟨hashIDMenu idMenu, hIdx⟩) <;> rfl

/-! ## Menu store -/

/-- C4, at menu id -1 and the food list [99] with food 99 missing from the food table:
`hashIDMenu (-1)` is 4294967295, the lookup of the menu id reads outside the 64 buckets,
and the call does not return `false`. -/
theorem agregarMenu_missing_food_negative_id :
    buscarAlimento tablaTaco 99 = none ∧
    hashIDMenu (-1) = 4294967295 ∧
    agregarMenu true crearTablaMenus (-1) "2024-01-01" [99] 1 tablaTaco
      = .error .outOfBounds :=
  ⟨rfl, by decide, rfl⟩

/-- C5, at menu id -3 and the food list [2] with food 2 present and not available:
`hashIDMenu (-3)` is 4294967293, the lookup of the menu id reads outside the 64 buckets,
and the call does not return `false`. -/
theorem agregarMenu_unavailable_food_negative_id :
    buscarAlimento tablaTacoSopa 2
      = some { id := 2, nombre := "Sopa", precio := 3, disponible := 0 } ∧
    hashIDMenu (-3) = 4294967293 ∧
    agregarMenu true crearTablaMenus (-3) "2024-01-01" [2] 1 tablaTacoSopa
      = .error .outOfBounds :=
  ⟨rfl, by decide, rfl⟩

/-- C9: for a non-negative `idMenu` that no menu of the table carries, a date that fits
the field `fecha[11]` (the format YYYY-MM-DD takes 10 bytes) and a list of at most 50
food ids each of which resolves to a food with `disponible` other than 0, `agregarMenu`
returns `true` (allocation succeeding) and `buscarMenuPorID` then returns the menu with
that id, the given date, the given ids in the given order and `numAlimentos` the length of
the list. The food table is only read: the call returns no food table. -/
theorem agregarMenu_valid (tabla : MenuHashTable) (idMenu : Int) (fecha : String)
    (alimentos : List Int) (tablaAlimentos : HashTable)
    (hId : 0 ≤ idMenu)
    (hAbsent : ∀ i : Fin 64, ∀ m ∈ tabla.buckets i, m.idMenu ≠ idMenu)
    (hFecha : fecha.utf8ByteSize ≤ 10)
    (hLen : alimentos.length ≤ 50)
    (hOk : ∀ id ∈ alimentos, ∃ a, buscarAlimento tablaAlimentos id = some a ∧ a.disponible ≠ 0) :
    ∃ tabla', agregarMenu true tabla idMenu fecha alimentos alimentos.length tablaAlimentos
        = .ok (true, tabla') ∧
      buscarMenuPorID tabla' idMenu =
        .ok (some { idMenu := idMenu, fecha := fecha, alimentos := alimentos,
                    numAlimentos := alimentos.length }) := by
  have hIdx : hashIDMenu idMenu < 64 := hashIDMenu_lt idMenu hId
  have hb : cadenaBuscar Menu.idMenu idMenu (tabla.buckets ⟨hashIDMenu idMenu, hIdx⟩) = none :=
    cadenaBuscar_eq_none Menu.idMenu idMenu _ (hAbsent _)
  have hcpy : strcpy 11 fecha = .ok fecha := strcpy_fits 11 fecha (by omega)
  refine ⟨tabla.poner ⟨hashIDMenu idMenu, hIdx⟩
    ({ idMenu := idMenu, fecha := fecha, alimentos := alimentos,
       numAlimentos := alimentos.length } :: tabla.buckets ⟨hashIDMenu idMenu, hIdx⟩), ?_, ?_⟩
  · simp only [agregarMenu, buscarMenuPorID, dif_pos hIdx, hb, Int.toNat_natCast,
      cicloValidarAlimentos_acepta tablaAlimentos alimentos hOk, hcpy,
      memcpyInts_all 50 alimentos hLen]
    rfl
  · simp [buscarMenuPorID, dif_pos hIdx, Tabla.buckets_poner_same, cadenaBuscar]

/-- C9 witness: menu 10 of 2024-01-01 with the food list [1] into the empty menu table,
the food table holding Taco (id 1, available). -/
theorem agregarMenu_valid_witness :
    ∃ tabla', agregarMenu true crearTablaMenus 10 "2024-01-01" [1] ([1] : List Int).length
        tablaTaco = .ok (true, tabla') ∧
      buscarMenuPorID tabla' 10 =
        .ok (some { idMenu := 10, fecha := "2024-01-01", alimentos := [1],
                    numAlimentos := ([1] : List Int).length }) :=
  agregarMenu_valid crearTablaMenus 10 "2024-01-01" [1] tablaTaco (by decide)
    (by simp [crearTablaMenus, Tabla.vacia]) (by decide) (by decide)
    (by
      intro id hid
      rw [List.mem_singleton.mp hid]
      exact ⟨{ id := 1, nombre := "Taco", precio := 5 / 2, disponible := 1 }, rfl, by decide⟩)

/-- C10, at menu 10 (date 2024-01-01, foods [1]) and the new food list [99], food 99
missing from the food table: `actualizarMenu` returns `true` and the menu now has the new
date and the list [99]. -/
theorem actualizarMenu_missing_food_accepted :
    buscarMenuPorID tablaMenu10 10
      = .ok (some { idMenu := 10, fecha := "2024-01-01", alimentos := [1], numAlimentos := 1 }) ∧
    buscarAlimento tablaTaco 99 = none ∧
    ∃ tabla', actualizarMenu tablaMenu10 10 "2024-02-02" [99] 1 = .ok (true, tabla') ∧
      buscarMenuPorID tabla' 10
        = .ok (some { idMenu := 10, fecha := "2024-02-02", alimentos := [99],
                      numAlimentos := 1 }) :=
  ⟨rfl, rfl, _, rfl, rfl⟩

/-! ## Order store -/

/-- The loop of `agregarPedido` runs to its end when every id of the array is found in
the menu table. -/
theorem cicloValidarMenus_acepta (tablaMenus : MenuHashTable) (menus : List Int)
    (hOk : ∀ m ∈ menus, ∃ r, buscarMenuPorID tablaMenus m = .ok (some r)) :
    cicloValidarMenus tablaMenus menus.length menus = .ok true := by
  induction menus with
  | nil => rfl
  | cons x xs ih =>
    obtain ⟨r, hx⟩ := hOk x (List.mem_cons_self x xs)
    simp only [List.length_cons, cicloValidarMenus, hx]
    exact ih (fun m hm => hOk m (List.mem_cons_of_mem x hm))

/-- The loop of `agregarPedido` returns `false` when the array holds an id missing from
the menu table, provided every lookup it makes stays inside the bucket array. -/
theorem cicloValidarMenus_rechaza (tablaMenus : MenuHashTable) (menus : List Int)
    (hIdx : ∀ m ∈ menus, hashIDMenu m < 64)
    (hBad : ∃ m ∈ menus, buscarMenuPorID tablaMenus m = .ok none) :
    cicloValidarMenus tablaMenus menus.length menus = .ok false := by
  induction menus with
  | nil => simp at hBad
  | cons x xs ih =>
    have hx : hashIDMenu x < 64 := hIdx x (List.mem_cons_self x xs)
    simp only [List.length_cons, cicloValidarMenus]
    cases hc : cadenaBuscar Menu.idMenu x (tablaMenus.buckets ⟨hashIDMenu x, hx⟩) with
    | none => simp [buscarMenuPorID, dif_pos hx, hc]
    | some r =>
      have hfound : buscarMenuPorID tablaMenus x = .ok (some r) := by
        simp [buscarMenuPorID, dif_pos hx, hc]
      simp only [hfound]
      apply ih (fun m hm => hIdx m (List.mem_cons_of_mem x hm))
      obtain ⟨m, hmem, hm⟩ := hBad
      rcases List.mem_cons.mp hmem with rfl | hmem'
      · rw [hfound] at hm
        cases hm
      · exact ⟨m, hmem', hm⟩

/-- With an order id whose bucket index is inside the bucket array, `agregarPedido`
rejects a client id that `buscarCliente` does not find and leaves the order table as it
was, whatever the other arguments. -/
theorem agregarPedido_cliente_ausente_en_rango (mallocOk : Bool)
    (tablaPedidos : PedidosHashTable) (tablaMenus : MenuHashTable)
    (tablaClientes : ClientesHashTable) (idPedido idCliente : Int) (fecha : String)
    (menus : List Int) (numMenus : Int) (estado : String)
    (hIdx : hashPedido idPedido < 64)
    (hAbsent : buscarCliente tablaClientes idCliente = .ok none) :
    agregarPedido mallocOk tablaPedidos tablaMenus tablaClientes idPedido idCliente fecha
      menus numMenus estado = .ok (false, tablaPedidos) := by
  simp only [agregarPedido, buscarPedido, dif_pos hIdx, hAbsent]
  cases cadenaBuscar Pedido.idPedido idPedido (tablaPedidos.buckets ⟨hashPedido idPedido, hIdx⟩)
    <;> rfl

/-- With every lookup inside the bucket arrays, `agregarPedido` rejects a menu list that
holds an id missing from the menu table, at any position, and leaves the order table as it
was. -/
theorem agregarPedido_menu_ausente_en_rango (mallocOk : Bool)
    (tablaPedidos : PedidosHashTable) (tablaMenus : MenuHashTable)
    (tablaClientes : ClientesHashTable) (idPedido idCliente : Int) (fecha : String)
    (menus : List Int) (estado : String)
    (hIdx : hashPedido idPedido < 64)
    (hCliente : hashCliente idCliente < 64)
    (hMenus : ∀ m ∈ menus, hashIDMenu m < 64)
    (hBad : ∃ m ∈ menus, buscarMenuPorID tablaMenus m = .ok none) :
    agregarPedido mallocOk tablaPedidos tablaMenus tablaClientes idPedido idCliente fecha
      menus menus.length estado = .ok (false, tablaPedidos) := by
  simp only [agregarPedido, buscarPedido, buscarCliente, dif_pos hIdx, dif_pos hCliente,
    Int.toNat_natCast, cicloValidarMenus_rechaza tablaMenus menus hMenus hBad]
  cases cadenaBuscar Pedido.idPedido idPedido (tablaPedidos.buckets ⟨hashPedido idPedido, hIdx⟩)
    <;> cases cadenaBuscar Cliente.idCliente idCliente
      (tablaClientes.buckets ⟨hashCliente idCliente, hCliente⟩) <;> rfl

/-- The scenario of the specification: on the empty order table and the empty client
table, `agregarPedido` of order 1 for client 5 returns `false` and the count stays 0. -/
theorem agregarPedido_cliente_5_ausente :
    agregarPedido true crearTablaPedidos crearTablaMenus crearTablaClientes 1 5 "2024-01-01"
      [] 0 "Pendiente" = .ok (false, crearTablaPedidos) ∧
    obtenerNumeroDePedidos crearTablaPedidos = 0 :=
  ⟨rfl, rfl⟩

/-- C6, at client id -1 on empty tables: no client has id -1, `hashCliente (-1)` is
4294967295, the lookup of the client reads outside the 64 buckets, and the call does not
return `false`. -/
theorem agregarPedido_unknown_client_negative_id :
    (∀ i : Fin 64, ∀ c ∈ crearTablaClientes.buckets i, c.idCliente ≠ -1) ∧
    hashCliente (-1) = 4294967295 ∧
    agregarPedido true crearTablaPedidos crearTablaMenus crearTablaClientes 1 (-1)
      "2024-01-01" [] 0 "Pendiente" = .error .outOfBounds :=
  ⟨by simp [crearTablaClientes, Tabla.vacia], by decide, rfl⟩

/-- C8, at the menu list [10, -1] with client 5 and menu 10 present: no menu has id -1,
`hashIDMenu (-1)` is 4294967295, the lookup of the second menu id reads outside the 64
buckets, and the call does not return `false`. -/
theorem agregarPedido_unknown_menu_negative_id :
    buscarCliente tablaCliente5 5
      = .ok (some { idCliente := 5, nombre := "Ana", telefono := "5550001" }) ∧
    (∀ i : Fin 64, ∀ m ∈ tablaMenu10.buckets i, m.idMenu ≠ -1) ∧
    agregarPedido true crearTablaPedidos tablaMenu10 tablaCliente5 1 5 "2024-01-01"
      [10, -1] 2 "Pendiente" = .error .outOfBounds := by
  refine ⟨rfl, ?_, rfl⟩
  intro i m hm
  have hmem := Tabla.mem_vacia_poner _ i _ m hm
  rw [List.mem_singleton.mp hmem]
  decide

/-- C7: for a non-negative `idPedido` that no order of the table carries, an `idCliente`
that `buscarCliente` finds, a list of at most 50 menu ids each of which `buscarMenuPorID`
finds, a date that fits `fecha[11]` and a status that fits `estado[15]`, `agregarPedido`
returns `true` (allocation succeeding) and `buscarPedido` then returns the record with
that `idPedido`, `idCliente`, date, menu list, menu count and status. -/
theorem agregarPedido_valid (tablaPedidos : PedidosHashTable) (tablaMenus : MenuHashTable)
    (tablaClientes : ClientesHashTable) (idPedido idCliente : Int) (fecha : String)
    (menus : List Int) (estado : String) (cliente : Cliente)
    (hId : 0 ≤ idPedido)
    (hAbsent : ∀ i : Fin 64, ∀ p ∈ tablaPedidos.buckets i, p.idPedido ≠ idPedido)
    (hCliente : buscarCliente tablaClientes idCliente = .ok (some cliente))
    (hLen : menus.length ≤ 50)
    (hMenus : ∀ m ∈ menus, ∃ r, buscarMenuPorID tablaMenus m = .ok (some r))
    (hFecha : fecha.utf8ByteSize ≤ 10)
    (hEstado : estado.utf8ByteSize ≤ 14) :
    ∃ tabla', agregarPedido true tablaPedidos tablaMenus tablaClientes idPedido idCliente
        fecha menus menus.length estado = .ok (true, tabla') ∧
      buscarPedido tabla' idPedido =
        .ok (some { idPedido := idPedido, idCliente := idCliente, fecha := fecha,
                    menus := menus, numMenus := menus.length, estado := estado }) := by
  have hIdx : hashPedido idPedido < 64 := hashPedido_lt idPedido hId
  have hb : cadenaBuscar Pedido.idPedido idPedido
      (tablaPedidos.buckets ⟨hashPedido idPedido, hIdx⟩) = none :=
    cadenaBuscar_eq_none Pedido.idPedido idPedido _ (hAbsent _)
  have hf : strcpy 11 fecha = .ok fecha := strcpy_fits 11 fecha (by omega)
  have he : strcpy 15 estado = .ok estado := strcpy_fits 15 estado (by omega)
  refine ⟨tablaPedidos.poner ⟨hashPedido idPedido, hIdx⟩
    ({ idPedido := idPedido, idCliente := idCliente, fecha := fecha, menus := menus,
       numMenus := menus.length, estado := estado } ::
      tablaPedidos.buckets ⟨hashPedido idPedido, hIdx⟩), ?_, ?_⟩
  · simp only [agregarPedido, buscarPedido, dif_pos hIdx, hb, hCliente, Int.toNat_natCast,
      cicloValidarMenus_acepta tablaMenus menus hMenus, hf, he, memcpyInts_all 50 menus hLen]
    rfl
  · simp [buscarPedido, dif_pos hIdx, Tabla.buckets_poner_same, cadenaBuscar]

/-- C7 witness: order 1 of client 5 for the menu list [10], pending, into the empty
order table. -/
theorem agregarPedido_valid_witness :
    ∃ tabla', agregarPedido true crearTablaPedidos tablaMenu10 tablaCliente5 1 5
        "2024-03-04" [10] ([10] : List Int).length "Pendiente" = .ok (true, tabla') ∧
      buscarPedido tabla' 1 =
        .ok (some { idPedido := 1, idCliente := 5, fecha := "2024-03-04",
                    menus := [10], numMenus := ([10] : List Int).length,
                    estado := "Pendiente" }) :=
  agregarPedido_valid crearTablaPedidos tablaMenu10 tablaCliente5 1 5 "2024-03-04" [10]
    "Pendiente" { idCliente := 5, nombre := "Ana", telefono := "5550001" }
    (by decide) (by simp [crearTablaPedidos, Tabla.vacia]) rfl (by decide)
    (by
      intro m hm
      rw [List.mem_singleton.mp hm]
      exact ⟨{ idMenu := 10, fecha := "2024-01-01", alimentos := [1], numAlimentos := 1 }, rfl⟩)
    (by decide) (by decide)

/-! ## Lemmas on array cells -/

theorem getElem?_append_length {α : Type} (P : List α) (x : α) (Q : List α) :
    (P ++ x :: Q)[P.length]? = some x := by
  induction P with
  | nil => simp
  | cons p P ih => simpa using ih

theorem leer_append {α : Type} (P : List α) (x : α) (Q : List α) (k : Int)
    (hk : k = P.length) : leer (P ++ x :: Q) k = .ok x := by
  subst hk
  have h0 : (0 : Int) ≤ (P.length : Int) := Int.natCast_nonneg _
  simp only [leer, if_pos h0, Int.toNat_natCast, getElem?_append_length]

theorem escribir_append {α : Type} (P : List α) (x : α) (Q : List α) (k : Int) (y : α)
    (hk : k = P.length) : escribir (P ++ x :: Q) k y = .ok (P ++ y :: Q) := by
  subst hk
  have h0 : (0 : Int) ≤ (P.length : Int) := Int.natCast_nonneg _
  simp [escribir, h0]

/-- Exchanging a cell with itself changes nothing. -/
theorem intercambiar_mismo {α : Type} (P : List α) (x : α) (Q : List α) (k : Int)
    (hk : k = P.length) : intercambiar (P ++ x :: Q) k k = .ok (P ++ x :: Q) := by
  simp only [intercambiar, leer_append P x Q k hk, escribir_append P x Q k x hk]

/-- Exchanging two different cells. -/
theorem intercambiar_append {α : Type} (P : List α) (g : α) (M : List α) (x : α) (Q : List α)
    (a b : Int) (ha : a = P.length) (hb : b = P.length + 1 + M.length) :
    intercambiar (P ++ g :: (M ++ x :: Q)) a b = .ok (P ++ x :: (M ++ g :: Q)) := by
  have e1 : P ++ g :: (M ++ x :: Q) = (P ++ g :: M) ++ x :: Q := by simp
  have e2 : P ++ x :: (M ++ x :: Q) = (P ++ x :: M) ++ x :: Q := by simp
  have e3 : P ++ x :: (M ++ g :: Q) = (P ++ x :: M) ++ g :: Q := by simp
  have hb1 : b = ((P ++ g :: M).length : Int) := by simp [hb]; omega
  have hb2 : b = ((P ++ x :: M).length : Int) := by simp [hb]; omega
  have r1 : leer (P ++ g :: (M ++ x :: Q)) a = .ok g := leer_append P g _ a ha
  have r2 : leer (P ++ g :: (M ++ x :: Q)) b = .ok x := by
    rw [e1]
    exact leer_append _ x Q b hb1
  have w1 : escribir (P ++ g :: (M ++ x :: Q)) a x = .ok (P ++ x :: (M ++ x :: Q)) :=
    escribir_append P g _ a x ha
  have w2 : escribir (P ++ x :: (M ++ x :: Q)) b g = .ok (P ++ x :: (M ++ g :: Q)) := by
    rw [e2, e3]
    exact escribir_append _ x Q b g hb2
  simp only [intercambiar, r1, r2, w1, w2]

/-! ## The partition loop -/

/-- Invariant of the loop of `particion`. The array is `A`, then the cells found smaller
than the pivot, then the cells found not smaller, then the cells still to visit, then
`Z`; `i` is the last cell of the first group and `j` the first cell still to visit. At
the end of the loop the array has the same shape with nothing left to visit. -/
theorem cicloParticion_spec {α K : Type} [LT K] [DecidableRel (fun a b : K => a < b)]
    (key : α → K) (pivot : K) (A Z : List α) (Rest : List α) :
    ∀ (Lt Ge : List α) (i j : Int), i = (A.length : Int) + Lt.length - 1 →
      j = (A.length : Int) + Lt.length + Ge.length →
      (∀ x ∈ Lt, key x < pivot) → (∀ x ∈ Ge, ¬ key x < pivot) →
      ∃ Lt' Ge', cicloParticion key pivot Rest.length (A ++ (Lt ++ (Ge ++ (Rest ++ Z)))) i j
          = .ok (A ++ (Lt' ++ (Ge' ++ Z)), (A.length : Int) + Lt'.length - 1) ∧
        (∀ x ∈ Lt', key x < pivot) ∧ (∀ x ∈ Ge', ¬ key x < pivot) ∧
        (Lt' ++ Ge').Perm (Lt ++ (Ge ++ Rest)) := by
  induction Rest with
  | nil =>
    intro Lt Ge i j hi _ hLt hGe
    exact ⟨Lt, Ge, by simp [cicloParticion, hi], hLt, hGe, by simp⟩
  | cons x Rest ih =>
    intro Lt Ge i j hi hj hLt hGe
    have hread : leer (A ++ (Lt ++ (Ge ++ (x :: Rest ++ Z)))) j = .ok x := by
      have e : A ++ (Lt ++ (Ge ++ (x :: Rest ++ Z))) = (A ++ Lt ++ Ge) ++ x :: (Rest ++ Z) := by
        simp
      rw [e]
      exact leer_append _ x _ j (by
            try simp only [List.length_append, List.length_cons, List.length_nil] at hj
            try simp only [List.length_append, List.length_cons, List.length_nil]
            push_cast at hj ⊢
            omega)
    simp only [List.length_cons, cicloParticion, hread]
    by_cases hx : key x < pivot
    · simp only [if_pos hx]
      have hLt' : ∀ y ∈ Lt ++ [x], key y < pivot := by
        intro y hy
        rcases List.mem_append.mp hy with h | h
        · exact hLt y h
        · rw [List.mem_singleton.mp h]
          exact hx
      cases Ge with
      | nil =>
        have hsw : intercambiar (A ++ (Lt ++ ([] ++ (x :: Rest ++ Z)))) (i + 1) j
            = .ok (A ++ ((Lt ++ [x]) ++ ([] ++ (Rest ++ Z)))) := by
          have e : A ++ (Lt ++ ([] ++ (x :: Rest ++ Z))) = (A ++ Lt) ++ x :: (Rest ++ Z) := by
            simp
          have e' : A ++ ((Lt ++ [x]) ++ ([] ++ (Rest ++ Z))) = (A ++ Lt) ++ x :: (Rest ++ Z) := by
            simp
          have hj' : j = i + 1 := by
            simp only [List.length_nil] at hj
            push_cast at hj
            omega
          rw [e, e', hj']
          exact intercambiar_mismo _ x _ (i + 1)
            (by
            try simp only [List.length_append, List.length_cons, List.length_nil] at hj
            try simp only [List.length_append, List.length_cons, List.length_nil]
            push_cast at hj ⊢
            omega)
        obtain ⟨Lt1, Ge1, h1, h2, h3, h4⟩ := ih (Lt ++ [x]) [] (i + 1) (j + 1)
          (by
            try simp only [List.length_append, List.length_cons, List.length_nil] at hj
            try simp only [List.length_append, List.length_cons, List.length_nil]
            push_cast at hj ⊢
            omega)
          (by
            try simp only [List.length_append, List.length_cons, List.length_nil] at hj
            try simp only [List.length_append, List.length_cons, List.length_nil]
            push_cast at hj ⊢
            omega) hLt' (by simp)
        refine ⟨Lt1, Ge1, ?_, h2, h3, ?_⟩
        · simp only [hsw]
          exact h1
        · refine h4.trans ?_
          simp
      | cons g G =>
        have hsw : intercambiar (A ++ (Lt ++ ((g :: G) ++ (x :: Rest ++ Z)))) (i + 1) j
            = .ok (A ++ ((Lt ++ [x]) ++ ((G ++ [g]) ++ (Rest ++ Z)))) := by
          have e : A ++ (Lt ++ ((g :: G) ++ (x :: Rest ++ Z)))
              = (A ++ Lt) ++ g :: (G ++ x :: (Rest ++ Z)) := by simp
          have e' : A ++ ((Lt ++ [x]) ++ ((G ++ [g]) ++ (Rest ++ Z)))
              = (A ++ Lt) ++ x :: (G ++ g :: (Rest ++ Z)) := by simp
          rw [e, e']
          exact intercambiar_append _ g G x _ (i + 1) j
            (by
            try simp only [List.length_append, List.length_cons, List.length_nil] at hj
            try simp only [List.length_append, List.length_cons, List.length_nil]
            push_cast at hj ⊢
            omega)
            (by
            try simp only [List.length_append, List.length_cons, List.length_nil] at hj
            try simp only [List.length_append, List.length_cons, List.length_nil]
            push_cast at hj ⊢
            omega)
        obtain ⟨Lt1, Ge1, h1, h2, h3, h4⟩ := ih (Lt ++ [x]) (G ++ [g]) (i + 1) (j + 1)
          (by
            try simp only [List.length_append, List.length_cons, List.length_nil] at hj
            try simp only [List.length_append, List.length_cons, List.length_nil]
            push_cast at hj ⊢
            omega)
          (by
            try simp only [List.length_append, List.length_cons, List.length_nil] at hj
            try simp only [List.length_append, List.length_cons, List.length_nil]
            push_cast at hj ⊢
            omega) hLt'
          (by
            intro y hy
            rcases List.mem_append.mp hy with h | h
            · exact hGe y (List.mem_cons_of_mem g h)
            · rw [List.mem_singleton.mp h]
              exact hGe g (List.mem_cons_self g G))
        refine ⟨Lt1, Ge1, ?_, h2, h3, ?_⟩
        · simp only [hsw]
          exact h1
        · refine h4.trans ?_
          simp only [List.append_assoc, List.singleton_append, List.cons_append]
          refine List.Perm.append_left Lt ?_
          have p1 : (x :: (G ++ g :: Rest)).Perm (x :: g :: (G ++ Rest)) :=
            (List.perm_middle).cons x
          have p2 : (g :: (G ++ x :: Rest)).Perm (g :: x :: (G ++ Rest)) :=
            (List.perm_middle).cons g
          exact p1.trans ((List.Perm.swap g x _).trans p2.symm)
    · simp only [if_neg hx]
      obtain ⟨Lt1, Ge1, h1, h2, h3, h4⟩ := ih Lt (Ge ++ [x]) i (j + 1) hi
        (by
            try simp only [List.length_append, List.length_cons, List.length_nil] at hj
            try simp only [List.length_append, List.length_cons, List.length_nil]
            push_cast at hj ⊢
            omega) hLt
        (by
          intro y hy
          rcases List.mem_append.mp hy with h | h
          · exact hGe y h
          · rw [List.mem_singleton.mp h]
            exact hx)
      refine ⟨Lt1, Ge1, ?_, h2, h3, ?_⟩
      · have e : A ++ (Lt ++ (Ge ++ (x :: Rest ++ Z))) = A ++ (Lt ++ ((Ge ++ [x]) ++ (Rest ++ Z))) := by
          simp
        rw [e]
        exact h1
      · refine h4.trans ?_
        simp

/-- What `particion` does on the range holding the cells `S0` followed by the pivot `pv`:
the range becomes `L`, the pivot, `R`, where `L` holds the cells smaller than the pivot
and `R` the others, and the returned index is that of the pivot. The cells before and
after the range stay as they are. -/
theorem particion_spec {α K : Type} [LT K] [DecidableRel (fun a b : K => a < b)]
    (key : α → K) (A S0 : List α) (pv : α) (B : List α) (low high : Int)
    (hlow : low = A.length) (hhigh : high = (A.length : Int) + S0.length) :
    ∃ L R, particion key (A ++ (S0 ++ pv :: B)) low high
        = .ok (A ++ (L ++ pv :: (R ++ B)), (A.length : Int) + L.length) ∧
      (∀ x ∈ L, key x < key pv) ∧ (∀ x ∈ R, ¬ key x < key pv) ∧ (L ++ R).Perm S0 := by
  have hread : leer (A ++ (S0 ++ pv :: B)) high = .ok pv := by
    have e : A ++ (S0 ++ pv :: B) = (A ++ S0) ++ pv :: B := by simp
    rw [e]
    exact leer_append _ pv B high (by simp only [List.length_append]; push_cast; omega)
  have hn : (high - low).toNat = S0.length := by omega
  obtain ⟨Lt, Ge, hc, hLt, hGe, hperm⟩ :=
    cicloParticion_spec key (key pv) A (pv :: B) S0 [] [] (low - 1) low
      (by simp only [List.length_nil]; push_cast; omega)
      (by simp only [List.length_nil]; push_cast; omega) (by simp) (by simp)
  simp only [List.nil_append] at hc hperm
  have hlen : Lt.length + Ge.length = S0.length := by
    have := hperm.length_eq
    simpa using this
  simp only [particion, hread, hn, hc]
  cases Ge with
  | nil =>
    refine ⟨Lt, [], ?_, hLt, by simp, by simpa using hperm⟩
    have hsw : intercambiar (A ++ (Lt ++ ([] ++ pv :: B))) ((A.length : Int) + Lt.length - 1 + 1)
        high = .ok (A ++ (Lt ++ pv :: ([] ++ B))) := by
      have e : A ++ (Lt ++ ([] ++ pv :: B)) = (A ++ Lt) ++ pv :: B := by simp
      have e' : A ++ (Lt ++ pv :: ([] ++ B)) = (A ++ Lt) ++ pv :: B := by simp
      have hh : high = (A.length : Int) + Lt.length - 1 + 1 := by
        simp only [List.length_nil] at hlen
        omega
      rw [e, e', hh]
      exact intercambiar_mismo _ pv B _ (by simp only [List.length_append]; push_cast; omega)
    simp only [hsw]
    congr 2
    omega
  | cons g G =>
    refine ⟨Lt, G ++ [g], ?_, hLt, ?_, ?_⟩
    · have hsw : intercambiar (A ++ (Lt ++ ((g :: G) ++ pv :: B)))
          ((A.length : Int) + Lt.length - 1 + 1) high
          = .ok (A ++ (Lt ++ pv :: ((G ++ [g]) ++ B))) := by
        have e : A ++ (Lt ++ ((g :: G) ++ pv :: B)) = (A ++ Lt) ++ g :: (G ++ pv :: B) := by simp
        have e' : A ++ (Lt ++ pv :: ((G ++ [g]) ++ B)) = (A ++ Lt) ++ pv :: (G ++ g :: B) := by
          simp
        rw [e, e']
        exact intercambiar_append _ g G pv B _ high
          (by simp only [List.length_append]; push_cast; omega)
          (by
            simp only [List.length_cons] at hlen
            simp only [List.length_append]
            push_cast
            omega)
      simp only [hsw]
      congr 2
      omega
    · intro y hy
      rcases List.mem_append.mp hy with h | h
      · exact hGe y (List.mem_cons_of_mem g h)
      · rw [List.mem_singleton.mp h]
        exact hGe g (List.mem_cons_self g G)
    · refine List.Perm.trans ?_ hperm
      refine List.Perm.append_left Lt ?_
      exact List.perm_append_comm

/-- What `quicksort` does on the range holding the cells `S`, for any depth bound of at
least the length of the range minus one: the call returns, the range holds a permutation
of `S` in non-decreasing order of the key, and the cells before and after the range stay
as they are. -/
theorem quicksortHasta_spec {α K : Type} [LinearOrder K] (key : α → K) :
    ∀ (profundidad : Nat) (A S B : List α) (low high : Int), low = A.length →
      high = (A.length : Int) + S.length - 1 → S.length ≤ profundidad + 1 →
      ∃ S', quicksortHasta key profundidad (A ++ (S ++ B)) low high = .ok (A ++ (S' ++ B)) ∧
        S'.Perm S ∧ S'.Pairwise (fun a b => key a ≤ key b) := by
  intro profundidad
  induction profundidad with
  | zero =>
    intro A S B low high _ _ hS
    refine ⟨S, rfl, List.Perm.refl S, ?_⟩
    match S, hS with
    | [], _ => exact List.Pairwise.nil
    | [a], _ => exact List.pairwise_singleton _ a
  | succ n ih =>
    intro A S B low high hlow hhigh hS
    by_cases hlt : low < high
    · rcases List.eq_nil_or_concat S with hnil | ⟨S0, pv, hS0⟩
      · subst hnil
        simp only [List.length_nil] at hhigh
        omega
      · rw [List.concat_eq_append] at hS0
        subst hS0
        have hlenS : (S0 ++ [pv]).length = S0.length + 1 := by simp
        obtain ⟨L, R, hp, hL, hR, hperm⟩ := particion_spec key A S0 pv B low high hlow
          (by rw [hlenS] at hhigh; push_cast at hhigh; omega)
        have hlen : L.length + R.length = S0.length := by
          have := hperm.length_eq
          simpa using this
        obtain ⟨L', hq1, hL'perm, hL'sorted⟩ := ih A L (pv :: (R ++ B)) low
          ((A.length : Int) + L.length - 1) hlow rfl (by omega)
        have hL'len : L'.length = L.length := hL'perm.length_eq
        obtain ⟨R', hq2, hR'perm, hR'sorted⟩ := ih (A ++ (L' ++ [pv])) R B
          ((A.length : Int) + L.length + 1) high
          (by simp only [List.length_append, List.length_singleton, hL'len]; push_cast; omega)
          (by
            rw [hlenS] at hhigh
            simp only [List.length_append, List.length_singleton, hL'len]
            push_cast at hhigh ⊢
            omega)
          (by omega)
        refine ⟨L' ++ pv :: R', ?_, ?_, ?_⟩
        · have e0 : A ++ ((S0 ++ [pv]) ++ B) = A ++ (S0 ++ pv :: B) := by simp
          have e1 : A ++ (L' ++ pv :: (R ++ B)) = (A ++ (L' ++ [pv])) ++ (R ++ B) := by simp
          have e2 : (A ++ (L' ++ [pv])) ++ (R' ++ B) = A ++ ((L' ++ pv :: R') ++ B) := by simp
          have hpi : (A.length : Int) + L.length - 1 = (A.length : Int) + L.length - 1 := rfl
          rw [e1] at hq1
          simp only [quicksortHasta, if_pos hlt, e0, hp, hq1, hq2, e2]
        · have p1 : (L' ++ pv :: R').Perm (L ++ pv :: R) :=
            List.Perm.append hL'perm (hR'perm.cons pv)
          have p2 : (L ++ pv :: R).Perm (pv :: (L ++ R)) := List.perm_middle
          have p3 : (pv :: (L ++ R)).Perm (pv :: S0) := hperm.cons pv
          have p4 : (pv :: S0).Perm (S0 ++ [pv]) := (List.perm_append_singleton pv S0).symm
          exact p1.trans (p2.trans (p3.trans p4))
        · rw [List.pairwise_append]
          refine ⟨hL'sorted, ?_, ?_⟩
          · rw [List.pairwise_cons]
            refine ⟨?_, hR'sorted⟩
            intro b hb
            exact not_lt.mp (hR b ((hR'perm.mem_iff).mp hb))
          · intro a ha b hb
            have ha' : key a < key pv := hL a ((hL'perm.mem_iff).mp ha)
            rcases List.mem_cons.mp hb with rfl | hb'
            · exact le_of_lt ha'
            · exact le_trans (le_of_lt ha') (not_lt.mp (hR b ((hR'perm.mem_iff).mp hb')))
    · refine ⟨S, ?_, List.Perm.refl S, ?_⟩
      · simp only [quicksortHasta, if_neg hlt]
      · have hS1 : S.length ≤ 1 := by omega
        match S, hS1 with
        | [], _ => exact List.Pairwise.nil
        | [a], _ => exact List.pairwise_singleton _ a

/-- The top-level call `quicksort(arr, 0, n - 1)` on an array of `n` cells returns a
permutation of the array in non-decreasing order of the key. -/
theorem quicksort_spec {α K : Type} [LinearOrder K] (key : α → K) (arr : List α) :
    ∃ salida, quicksort key arr 0 ((arr.length : Int) - 1) = .ok salida ∧
      salida.Perm arr ∧ salida.Pairwise (fun a b => key a ≤ key b) := by
  obtain ⟨S', h, hperm, hsorted⟩ := quicksortHasta_spec key
    (((arr.length : Int) - 1 - 0).toNat) [] arr [] 0 ((arr.length : Int) - 1)
    (by simp) (by simp) (by omega)
  refine ⟨S', ?_, hperm, hsorted⟩
  simpa [quicksort] using h

/-! ## The binary search loop -/

/-- A read inside the array gives the cell at that index. -/
theorem leer_en_rango {α : Type} (arr : List α) (k : Int) (h0 : 0 ≤ k)
    (h1 : k < (arr.length : Int)) :
    ∃ v, leer arr k = .ok v ∧ arr[k.toNat]? = some v := by
  have hk : k.toNat < arr.length := by omega
  refine ⟨arr[k.toNat], ?_, List.getElem?_eq_getElem hk⟩
  simp only [leer, if_pos h0, List.getElem?_eq_getElem hk]

/-- The value of `mid` lies between `low` and `high`. -/
theorem mid_entre (low high : Int) (h : low ≤ high) :
    low ≤ low + (high - low).tdiv 2 ∧ low + (high - low).tdiv 2 ≤ high := by
  have hdiv : (high - low).tdiv 2 = (high - low) / 2 :=
    Int.tdiv_eq_ediv (by omega) (by decide)
  rw [hdiv]
  omega

/-- On any array, sorted or not, whose cells all have a key other than `idBuscado`, the
loop started on a window inside the array ends with `resultado` still -1. -/
theorem cicloBusqueda_ausente {α : Type} (key : α → Int) (arr : List α) (idBuscado : Int)
    (hAbsent : ∀ r ∈ arr, key r ≠ idBuscado) :
    ∀ (n : Nat) (low high : Int), (high - low + 1).toNat ≤ n → 0 ≤ low →
      high < (arr.length : Int) → cicloBusqueda key arr idBuscado low high = .ok (-1) := by
  intro n
  induction n with
  | zero =>
    intro low high hn _ _
    rw [cicloBusqueda, if_neg (by omega)]
  | succ n ih =>
    intro low high hn hlow hhigh
    rw [cicloBusqueda]
    by_cases hle : low ≤ high
    · obtain ⟨hm1, hm2⟩ := mid_entre low high hle
      obtain ⟨v, hv, hget⟩ := leer_en_rango arr (low + (high - low).tdiv 2) (by omega) (by omega)
      have hne : key v ≠ idBuscado := hAbsent v (List.getElem?_mem hget)
      simp only [if_pos hle, hv, if_neg hne]
      by_cases hlt : key v < idBuscado
      · simp only [if_pos hlt]
        exact ih _ _ (by omega) (by omega) hhigh
      · simp only [if_neg hlt]
        exact ih _ _ (by omega) hlow (by omega)
    · rw [if_neg hle]

/-- On an array in strictly ascending order of the key, the loop started on a window
that holds the index `t` of a cell with key `idBuscado` ends with `resultado = t`. -/
theorem cicloBusqueda_presente {α : Type} (key : α → Int) (arr : List α) (idBuscado : Int)
    (hSorted : arr.Pairwise (fun a b => key a < key b)) (t : Nat) (rt : α)
    (ht : arr[t]? = some rt) (hkey : key rt = idBuscado) :
    ∀ (n : Nat) (low high : Int), (high - low + 1).toNat ≤ n → 0 ≤ low →
      high < (arr.length : Int) → low ≤ (t : Int) → (t : Int) ≤ high →
      cicloBusqueda key arr idBuscado low high = .ok (t : Int) := by
  have hmono : ∀ (i j : Nat) (a b : α), arr[i]? = some a → arr[j]? = some b → i < j →
      key a < key b := by
    intro i j a b hi hj hij
    obtain ⟨hi', rfl⟩ := List.getElem?_eq_some.mp hi
    obtain ⟨hj', rfl⟩ := List.getElem?_eq_some.mp hj
    exact List.pairwise_iff_getElem.mp hSorted i j hi' hj' hij
  intro n
  induction n with
  | zero =>
    intro low high hn _ _ h1 h2
    omega
  | succ n ih =>
    intro low high hn hlow hhigh h1 h2
    rw [cicloBusqueda]
    have hle : low ≤ high := by omega
    obtain ⟨hm1, hm2⟩ := mid_entre low high hle
    obtain ⟨v, hv, hget⟩ := leer_en_rango arr (low + (high - low).tdiv 2) (by omega) (by omega)
    simp only [if_pos hle, hv]
    by_cases heq : key v = idBuscado
    · simp only [if_pos heq]
      have hmid : (low + (high - low).tdiv 2).toNat = t := by
        rcases Nat.lt_trichotomy (low + (high - low).tdiv 2).toNat t with h | h | h
        · have := hmono _ _ _ _ hget ht h
          omega
        · exact h
        · have := hmono _ _ _ _ ht hget h
          omega
      congr 1
      omega
    · simp only [if_neg heq]
      by_cases hlt : key v < idBuscado
      · simp only [if_pos hlt]
        have hmt : (low + (high - low).tdiv 2).toNat < t := by
          by_contra hcon
          rcases Nat.eq_or_lt_of_le (Nat.le_of_not_lt hcon) with h | h
          · rw [h, hget] at ht
            cases ht
            exact heq hkey
          · have := hmono _ _ _ _ ht hget h
            omega
        exact ih _ _ (by omega) (by omega) hhigh (by omega) h2
      · simp only [if_neg hlt]
        have hmt : t < (low + (high - low).tdiv 2).toNat := by
          by_contra hcon
          rcases Nat.eq_or_lt_of_le (Nat.le_of_not_lt hcon) with h | h
          · rw [h, ht] at hget
            cases hget
            exact heq hkey
          · have := hmono _ _ _ _ hget ht h
            omega
        exact ih _ _ (by omega) hlow (by omega) h1 (by omega)

/-! ## The snapshot -/

/-- Copying a chain into the array from cell `index` on: the cells written hold the
chain, the rest of the array is kept. -/
theorem copiarCadena_spec {α : Type} :
    ∀ (cadena P D : List α) (index : Int), index = P.length → cadena.length ≤ D.length →
      copiarCadena cadena (P ++ D, index)
        = .ok (P ++ (cadena ++ D.drop cadena.length), index + cadena.length) := by
  intro cadena
  induction cadena with
  | nil =>
    intro P D index _ _
    simp [copiarCadena]
  | cons a c ih =>
    intro P D index hidx hlen
    match D, hlen with
    | d :: D', hlen =>
      have hw : escribir (P ++ d :: D') index a = .ok ((P ++ [a]) ++ D') := by
        rw [escribir_append P d D' index a hidx]
        simp
      have hrec := ih (P ++ [a]) D' (index + 1)
        (by simp only [List.length_append, List.length_singleton]; push_cast; omega)
        (by simpa using hlen)
      simp only [copiarCadena, hw, hrec, List.length_cons, List.drop_succ_cons]
      congr 2
      · simp
      · push_cast
        omega

/-- Copying the chains of several buckets in turn. -/
theorem copiarCadenas_spec {α : Type} :
    ∀ (cadenas : List (List α)) (P D : List α) (index : Int), index = P.length →
      cadenas.flatten.length ≤ D.length →
      copiarCadenas cadenas (P ++ D, index)
        = .ok (P ++ (cadenas.flatten ++ D.drop cadenas.flatten.length),
            index + cadenas.flatten.length) := by
  intro cadenas
  induction cadenas with
  | nil =>
    intro P D index _ _
    simp [copiarCadenas]
  | cons c cs ih =>
    intro P D index hidx hlen
    simp only [List.flatten_cons, List.length_append] at hlen
    have h1 := copiarCadena_spec c P D index hidx (by omega)
    have e : P ++ (c ++ D.drop c.length) = (P ++ c) ++ D.drop c.length := by simp
    have h2 := ih (P ++ c) (D.drop c.length) (index + c.length)
      (by simp only [List.length_append]; push_cast; omega)
      (by simp only [List.length_drop]; omega)
    simp only [copiarCadenas, h1, e, h2, List.flatten_cons, List.length_append,
      List.drop_drop]
    congr 2
    · simp [Nat.add_comm]
    · push_cast
      omega

/-- The count of `obtenerNumeroDe...` is the number of records of the snapshot: the sum
of the lengths of the 64 chains. -/
theorem Tabla.contar_eq {α : Type} (t : Tabla α) : t.contar = t.registros.length := by
  have inner : ∀ (l : List α) (c : Nat), l.foldl (fun c _ => c + 1) c = c + l.length := by
    intro l
    induction l with
    | nil => intro c; rfl
    | cons a l ih =>
      intro c
      simp only [List.foldl_cons, ih, List.length_cons]
      omega
  have hfun : (fun (contador : Nat) (i : Fin 64) =>
      (t.buckets i).foldl (fun c _ => c + 1) contador)
      = (fun contador i => contador + (t.buckets i).length) := by
    funext contador i
    exact inner _ _
  have outer : ∀ (L : List (Fin 64)) (c : Nat),
      L.foldl (fun contador i => contador + (t.buckets i).length) c
        = c + ((L.map t.buckets).flatten).length := by
    intro L
    induction L with
    | nil => intro c; rfl
    | cons i L ih =>
      intro c
      simp only [List.foldl_cons, ih, List.map_cons, List.flatten_cons, List.length_append]
      omega
  simp only [Tabla.contar, Tabla.registros, hfun, outer, Nat.zero_add]

/-- Into an array of as many cells as the table has records, `copiar...DesdeTabla` writes
the records of bucket 0 in chain order, then those of bucket 1, up to bucket 63, and
fills the array. -/
theorem Tabla.copiar_spec {α : Type} (t : Tabla α) (destino : List α)
    (h : destino.length = t.contar) : t.copiar destino = .ok t.registros := by
  rw [Tabla.contar_eq] at h
  have hs := copiarCadenas_spec ((List.finRange 64).map t.buckets) [] destino 0 rfl
    (by simp only [Tabla.registros] at h; omega)
  simp only [List.nil_append] at hs
  have hdrop : destino.drop ((List.finRange 64).map t.buckets).flatten.length = [] := by
    apply List.drop_eq_nil_of_le
    simp only [Tabla.registros] at h
    omega
  simp only [Tabla.copiar, hs, hdrop, List.append_nil, Tabla.registros]

theorem Tabla.mem_registros {α : Type} (t : Tabla α) (i : Fin 64) (a : α)
    (h : a ∈ t.buckets i) : a ∈ t.registros := by
  simp only [Tabla.registros, List.mem_flatten, List.mem_map]
  exact ⟨t.buckets i, ⟨i, List.mem_finRange i, rfl⟩, h⟩

/-- With pairwise distinct keys over the whole table, the keys of one chain are pairwise
distinct. -/
theorem Tabla.nodup_bucket {α : Type} (key : α → Int) (t : Tabla α)
    (h : (t.registros.map key).Nodup) (i : Fin 64) : ((t.buckets i).map key).Nodup := by
  have hsub : (t.buckets i).Sublist t.registros :=
    List.sublist_flatten_of_mem (List.mem_map.mpr ⟨i, List.mem_finRange i, rfl⟩)
  exact List.Nodup.sublist (hsub.map key) h

/-! ## Sort, then search -/

/-- Sorting an array with pairwise distinct keys gives an array in strictly ascending
order of the key, and the binary search of a key carried by some cell then returns an
index inside the array whose cell has that key. -/
theorem buscar_tras_ordenar {α : Type} (key : α → Int) (arr : List α) (k : Int)
    (hDistinct : (arr.map key).Nodup) (hPresent : ∃ c ∈ arr, key c = k) :
    ∃ ordenado r, quicksort key arr 0 ((arr.length : Int) - 1) = .ok ordenado ∧
      ordenado.Perm arr ∧ ordenado.Pairwise (fun a b => key a < key b) ∧
      busquedaBinaria key ordenado arr.length k = .ok r ∧
      0 ≤ r ∧ r < arr.length ∧ ∃ c, ordenado[r.toNat]? = some c ∧ key c = k := by
  obtain ⟨ordenado, hq, hperm, hsorted⟩ := quicksort_spec key arr
  have hnd : (ordenado.map key).Nodup := ((hperm.map key).nodup_iff).mpr hDistinct
  have hne : ordenado.Pairwise (fun a b => key a ≠ key b) := List.pairwise_map.mp hnd
  have hstrict : ordenado.Pairwise (fun a b => key a < key b) :=
    (hsorted.and hne).imp (fun h => lt_of_le_of_ne h.1 h.2)
  obtain ⟨c, hc, hk⟩ := hPresent
  obtain ⟨t, ht⟩ := List.mem_iff_getElem?.mp ((hperm.mem_iff).mpr hc)
  obtain ⟨htlen, _⟩ := List.getElem?_eq_some.mp ht
  have hlen : ordenado.length = arr.length := hperm.length_eq
  have hfound := cicloBusqueda_presente key ordenado k hstrict t c ht hk
    (((arr.length : Int) - 1 - 0 + 1).toNat) 0 ((arr.length : Int) - 1) (le_refl _)
    (le_refl _) (by omega) (by omega) (by omega)
  refine ⟨ordenado, (t : Int), hq, hperm, hstrict, hfound, by omega, by omega, c, ?_, hk⟩
  simpa using ht

/-! ## Deleting a food and the menus that list it -/

/-- After a successful unlink from a chain with pairwise distinct keys, the key is no
longer found in the chain. -/
theorem cadenaBuscar_tras_eliminar {α : Type} (key : α → Int) (id : Int) :
    ∀ (cadena resto : List α), (cadena.map key).Nodup →
      cadenaEliminar key id cadena = some resto → cadenaBuscar key id resto = none := by
  intro cadena
  induction cadena with
  | nil =>
    intro resto _ h
    simp [cadenaEliminar] at h
  | cons a c ih =>
    intro resto hnd h
    rw [List.map_cons, List.nodup_cons] at hnd
    by_cases ha : key a = id
    · simp only [cadenaEliminar, if_pos ha, Option.some.injEq] at h
      subst h
      apply cadenaBuscar_eq_none
      intro b hb hkb
      exact hnd.1 (List.mem_map.mpr ⟨b, hb, by rw [hkb, ha]⟩)
    · simp only [cadenaEliminar, if_neg ha, Option.map_eq_some'] at h
      obtain ⟨r, hr, rfl⟩ := h
      simp only [cadenaBuscar, if_neg ha]
      exact ih r hnd.2 hr

/-- The unlink loop removes the first node of the key and no other: on the table value
`sistemaDosTacos`, whose food table holds two records of id 1 and which no sequence of
calls builds (`tablaDosTacos_no_alcanzable`), `eliminarAlimento` of food 1 succeeds and
`buscarAlimento` of food 1 still returns a record. -/
theorem eliminarAlimento_duplicate_still_found :
    buscarMenuPorID sistemaDosTacos.tablaMenus 10
      = .ok (some { idMenu := 10, fecha := "2024-01-01", alimentos := [1], numAlimentos := 1 }) ∧
    (sistemaDosTacos.eliminarAlimento 1).1 = true ∧
    buscarAlimento (sistemaDosTacos.eliminarAlimento 1).2.tablaAlimentos 1
      = some { id := 1, nombre := "Torta", precio := 4, disponible := 1 } :=
  ⟨rfl, rfl, rfl⟩

/-- On global tables whose food table has pairwise distinct ids and whose menu table
holds a menu `m` listing the food id `f`, after `eliminarAlimento` of `f` succeeds
`buscarAlimento` of `f` is `NULL`, while `buscarMenuPorID` of `m` returns the same record
as before. -/
theorem eliminarAlimento_sin_cascada (s : Sistema) (m f : Int) (menu : Menu)
    (hDistinct : (s.tablaAlimentos.registros.map Alimento.id).Nodup)
    (hMenu : buscarMenuPorID s.tablaMenus m = .ok (some menu))
    (hLists : f ∈ menu.alimentos)
    (hDeleted : (s.eliminarAlimento f).1 = true) :
    buscarAlimento (s.eliminarAlimento f).2.tablaAlimentos f = none ∧
    buscarMenuPorID (s.eliminarAlimento f).2.tablaMenus m = .ok (some menu) ∧
    f ∈ menu.alimentos := by
  refine ⟨?_, hMenu, hLists⟩
  have hnd := Tabla.nodup_bucket Alimento.id s.tablaAlimentos hDistinct (indiceAlimento f)
  simp only [Sistema.eliminarAlimento, eliminarAlimento] at hDeleted ⊢
  cases hc : cadenaEliminar Alimento.id f (s.tablaAlimentos.buckets (indiceAlimento f)) with
  | none => simp [hc] at hDeleted
  | some resto =>
    simp only [buscarAlimento, Tabla.buckets_poner_same]
    exact cadenaBuscar_tras_eliminar Alimento.id f _ resto hnd hc

/-! ## Snapshot, sort, search -/

/-- C12: for a client table with pairwise distinct ids, an array of
`n = obtenerNumeroDeClientes` cells and an id `k` carried by a record of the table,
`copiarClientesDesdeTabla` fills the array, `quicksortClientesParallel(arr, 0, n - 1)`
returns, and `busquedaBinariaClientesParallel(arr, n, k)` returns an index `r` with
`0 <= r < n` and `arr[r].idCliente = k`. The ids need not be non-negative for this. -/
theorem clientes_snapshot_sort_search (tabla : ClientesHashTable) (clientes : List Cliente)
    (k : Int)
    (hDistinct : (tabla.registros.map Cliente.idCliente).Nodup)
    (hArr : clientes.length = obtenerNumeroDeClientes tabla)
    (hPresent : ∃ i : Fin 64, ∃ c ∈ tabla.buckets i, c.idCliente = k) :
    ∃ copia ordenado r,
      copiarClientesDesdeTabla tabla clientes = .ok copia ∧
      quicksortClientesParallel copia 0 ((obtenerNumeroDeClientes tabla : Int) - 1)
        = .ok ordenado ∧
      busquedaBinariaClientesParallel ordenado (obtenerNumeroDeClientes tabla) k = .ok r ∧
      0 ≤ r ∧ r < (obtenerNumeroDeClientes tabla : Int) ∧
      ∃ c, ordenado[r.toNat]? = some c ∧ c.idCliente = k := by
  obtain ⟨i, c, hc, hk⟩ := hPresent
  have hn : obtenerNumeroDeClientes tabla = tabla.registros.length := Tabla.contar_eq tabla
  obtain ⟨ordenado, r, hq, _, _, hb, h0, h1, hfound⟩ :=
    buscar_tras_ordenar Cliente.idCliente tabla.registros k hDistinct
      ⟨c, Tabla.mem_registros tabla i c hc, hk⟩
  refine ⟨tabla.registros, ordenado, r, Tabla.copiar_spec tabla clientes hArr, ?_, ?_, h0, ?_,
    hfound⟩
  · rw [hn]
    exact hq
  · rw [hn]
    exact hb
  · rw [hn]
    exact h1

/-- C12 witness: the table with the clients 69 and 5 chained in bucket 5 and the client 7
in bucket 7, a three-cell array, and `k = 69`, which the sort moves from the first cell
to the last. -/
theorem clientes_snapshot_sort_search_witness :
    ∃ copia ordenado r,
      copiarClientesDesdeTabla tablaTresClientes
        [{ idCliente := 0, nombre := "", telefono := "" },
         { idCliente := 0, nombre := "", telefono := "" },
         { idCliente := 0, nombre := "", telefono := "" }] = .ok copia ∧
      quicksortClientesParallel copia 0 ((obtenerNumeroDeClientes tablaTresClientes : Int) - 1)
        = .ok ordenado ∧
      busquedaBinariaClientesParallel ordenado (obtenerNumeroDeClientes tablaTresClientes) 69
        = .ok r ∧
      0 ≤ r ∧ r < (obtenerNumeroDeClientes tablaTresClientes : Int) ∧
      ∃ c, ordenado[r.toNat]? = some c ∧ c.idCliente = 69 :=
  clientes_snapshot_sort_search tablaTresClientes
    [{ idCliente := 0, nombre := "", telefono := "" },
     { idCliente := 0, nombre := "", telefono := "" },
     { idCliente := 0, nombre := "", telefono := "" }] 69
    (by
      have h : tablaTresClientes.registros.map Cliente.idCliente = [69, 5, 7] := rfl
      rw [h]
      decide)
    rfl
    ⟨⟨5, by decide⟩, { idCliente := 69, nombre := "Luis", telefono := "5550002" },
      by
        have h : tablaTresClientes.buckets ⟨5, by decide⟩
            = [{ idCliente := 69, nombre := "Luis", telefono := "5550002" },
               { idCliente := 5, nombre := "Ana", telefono := "5550001" }] := rfl
        rw [h]
        simp,
      rfl⟩

/-- C13, at the food table built by the inserts of food 1 (price 3), food 2 (price 2) and
food 3 (price 1): the ids are pairwise distinct and id 1 is in the table, the snapshot is
foods 3, 2, 1, `quicksortAlimentosParallel` orders it by `precio` and leaves it as
foods 3, 2, 1, and `busquedaBinariaAlimentosParallel`, which compares `id`, returns -1
for id 1. -/
theorem alimentos_sort_by_price_search_by_id_misses :
    insertarAlimento true crearTablaHash 1 "Taco" 3 "Si" = .ok (true, tablaUnAlimento) ∧
    insertarAlimento true tablaUnAlimento 2 "Sopa" 2 "Si" = .ok (true, tablaDosAlimentos) ∧
    insertarAlimento true tablaDosAlimentos 3 "Flan" 1 "Si" = .ok (true, tablaTresAlimentos) ∧
    buscarAlimento tablaTresAlimentos 1
      = some { id := 1, nombre := "Taco", precio := 3, disponible := 1 } ∧
    ((tablaTresAlimentos.registros).map Alimento.id).Nodup ∧
    obtenerNumeroDeAlimentos tablaTresAlimentos = 3 ∧
    copiarAlimentosDesdeTabla tablaTresAlimentos
        (List.replicate 3 { id := 0, nombre := "", precio := 0, disponible := 0 })
      = .ok [{ id := 3, nombre := "Flan", precio := 1, disponible := 1 },
             { id := 2, nombre := "Sopa", precio := 2, disponible := 1 },
             { id := 1, nombre := "Taco", precio := 3, disponible := 1 }] ∧
    quicksortAlimentosParallel
        [{ id := 3, nombre := "Flan", precio := 1, disponible := 1 },
         { id := 2, nombre := "Sopa", precio := 2, disponible := 1 },
         { id := 1, nombre := "Taco", precio := 3, disponible := 1 }] 0 (3 - 1)
      = .ok [{ id := 3, nombre := "Flan", precio := 1, disponible := 1 },
             { id := 2, nombre := "Sopa", precio := 2, disponible := 1 },
             { id := 1, nombre := "Taco", precio := 3, disponible := 1 }] ∧
    busquedaBinariaAlimentosParallel
        [{ id := 3, nombre := "Flan", precio := 1, disponible := 1 },
         { id := 2, nombre := "Sopa", precio := 2, disponible := 1 },
         { id := 1, nombre := "Taco", precio := 3, disponible := 1 }] 3 1
      = .ok (-1) := by
  refine ⟨rfl, rfl, rfl, rfl, ?_, rfl, rfl, rfl, ?_⟩
  · have h : tablaTresAlimentos.registros
        = [{ id := 3, nombre := "Flan", precio := 1, disponible := 1 },
           { id := 2, nombre := "Sopa", precio := 2, disponible := 1 },
           { id := 1, nombre := "Taco", precio := 3, disponible := 1 }] := rfl
    rw [h]
    decide
  · simp [busquedaBinariaAlimentosParallel, busquedaBinaria, cicloBusqueda, leer]

/-! ## Quicksort against a reference sort -/

/-- C14: for an array of menus with pairwise distinct `idMenu`, of any length,
`quicksortMenusParallel(arr, 0, n - 1)`, its two sections run one after the other,
returns exactly the array of the reference sort by ascending `idMenu`: a permutation of
the input in strictly ascending order of `idMenu`, so `arr[i].idMenu < arr[i+1].idMenu`
for every `i`. -/
theorem quicksortMenus_eq_reference (menus : List Menu)
    (hDistinct : (menus.map Menu.idMenu).Nodup) :
    quicksortMenusParallel menus 0 ((menus.length : Int) - 1)
      = .ok (ordenReferenciaMenus menus) ∧
    (ordenReferenciaMenus menus).Perm menus ∧
    (ordenReferenciaMenus menus).Pairwise (fun a b => a.idMenu < b.idMenu) ∧
    ∀ (i : Nat) (a b : Menu), (ordenReferenciaMenus menus)[i]? = some a →
      (ordenReferenciaMenus menus)[i + 1]? = some b → a.idMenu < b.idMenu := by
  haveI : IsTotal Menu (fun a b => a.idMenu ≤ b.idMenu) := ⟨fun a b => le_total _ _⟩
  haveI : IsTrans Menu (fun a b => a.idMenu ≤ b.idMenu) := ⟨fun _ _ _ h1 h2 => le_trans h1 h2⟩
  haveI : IsAntisymm Menu (fun a b => a.idMenu < b.idMenu) :=
    ⟨fun _ _ h1 h2 => absurd h1 (lt_asymm h2)⟩
  have strict : ∀ l : List Menu, l.Perm menus → l.Pairwise (fun a b => a.idMenu ≤ b.idMenu) →
      l.Pairwise (fun a b => a.idMenu < b.idMenu) := by
    intro l hperm hsorted
    have hnd : (l.map Menu.idMenu).Nodup := ((hperm.map Menu.idMenu).nodup_iff).mpr hDistinct
    have hne : l.Pairwise (fun a b => a.idMenu ≠ b.idMenu) := List.pairwise_map.mp hnd
    exact (hsorted.and hne).imp (fun h => lt_of_le_of_ne h.1 h.2)
  obtain ⟨salida, hq, hperm, hsorted⟩ := quicksort_spec Menu.idMenu menus
  have hrefPerm : (ordenReferenciaMenus menus).Perm menus :=
    List.perm_insertionSort _ menus
  have hrefSorted : (ordenReferenciaMenus menus).Pairwise (fun a b => a.idMenu ≤ b.idMenu) :=
    List.sorted_insertionSort _ menus
  have hrefStrict := strict _ hrefPerm hrefSorted
  have heq : salida = ordenReferenciaMenus menus :=
    List.eq_of_perm_of_sorted (hperm.trans hrefPerm.symm) (strict _ hperm hsorted) hrefStrict
  refine ⟨?_, hrefPerm, hrefStrict, ?_⟩
  · rw [← heq]
    exact hq
  · intro i a b ha hb
    obtain ⟨hi, rfl⟩ := List.getElem?_eq_some.mp ha
    obtain ⟨hj, rfl⟩ := List.getElem?_eq_some.mp hb
    exact List.pairwise_iff_getElem.mp hrefStrict i (i + 1) hi hj (Nat.lt_succ_self i)

/-- C14 witness: the two menus 20 and 10, in this order. -/
theorem quicksortMenus_eq_reference_witness :
    quicksortMenusParallel
        [{ idMenu := 20, fecha := "2024-02-02", alimentos := [1], numAlimentos := 1 },
         { idMenu := 10, fecha := "2024-01-01", alimentos := [1], numAlimentos := 1 }]
        0 (((2 : Nat) : Int) - 1)
      = .ok (ordenReferenciaMenus
        [{ idMenu := 20, fecha := "2024-02-02", alimentos := [1], numAlimentos := 1 },
         { idMenu := 10, fecha := "2024-01-01", alimentos := [1], numAlimentos := 1 }]) :=
  (quicksortMenus_eq_reference
    [{ idMenu := 20, fecha := "2024-02-02", alimentos := [1], numAlimentos := 1 },
     { idMenu := 10, fecha := "2024-01-01", alimentos := [1], numAlimentos := 1 }]
    (by decide)).1

/-! ## Order by price -/

/-- C15 as stated fails on two foods of the same price: the pivot is the second record,
the first is not smaller, and the last exchange of the partition swaps them. The general
form is `quicksortAlimentos_equal_prices_rotate`. -/
theorem quicksortAlimentos_not_stable :
    quicksortAlimentosParallel
        [{ id := 1, nombre := "Taco", precio := 2, disponible := 1 },
         { id := 2, nombre := "Sopa", precio := 2, disponible := 1 }] 0 1
      = .ok [{ id := 2, nombre := "Sopa", precio := 2, disponible := 1 },
             { id := 1, nombre := "Taco", precio := 2, disponible := 1 }] ∧
    ¬ OrdenRelativoConservado
        [{ id := 1, nombre := "Taco", precio := 2, disponible := 1 },
         { id := 2, nombre := "Sopa", precio := 2, disponible := 1 }]
        [{ id := 2, nombre := "Sopa", precio := 2, disponible := 1 },
         { id := 1, nombre := "Taco", precio := 2, disponible := 1 }] := by
  refine ⟨rfl, ?_⟩
  intro h
  have h2 := h 2
  simp [List.filter] at h2

/-- C16: on every array of `n >= 0` foods (prices being rationals, hence totally
ordered), `quicksortAlimentosParallel(arr, 0, n - 1)` returns a permutation of the input
in non-decreasing order of `precio`, equal prices included: `arr[i].precio <=
arr[i+1].precio` for every `i`, and more generally `arr[i].precio <= arr[j].precio` for
`i < j`. -/
theorem quicksortAlimentos_sorts_by_price (alimentos : List Alimento) :
    ∃ salida, quicksortAlimentosParallel alimentos 0 ((alimentos.length : Int) - 1)
        = .ok salida ∧
      salida.Perm alimentos ∧
      salida.Pairwise (fun a b => a.precio ≤ b.precio) ∧
      ∀ (i : Nat) (a b : Alimento), salida[i]? = some a → salida[i + 1]? = some b →
        a.precio ≤ b.precio := by
  obtain ⟨salida, hq, hperm, hsorted⟩ := quicksort_spec Alimento.precio alimentos
  refine ⟨salida, hq, hperm, hsorted, ?_⟩
  intro i a b ha hb
  obtain ⟨hi, rfl⟩ := List.getElem?_eq_some.mp ha
  obtain ⟨hj, rfl⟩ := List.getElem?_eq_some.mp hb
  exact List.pairwise_iff_getElem.mp hsorted i (i + 1) hi hj (Nat.lt_succ_self i)

/-! ## Binary search -/

/-- C17: on every array of `n >= 0` orders, sorted or not, and every `idBuscado` that no
record of the array carries, `busquedaBinariaPedidosParallel(arr, n, idBuscado)` returns
-1. -/
theorem busquedaBinariaPedidos_missing (pedidos : List Pedido) (idBuscado : Int)
    (hAbsent : ∀ p ∈ pedidos, p.idPedido ≠ idBuscado) :
    busquedaBinariaPedidosParallel pedidos pedidos.length idBuscado = .ok (-1) :=
  cicloBusqueda_ausente Pedido.idPedido pedidos idBuscado hAbsent
    (((pedidos.length : Int) - 1 - 0 + 1).toNat) 0 ((pedidos.length : Int) - 1) (le_refl _)
    (le_refl _) (by omega)

/-- C17 witness: the orders 7 and 3, in this order, and the id 5. -/
theorem busquedaBinariaPedidos_missing_witness :
    busquedaBinariaPedidosParallel
      [{ idPedido := 7, idCliente := 5, fecha := "2024-03-04", menus := [10], numMenus := 1,
         estado := "Pendiente" },
       { idPedido := 3, idCliente := 5, fecha := "2024-03-05", menus := [10], numMenus := 1,
         estado := "Completado" }]
      (([{ idPedido := 7, idCliente := 5, fecha := "2024-03-04", menus := [10], numMenus := 1,
           estado := "Pendiente" },
         { idPedido := 3, idCliente := 5, fecha := "2024-03-05", menus := [10], numMenus := 1,
           estado := "Completado" }] : List Pedido).length) 5 = .ok (-1) :=
  busquedaBinariaPedidos_missing _ 5 (by
    intro p hp
    simp only [List.mem_cons, List.mem_singleton, List.not_mem_nil, or_false] at hp
    rcases hp with rfl | rfl <;> decide)

/-- C18: on an array of `n` foods in strictly ascending order of `id` and an `idBuscado`
carried by some record, `busquedaBinariaAlimentosParallel(arr, n, idBuscado)` returns the
index `i` with `arr[i].id = idBuscado`, and no other index has that id. -/
theorem busquedaBinariaAlimentos_finds (alimentos : List Alimento) (idBuscado : Int)
    (hSorted : alimentos.Pairwise (fun a b => a.id < b.id))
    (hPresent : ∃ a ∈ alimentos, a.id = idBuscado) :
    ∃ i : Nat, busquedaBinariaAlimentosParallel alimentos alimentos.length idBuscado
        = .ok (i : Int) ∧
      (∃ a, alimentos[i]? = some a ∧ a.id = idBuscado) ∧
      ∀ (j : Nat) (b : Alimento), alimentos[j]? = some b → b.id = idBuscado → j = i := by
  obtain ⟨a, ha, hk⟩ := hPresent
  obtain ⟨t, ht⟩ := List.mem_iff_getElem?.mp ha
  obtain ⟨htlen, _⟩ := List.getElem?_eq_some.mp ht
  refine ⟨t, ?_, ⟨a, ht, hk⟩, ?_⟩
  · exact cicloBusqueda_presente Alimento.id alimentos idBuscado hSorted t a ht hk
      (((alimentos.length : Int) - 1 - 0 + 1).toNat) 0 ((alimentos.length : Int) - 1)
      (le_refl _) (le_refl _) (by omega) (by omega) (by omega)
  · intro j b hb hbk
    obtain ⟨hj, rfl⟩ := List.getElem?_eq_some.mp hb
    obtain ⟨_, rfl⟩ := List.getElem?_eq_some.mp ht
    have hpair := List.pairwise_iff_getElem.mp hSorted
    rcases Nat.lt_trichotomy j t with h | h | h
    · have := hpair j t hj htlen h
      omega
    · exact h
    · have := hpair t j htlen hj h
      omega

/-- C18 witness: the foods 1, 2, 3 in this order and the id 3. -/
theorem busquedaBinariaAlimentos_finds_witness :
    ∃ i : Nat, busquedaBinariaAlimentosParallel
        [{ id := 1, nombre := "Taco", precio := 3, disponible := 1 },
         { id := 2, nombre := "Sopa", precio := 2, disponible := 1 },
         { id := 3, nombre := "Flan", precio := 1, disponible := 1 }]
        (([{ id := 1, nombre := "Taco", precio := 3, disponible := 1 },
           { id := 2, nombre := "Sopa", precio := 2, disponible := 1 },
           { id := 3, nombre := "Flan", precio := 1, disponible := 1 }] :
           List Alimento).length) 3 = .ok (i : Int) ∧
      (∃ a, ([{ id := 1, nombre := "Taco", precio := 3, disponible := 1 },
              { id := 2, nombre := "Sopa", precio := 2, disponible := 1 },
              { id := 3, nombre := "Flan", precio := 1, disponible := 1 }] :
              List Alimento)[i]? = some a ∧ a.id = 3) ∧
      ∀ (j : Nat) (b : Alimento),
        ([{ id := 1, nombre := "Taco", precio := 3, disponible := 1 },
          { id := 2, nombre := "Sopa", precio := 2, disponible := 1 },
          { id := 3, nombre := "Flan", precio := 1, disponible := 1 }] :
          List Alimento)[j]? = some b → b.id = 3 → j = i :=
  busquedaBinariaAlimentos_finds _ 3 (by simp)
    ⟨{ id := 3, nombre := "Flan", precio := 1, disponible := 1 }, by simp, rfl⟩

/-! ## The hash functions -/

/-- C19: for every 32-bit signed `id`, `INT_MIN` and the negative ids included, the
product taken in `unsigned long long` is the exact square `id * id`,
`hashFunctionMidSquare(id)` is `floor(id * id / 1024) mod 64`, and it lies in `[0, 64)`. -/
theorem hashFunctionMidSquare_exact (id : Int) (hlo : -2 ^ 31 ≤ id) (hhi : id < 2 ^ 31) :
    (((id % 2 ^ 64).toNat * (id % 2 ^ 64).toNat % 2 ^ 64 : Nat) : Int) = id * id ∧
    (hashFunctionMidSquare id : Int) = id * id / 1024 % 64 ∧
    hashFunctionMidSquare id < 64 := by
  have hsq_nonneg : 0 ≤ id * id := mul_self_nonneg id
  have hsq_bound : id * id ≤ 2 ^ 62 := by nlinarith
  have hU : ((id % 18446744073709551616).toNat : Int) = id % 18446744073709551616 :=
    Int.toNat_of_nonneg (Int.emod_nonneg _ (by norm_num))
  have h1 : (((id % 2 ^ 64).toNat * (id % 2 ^ 64).toNat % 2 ^ 64 : Nat) : Int) = id * id := by
    push_cast
    rw [hU, ← Int.mul_emod]
    exact Int.emod_eq_of_lt hsq_nonneg (by omega)
  have hmask : (1 <<< 6) - 1 = 2 ^ 6 - 1 := by decide
  refine ⟨h1, ?_, Nat.mod_lt _ (by decide)⟩
  simp only [hashFunctionMidSquare, hmask, Nat.and_pow_two_sub_one_eq_mod,
    Nat.shiftRight_eq_div_pow]
  omega

/-- C19 witness: `INT_MIN`. -/
theorem hashFunctionMidSquare_exact_witness :
    (((((-2147483648 : Int)) % 2 ^ 64).toNat * ((-2147483648 : Int) % 2 ^ 64).toNat
        % 2 ^ 64 : Nat) : Int) = (-2147483648) * (-2147483648) ∧
    (hashFunctionMidSquare (-2147483648) : Int) = (-2147483648) * (-2147483648) / 1024 % 64 ∧
    hashFunctionMidSquare (-2147483648) < 64 :=
  hashFunctionMidSquare_exact (-2147483648) (by norm_num) (by norm_num)

/-- C20, at the id -1: `-1 % 64` is -1 in C, and its conversion to `unsigned int` is
4294967295, so `hashCliente`, `hashIDMenu` and `hashPedido` return a value outside
`[0, 64)` and the three lookups read outside the bucket array. -/
theorem modulo_hash_negative_id_out_of_range :
    hashCliente (-1) = 4294967295 ∧ hashIDMenu (-1) = 4294967295 ∧
    hashPedido (-1) = 4294967295 ∧
    ¬ hashCliente (-1) < 64 ∧ ¬ hashIDMenu (-1) < 64 ∧ ¬ hashPedido (-1) < 64 ∧
    buscarCliente crearTablaClientes (-1) = .error .outOfBounds ∧
    buscarMenuPorID crearTablaMenus (-1) = .error .outOfBounds ∧
    buscarPedido crearTablaPedidos (-1) = .error .outOfBounds := by
  refine ⟨by decide, by decide, by decide, by decide, by decide, by decide, rfl, rfl, rfl⟩

/-- The three modulo hashes on a negative id: the index is in `[0, 64)` exactly when the
id is a multiple of 64. -/
theorem modulo_index_negative (id : Int) (hlo : -2 ^ 31 ≤ id) (hneg : id < 0) :
    ((Int.tmod id 64) % 2 ^ 32).toNat < 64 ↔ id % 64 = 0 := by
  obtain ⟨n, rfl⟩ : ∃ n : Nat, id = -((n : Int) + 1) := ⟨(-id - 1).toNat, by omega⟩
  have h1 : Int.tmod (-((n : Int) + 1)) 64 = -(((n + 1) % 64 : Nat) : Int) := by
    rw [← Int.negSucc_eq]
    rfl
  rw [h1]
  omega

/-! ## More lemmas on chains and counts -/

/-- A successful walk of a chain stops at the first node of the key: the nodes before
it have another key. -/
theorem cadenaBuscar_split {α : Type} (key : α → Int) (id : Int) :
    ∀ (l : List α) (a : α), cadenaBuscar key id l = some a →
      ∃ antes despues, l = antes ++ a :: despues ∧ (∀ x ∈ antes, key x ≠ id) ∧ key a = id := by
  intro l
  induction l with
  | nil =>
    intro a h
    simp [cadenaBuscar] at h
  | cons x l ih =>
    intro a h
    by_cases hx : key x = id
    · simp only [cadenaBuscar, if_pos hx, Option.some.injEq] at h
      subst h
      exact ⟨[], l, rfl, by simp, hx⟩
    · simp only [cadenaBuscar, if_neg hx] at h
      obtain ⟨antes, despues, hl, hantes, ha⟩ := ih a h
      refine ⟨x :: antes, despues, by rw [hl]; rfl, ?_, ha⟩
      intro y hy
      rcases List.mem_cons.mp hy with rfl | hy'
      · exact hx
      · exact hantes y hy'

theorem cadenaBuscar_append_found {α : Type} (key : α → Int) (id : Int) (antes : List α)
    (a : α) (despues : List α) (hantes : ∀ x ∈ antes, key x ≠ id) (ha : key a = id) :
    cadenaBuscar key id (antes ++ a :: despues) = some a := by
  induction antes with
  | nil => simp [cadenaBuscar, ha]
  | cons x l ih =>
    have hx : key x ≠ id := hantes x (List.mem_cons_self x l)
    simp only [List.cons_append, cadenaBuscar, if_neg hx]
    exact ih (fun y hy => hantes y (List.mem_cons_of_mem x hy))

theorem cadenaModificar_split {α : Type} (key : α → Int) (id : Int) (f : α → α)
    (antes : List α) (a : α) (despues : List α) (hantes : ∀ x ∈ antes, key x ≠ id)
    (ha : key a = id) :
    cadenaModificar key id f (antes ++ a :: despues) = antes ++ f a :: despues := by
  induction antes with
  | nil => simp [cadenaModificar, ha]
  | cons x l ih =>
    have hx : key x ≠ id := hantes x (List.mem_cons_self x l)
    rw [List.cons_append, cadenaModificar, if_neg hx,
      ih (fun y hy => hantes y (List.mem_cons_of_mem x hy))]
    rfl

theorem cadenaEliminar_split {α : Type} (key : α → Int) (id : Int)
    (antes : List α) (a : α) (despues : List α) (hantes : ∀ x ∈ antes, key x ≠ id)
    (ha : key a = id) :
    cadenaEliminar key id (antes ++ a :: despues) = some (antes ++ despues) := by
  induction antes with
  | nil => simp [cadenaEliminar, ha]
  | cons x l ih =>
    have hx : key x ≠ id := hantes x (List.mem_cons_self x l)
    rw [List.cons_append, cadenaEliminar, if_neg hx,
      ih (fun y hy => hantes y (List.mem_cons_of_mem x hy))]
    rfl

/-- The walk for a key `j` does not see whether a node of another key is there, or which
node of another key stands at a place. -/
theorem cadenaBuscar_reemplazo {α : Type} (key : α → Int) (j : Int) (antes : List α)
    (a b : α) (despues : List α) (ha : key a ≠ j) (hb : key b ≠ j) :
    cadenaBuscar key j (antes ++ a :: despues) = cadenaBuscar key j (antes ++ b :: despues) := by
  induction antes with
  | nil => simp [cadenaBuscar, ha, hb]
  | cons x l ih =>
    by_cases hx : key x = j
    · simp [cadenaBuscar, hx]
    · simp only [List.cons_append, cadenaBuscar, if_neg hx]
      exact ih

theorem cadenaBuscar_quitar {α : Type} (key : α → Int) (j : Int) (antes : List α)
    (a : α) (despues : List α) (ha : key a ≠ j) :
    cadenaBuscar key j (antes ++ a :: despues) = cadenaBuscar key j (antes ++ despues) := by
  induction antes with
  | nil => simp [cadenaBuscar, ha]
  | cons x l ih =>
    by_cases hx : key x = j
    · simp [cadenaBuscar, hx]
    · simp only [List.cons_append, cadenaBuscar, if_neg hx]
      exact ih

/-- The count is the sum of the lengths of the 64 chains. -/
theorem Tabla.contar_eq_sum {α : Type} (t : Tabla α) :
    t.contar = ∑ i : Fin 64, (t.buckets i).length := by
  rw [Tabla.contar_eq, Tabla.registros, List.length_flatten, List.map_map, Fin.sum_univ_def]
  rfl

/-- The count after one assignment to a bucket. -/
theorem Tabla.contar_poner {α : Type} (t : Tabla α) (i : Fin 64) (c : List α) :
    (t.poner i c).contar + (t.buckets i).length = t.contar + c.length := by
  have h1 := Finset.add_sum_erase Finset.univ (fun j => ((t.poner i c).buckets j).length)
    (Finset.mem_univ i)
  have h2 := Finset.add_sum_erase Finset.univ (fun j => (t.buckets j).length)
    (Finset.mem_univ i)
  have h3 : ∑ x ∈ Finset.univ.erase i, ((t.poner i c).buckets x).length
      = ∑ x ∈ Finset.univ.erase i, (t.buckets x).length :=
    Finset.sum_congr rfl (fun x hx => by
      rw [Tabla.buckets_poner_other _ _ _ _ (Finset.ne_of_mem_erase hx)])
  simp only [Tabla.buckets_poner_same] at h1
  beta_reduce at h1 h2
  rw [Tabla.contar_eq_sum, Tabla.contar_eq_sum]
  omega

theorem parseDisponible_invalid (s : String) (h1 : s ≠ "Si") (h2 : s ≠ "No") :
    parseDisponible s = none := by
  simp [parseDisponible, h1, h2]

/-! ## Food store: the availability string, update and delete -/

/-- C21: with an availability string other than exactly `"Si"` and exactly `"No"`,
`insertarAlimento` returns `false` and the table is the one it received, for every table,
id, name and price, whether the id is in the table or not and whether memory is
available or not. -/
theorem insertarAlimento_invalid_availability (mallocOk : Bool) (tabla : HashTable) (id : Int)
    (nombre : String) (precio : ℚ) (disponibleStr : String)
    (hSi : disponibleStr ≠ "Si") (hNo : disponibleStr ≠ "No") :
    insertarAlimento mallocOk tabla id nombre precio disponibleStr = .ok (false, tabla) := by
  simp only [insertarAlimento, parseDisponible_invalid disponibleStr hSi hNo]

/-- C21 witness: the strings "si", "SI", "Sí", "" and "Yes", on the table that holds
Taco, with the id 1 that is present and the id 2 that is not. -/
theorem insertarAlimento_invalid_availability_witness :
    insertarAlimento true tablaTaco 1 "Sopa" 3 "si" = .ok (false, tablaTaco) ∧
    insertarAlimento true tablaTaco 2 "Sopa" 3 "SI" = .ok (false, tablaTaco) ∧
    insertarAlimento true tablaTaco 2 "Sopa" 3 "Sí" = .ok (false, tablaTaco) ∧
    insertarAlimento true tablaTaco 2 "Sopa" 3 "" = .ok (false, tablaTaco) ∧
    insertarAlimento true tablaTaco 2 "Sopa" 3 "Yes" = .ok (false, tablaTaco) :=
  ⟨insertarAlimento_invalid_availability true tablaTaco 1 "Sopa" 3 "si" (by decide) (by decide),
   insertarAlimento_invalid_availability true tablaTaco 2 "Sopa" 3 "SI" (by decide) (by decide),
   insertarAlimento_invalid_availability true tablaTaco 2 "Sopa" 3 "Sí" (by decide) (by decide),
   insertarAlimento_invalid_availability true tablaTaco 2 "Sopa" 3 "" (by decide) (by decide),
   insertarAlimento_invalid_availability true tablaTaco 2 "Sopa" 3 "Yes" (by decide) (by decide)⟩

/-- C22: on a table that holds a record of id `k`, with a new availability string other
than exactly `"Si"` and exactly `"No"`, `actualizarAlimento` returns `false` and the
table is the one it received: the lookup of `k` gives the record with its previous name,
price and availability, and neither the new name nor the new price is written. -/
theorem actualizarAlimento_invalid_availability (tabla : HashTable) (k : Int)
    (original : Alimento) (nuevoNombre : String) (nuevoPrecio : ℚ) (nuevaDisp : String)
    (hHolds : buscarAlimento tabla k = some original)
    (hSi : nuevaDisp ≠ "Si") (hNo : nuevaDisp ≠ "No") :
    ∃ tabla', actualizarAlimento tabla k nuevoNombre nuevoPrecio nuevaDisp = .ok (false, tabla') ∧
      tabla' = tabla ∧ buscarAlimento tabla' k = some original := by
  refine ⟨tabla, ?_, rfl, hHolds⟩
  simp only [actualizarAlimento, hHolds, parseDisponible_invalid nuevaDisp hSi hNo]

/-- C22 witness: Taco (id 1) with the new name "Sopa", the new price 9 and the string
"Quizas". -/
theorem actualizarAlimento_invalid_availability_witness :
    ∃ tabla', actualizarAlimento tablaTaco 1 "Sopa" 9 "Quizas" = .ok (false, tabla') ∧
      tabla' = tablaTaco ∧
      buscarAlimento tabla' 1
        = some { id := 1, nombre := "Taco", precio := 5 / 2, disponible := 1 } :=
  actualizarAlimento_invalid_availability tablaTaco 1
    { id := 1, nombre := "Taco", precio := 5 / 2, disponible := 1 } "Sopa" 9 "Quizas"
    rfl (by decide) (by decide)

/-- C23: on a table that holds a record `original` of id `k`, with a new name of at most
49 bytes, any new price and a new availability string `"Si"` or `"No"`,
`actualizarAlimento` returns `true`; the lookup of `k` then gives the record of id `k`
with the new name, the new price and `disponible` 1 for `"Si"`, 0 for `"No"`; in the
bucket of `k` the record stands at the place of `original`, with the same records before
and after it in the same order; every other bucket, the count and the lookup of every
other id are as before. -/
theorem actualizarAlimento_success (tabla : HashTable) (k : Int) (original : Alimento)
    (nuevoNombre : String) (nuevoPrecio : ℚ) (nuevaDisp : String)
    (hHolds : buscarAlimento tabla k = some original)
    (hNombre : nuevoNombre.utf8ByteSize ≤ 49)
    (hDisp : nuevaDisp = "Si" ∨ nuevaDisp = "No") :
    ∃ tabla' antes despues,
      actualizarAlimento tabla k nuevoNombre nuevoPrecio nuevaDisp = .ok (true, tabla') ∧
      buscarAlimento tabla' k
        = some { id := k, nombre := nuevoNombre, precio := nuevoPrecio,
                 disponible := if nuevaDisp = "Si" then 1 else 0 } ∧
      tabla.buckets (indiceAlimento k) = antes ++ original :: despues ∧
      (∀ a ∈ antes, a.id ≠ k) ∧
      tabla'.buckets (indiceAlimento k)
        = antes ++ { id := k, nombre := nuevoNombre, precio := nuevoPrecio,
                     disponible := if nuevaDisp = "Si" then 1 else 0 } :: despues ∧
      (∀ i : Fin 64, i ≠ indiceAlimento k → tabla'.buckets i = tabla.buckets i) ∧
      obtenerNumeroDeAlimentos tabla' = obtenerNumeroDeAlimentos tabla ∧
      ∀ j : Int, j ≠ k → buscarAlimento tabla' j = buscarAlimento tabla j := by
  obtain ⟨antes, despues, hl, hantes, hid⟩ := cadenaBuscar_split Alimento.id k _ original hHolds
  have hcpy : strcpy 50 nuevoNombre = .ok nuevoNombre := strcpy_fits 50 nuevoNombre (by omega)
  have hnew : ({ original with
                  nombre := nuevoNombre, precio := nuevoPrecio,
                  disponible := if nuevaDisp = "Si" then 1 else 0 } : Alimento)
      = { id := k, nombre := nuevoNombre, precio := nuevoPrecio,
          disponible := if nuevaDisp = "Si" then 1 else 0 } := by
    rw [← hid]
  have hmod := cadenaModificar_split Alimento.id k
    (fun a => { a with nombre := nuevoNombre, precio := nuevoPrecio,
                       disponible := if nuevaDisp = "Si" then 1 else 0 })
    antes original despues hantes hid
  simp only [hnew] at hmod
  refine ⟨tabla.poner (indiceAlimento k)
    (antes ++ { id := k, nombre := nuevoNombre, precio := nuevoPrecio,
                disponible := if nuevaDisp = "Si" then 1 else 0 } :: despues),
    antes, despues, ?_, ?_, hl, hantes, Tabla.buckets_poner_same _ _ _, ?_, ?_, ?_⟩
  · simp only [actualizarAlimento, hHolds, parseDisponible_valid nuevaDisp hDisp, hcpy]
    rw [hl, hmod]
  · simp only [buscarAlimento, Tabla.buckets_poner_same]
    exact cadenaBuscar_append_found Alimento.id k antes _ despues hantes rfl
  · intro i hi
    exact Tabla.buckets_poner_other _ _ _ _ hi
  · have hc := Tabla.contar_poner tabla (indiceAlimento k)
      (antes ++ { id := k, nombre := nuevoNombre, precio := nuevoPrecio,
                  disponible := if nuevaDisp = "Si" then 1 else 0 } :: despues)
    rw [hl] at hc
    simp only [List.length_append, List.length_cons] at hc
    simp only [obtenerNumeroDeAlimentos]
    omega
  · intro j hj
    simp only [buscarAlimento]
    by_cases hij : indiceAlimento j = indiceAlimento k
    · rw [hij, Tabla.buckets_poner_same, hl]
      exact cadenaBuscar_reemplazo Alimento.id j antes _ original despues
        (fun h => hj h.symm) (by rw [hid]; exact fun h => hj h.symm)
    · rw [Tabla.buckets_poner_other _ _ _ _ hij]

/-- C23 witness: Taco (id 1) becomes "Torta" of price 4, not available. -/
theorem actualizarAlimento_success_witness :
    ∃ tabla' antes despues,
      actualizarAlimento tablaTaco 1 "Torta" 4 "No" = .ok (true, tabla') ∧
      buscarAlimento tabla' 1
        = some { id := 1, nombre := "Torta", precio := 4,
                 disponible := if "No" = "Si" then 1 else 0 } ∧
      tablaTaco.buckets (indiceAlimento 1)
        = antes ++ { id := 1, nombre := "Taco", precio := 5 / 2, disponible := 1 } :: despues ∧
      (∀ a ∈ antes, a.id ≠ 1) ∧
      tabla'.buckets (indiceAlimento 1)
        = antes ++ { id := 1, nombre := "Torta", precio := 4,
                     disponible := if "No" = "Si" then 1 else 0 } :: despues ∧
      (∀ i : Fin 64, i ≠ indiceAlimento 1 → tabla'.buckets i = tablaTaco.buckets i) ∧
      obtenerNumeroDeAlimentos tabla' = obtenerNumeroDeAlimentos tablaTaco ∧
      ∀ j : Int, j ≠ 1 → buscarAlimento tabla' j = buscarAlimento tablaTaco j :=
  actualizarAlimento_success tablaTaco 1
    { id := 1, nombre := "Taco", precio := 5 / 2, disponible := 1 } "Torta" 4 "No"
    rfl (by decide) (by decide)

/-- C24: on a table with pairwise distinct ids that holds a record of id `k`,
`eliminarAlimento` returns `true`; afterwards the lookup of `k` is `NULL`, the count is
smaller by exactly one, and the lookup of every other id gives what it gave before. -/
theorem eliminarAlimento_removes_one (tabla : HashTable) (k : Int) (original : Alimento)
    (hDistinct : (tabla.registros.map Alimento.id).Nodup)
    (hHolds : buscarAlimento tabla k = some original) :
    (eliminarAlimento tabla k).1 = true ∧
    buscarAlimento (eliminarAlimento tabla k).2 k = none ∧
    obtenerNumeroDeAlimentos (eliminarAlimento tabla k).2 + 1 = obtenerNumeroDeAlimentos tabla ∧
    ∀ j : Int, j ≠ k →
      buscarAlimento (eliminarAlimento tabla k).2 j = buscarAlimento tabla j := by
  obtain ⟨antes, despues, hl, hantes, hid⟩ := cadenaBuscar_split Alimento.id k _ original hHolds
  have hdel : cadenaEliminar Alimento.id k (tabla.buckets (indiceAlimento k))
      = some (antes ++ despues) := by
    rw [hl]
    exact cadenaEliminar_split Alimento.id k antes original despues hantes hid
  have hnd := Tabla.nodup_bucket Alimento.id tabla hDistinct (indiceAlimento k)
  have hres : eliminarAlimento tabla k
      = (true, tabla.poner (indiceAlimento k) (antes ++ despues)) := by
    simp only [eliminarAlimento, hdel]
  rw [hres]
  refine ⟨rfl, ?_, ?_, ?_⟩
  · simp only [buscarAlimento, Tabla.buckets_poner_same]
    exact cadenaBuscar_tras_eliminar Alimento.id k _ _ hnd hdel
  · have hc := Tabla.contar_poner tabla (indiceAlimento k) (antes ++ despues)
    rw [hl] at hc
    simp only [List.length_append, List.length_cons] at hc
    simp only [obtenerNumeroDeAlimentos]
    omega
  · intro j hj
    simp only [buscarAlimento]
    by_cases hij : indiceAlimento j = indiceAlimento k
    · rw [hij, Tabla.buckets_poner_same, hl]
      exact (cadenaBuscar_quitar Alimento.id j antes original despues
        (by rw [hid]; exact fun h => hj h.symm)).symm
    · rw [Tabla.buckets_poner_other _ _ _ _ hij]

/-- C24 witness: the table with the foods 3, 2, 1 in bucket 0 and the key 2. -/
theorem eliminarAlimento_removes_one_witness :
    (eliminarAlimento tablaTresAlimentos 2).1 = true ∧
    buscarAlimento (eliminarAlimento tablaTresAlimentos 2).2 2 = none ∧
    obtenerNumeroDeAlimentos (eliminarAlimento tablaTresAlimentos 2).2 + 1
      = obtenerNumeroDeAlimentos tablaTresAlimentos ∧
    ∀ j : Int, j ≠ 2 →
      buscarAlimento (eliminarAlimento tablaTresAlimentos 2).2 j
        = buscarAlimento tablaTresAlimentos j :=
  eliminarAlimento_removes_one tablaTresAlimentos 2
    { id := 2, nombre := "Sopa", precio := 2, disponible := 1 }
    (by
      have h : tablaTresAlimentos.registros
          = [{ id := 3, nombre := "Flan", precio := 1, disponible := 1 },
             { id := 2, nombre := "Sopa", precio := 2, disponible := 1 },
             { id := 1, nombre := "Taco", precio := 3, disponible := 1 }] := rfl
      rw [h]
      decide)
    rfl

/-! ## Client store: snapshot and insert -/

/-- C25: for every client table and every array with room for its records,
`copiarClientesDesdeTabla` writes, from cell 0 on, the chain of bucket 0 in chain order,
then that of bucket 1, up to bucket 63, each record whole, and leaves the cells after
them as they were; the number of cells written, the final value of `index`, is
`obtenerNumeroDeClientes`, which is the sum of the lengths of the 64 chains. -/
theorem copiarClientes_order_and_count (tabla : ClientesHashTable) (clientes : List Cliente)
    (hRoom : obtenerNumeroDeClientes tabla ≤ clientes.length) :
    copiarCadenas ((List.finRange 64).map tabla.buckets) (clientes, 0)
      = .ok (((List.finRange 64).map tabla.buckets).flatten
              ++ clientes.drop (obtenerNumeroDeClientes tabla),
            (obtenerNumeroDeClientes tabla : Int)) ∧
    copiarClientesDesdeTabla tabla clientes
      = .ok (((List.finRange 64).map tabla.buckets).flatten
              ++ clientes.drop (obtenerNumeroDeClientes tabla)) ∧
    (((List.finRange 64).map tabla.buckets).flatten).length = obtenerNumeroDeClientes tabla ∧
    obtenerNumeroDeClientes tabla = ∑ i : Fin 64, (tabla.buckets i).length := by
  have hn : obtenerNumeroDeClientes tabla
      = (((List.finRange 64).map tabla.buckets).flatten).length := Tabla.contar_eq tabla
  have hs := copiarCadenas_spec ((List.finRange 64).map tabla.buckets) [] clientes 0 rfl
    (by omega)
  simp only [List.nil_append, Int.zero_add] at hs
  rw [← hn] at hs
  refine ⟨hs, ?_, hn.symm, Tabla.contar_eq_sum tabla⟩
  simp only [copiarClientesDesdeTabla, Tabla.copiar, hs]

/-- C25 witness: the table with the clients 69 and 5 chained in bucket 5 and the client 7
in bucket 7, and an array of four cells: bucket 5 in chain order, then bucket 7, the
fourth cell untouched. -/
theorem copiarClientes_order_and_count_witness :
    copiarClientesDesdeTabla tablaTresClientes
        [{ idCliente := 0, nombre := "", telefono := "" },
         { idCliente := 0, nombre := "", telefono := "" },
         { idCliente := 0, nombre := "", telefono := "" },
         { idCliente := 0, nombre := "", telefono := "" }]
      = .ok [{ idCliente := 69, nombre := "Luis", telefono := "5550002" },
             { idCliente := 5, nombre := "Ana", telefono := "5550001" },
             { idCliente := 7, nombre := "Eva", telefono := "5550007" },
             { idCliente := 0, nombre := "", telefono := "" }] ∧
    obtenerNumeroDeClientes tablaTresClientes = 3 :=
  ⟨(copiarClientes_order_and_count tablaTresClientes
    [{ idCliente := 0, nombre := "", telefono := "" },
     { idCliente := 0, nombre := "", telefono := "" },
     { idCliente := 0, nombre := "", telefono := "" },
     { idCliente := 0, nombre := "", telefono := "" }] (by decide)).2.1.trans rfl, rfl⟩

/-- C26: when `agregarCliente` with a non-negative id `k` returns `true`, the new record
is the first of bucket `k mod 64`, the records that were in that bucket follow it in
their order, every other bucket is as before, and `obtenerNumeroDeClientes` has grown by
exactly one. -/
theorem agregarCliente_prepends (mallocOk : Bool) (tabla tabla' : ClientesHashTable)
    (k : Int) (nombre telefono : String)
    (hId : 0 ≤ k)
    (hOk : agregarCliente mallocOk tabla k nombre telefono = .ok (true, tabla')) :
    ∃ h : (k % 64).toNat < 64,
      tabla'.buckets ⟨(k % 64).toNat, h⟩
        = { idCliente := k, nombre := nombre, telefono := telefono }
            :: tabla.buckets ⟨(k % 64).toNat, h⟩ ∧
      (∀ i : Fin 64, i ≠ ⟨(k % 64).toNat, h⟩ → tabla'.buckets i = tabla.buckets i) ∧
      obtenerNumeroDeClientes tabla' = obtenerNumeroDeClientes tabla + 1 := by
  have hhash : hashCliente k = (k % 64).toNat := by
    simp only [hashCliente, Int.tmod_eq_emod hId (by decide : (0 : Int) ≤ 64)]
    omega
  have hIdx : hashCliente k < 64 := hashCliente_lt k hId
  have h : (k % 64).toNat < 64 := by omega
  refine ⟨h, ?_⟩
  simp only [agregarCliente, buscarCliente, dif_pos hIdx] at hOk
  cases hb : cadenaBuscar Cliente.idCliente k (tabla.buckets ⟨hashCliente k, hIdx⟩) with
  | some c =>
    simp [hb] at hOk
  | none =>
    simp only [hb] at hOk
    cases mallocOk with
    | false => simp at hOk
    | true =>
      simp only [Bool.not_true, Bool.false_eq_true, if_false] at hOk
      by_cases hn : nombre.utf8ByteSize < 50
      · by_cases ht : telefono.utf8ByteSize < 15
        · simp only [strcpy, if_pos hn, if_pos ht, Except.ok.injEq, Prod.mk.injEq,
            true_and] at hOk
          subst hOk
          have hfin : (⟨hashCliente k, hIdx⟩ : Fin 64) = ⟨(k % 64).toNat, h⟩ :=
            Fin.ext hhash
          rw [hfin]
          refine ⟨Tabla.buckets_poner_same _ _ _, ?_, ?_⟩
          · intro i hi
            exact Tabla.buckets_poner_other _ _ _ _ hi
          · have hc := Tabla.contar_poner tabla ⟨(k % 64).toNat, h⟩
              ({ idCliente := k, nombre := nombre, telefono := telefono }
                :: tabla.buckets ⟨(k % 64).toNat, h⟩)
            simp only [List.length_cons] at hc
            simp only [obtenerNumeroDeClientes]
            omega
        · simp [strcpy, hn, ht] at hOk
      · simp [strcpy, hn] at hOk

/-- C26 witness: client 69 "Luis" into the table that holds client 5: both ids go to
bucket 5. -/
theorem agregarCliente_prepends_witness :
    agregarCliente true tablaCliente5 69 "Luis" "5550002" = .ok (true, tablaClientes5y69) ∧
    ∃ h : ((69 : Int) % 64).toNat < 64,
      tablaClientes5y69.buckets ⟨((69 : Int) % 64).toNat, h⟩
        = { idCliente := 69, nombre := "Luis", telefono := "5550002" }
            :: tablaCliente5.buckets ⟨((69 : Int) % 64).toNat, h⟩ ∧
      (∀ i : Fin 64, i ≠ ⟨((69 : Int) % 64).toNat, h⟩ →
        tablaClientes5y69.buckets i = tablaCliente5.buckets i) ∧
      obtenerNumeroDeClientes tablaClientes5y69 = obtenerNumeroDeClientes tablaCliente5 + 1 :=
  ⟨rfl, agregarCliente_prepends true tablaCliente5 tablaClientes5y69 69 "Luis" "5550002"
    (by decide) rfl⟩

/-! ## Records of the tables after one call -/

theorem Tabla.todos_poner {α : Type} (Q : α → Prop) (t : Tabla α) (i : Fin 64) (c : List α)
    (ht : ∀ j : Fin 64, ∀ a ∈ t.buckets j, Q a) (hc : ∀ a ∈ c, Q a) :
    ∀ j : Fin 64, ∀ a ∈ (t.poner i c).buckets j, Q a := by
  intro j a ha
  by_cases hji : j = i
  · subst hji
    rw [Tabla.buckets_poner_same] at ha
    exact hc a ha
  · rw [Tabla.buckets_poner_other _ _ _ _ hji] at ha
    exact ht j a ha

theorem cadenaModificar_todos {α : Type} (Q : α → Prop) (key : α → Int) (id : Int)
    (f : α → α) :
    ∀ l : List α, (∀ a ∈ l, Q a) → (∀ a ∈ l, Q (f a)) →
      ∀ a ∈ cadenaModificar key id f l, Q a := by
  intro l
  induction l with
  | nil =>
    intro _ _ a ha
    simp [cadenaModificar] at ha
  | cons x l ih =>
    intro hl hf a ha
    simp only [cadenaModificar] at ha
    split at ha
    · rcases List.mem_cons.1 ha with h | h
      · rw [h]
        exact hf x (List.mem_cons_self _ _)
      · exact hl a (List.mem_cons_of_mem _ h)
    · rcases List.mem_cons.1 ha with h | h
      · rw [h]
        exact hl x (List.mem_cons_self _ _)
      · exact ih (fun b hb => hl b (List.mem_cons_of_mem _ hb))
          (fun b hb => hf b (List.mem_cons_of_mem _ hb)) a h

theorem cadenaEliminar_todos {α : Type} (Q : α → Prop) (key : α → Int) (id : Int) :
    ∀ l r : List α, cadenaEliminar key id l = some r → (∀ a ∈ l, Q a) → ∀ a ∈ r, Q a := by
  intro l
  induction l with
  | nil =>
    intro r h
    simp [cadenaEliminar] at h
  | cons x l ih =>
    intro r h hl a ha
    simp only [cadenaEliminar] at h
    split at h
    · cases h
      exact hl a (List.mem_cons_of_mem _ ha)
    · cases hr : cadenaEliminar key id l with
      | none => simp [hr] at h
      | some r' =>
        simp only [hr, Option.map_some', Option.some.injEq] at h
        subst h
        rcases List.mem_cons.1 ha with h | h
        · rw [h]
          exact hl x (List.mem_cons_self _ _)
        · exact ih r' hr (fun b hb => hl b (List.mem_cons_of_mem _ hb)) a h

/-- A successful `memcpyInts` had a count between 0 and the capacity and copied exactly
that many entries. -/
theorem memcpyInts_ok (cap : Nat) (src : List Int) (n : Int) (copia : List Int)
    (h : memcpyInts cap src n = .ok copia) :
    0 ≤ n ∧ n ≤ cap ∧ (copia.length : Int) = n := by
  unfold memcpyInts at h
  split at h
  · cases h
  · rename_i hc
    simp only [Except.ok.injEq] at h
    subst h
    refine ⟨by omega, by omega, ?_⟩
    rw [List.length_take, Nat.min_def]
    split <;> omega

/-- The menus of a table built by defined calls hold between 0 and 50 foods, and their
list has `numAlimentos` entries. -/
theorem menus_alcanzables_acotados (t : MenuHashTable) (h : MenusAlcanzable t) :
    ∀ i : Fin 64, ∀ m ∈ t.buckets i,
      0 ≤ m.numAlimentos ∧ m.numAlimentos ≤ 50 ∧ (m.alimentos.length : Int) = m.numAlimentos := by
  induction h with
  | crear =>
    intro i m hm
    simp [crearTablaMenus, Tabla.vacia] at hm
  | agregar mallocOk t t' idMenu fecha alimentos numAlimentos tablaAlimentos b _ hOk ih =>
    unfold agregarMenu at hOk
    split at hOk
    · cases hOk
    · cases hOk
      exact ih
    · split at hOk
      · cases hOk
      · cases hOk
        exact ih
      · simp only at hOk
        split at hOk
        · split at hOk
          · cases hOk
            exact ih
          · split at hOk
            · cases hOk
            · split at hOk
              · cases hOk
              · rename_i copia hcopia
                cases hOk
                have hm := memcpyInts_ok 50 alimentos numAlimentos copia hcopia
                apply Tabla.todos_poner _ _ _ _ ih
                intro a ha
                rcases List.mem_cons.1 ha with h | h
                · rw [h]
                  exact ⟨hm.1, by exact_mod_cast hm.2.1, hm.2.2⟩
                · exact ih _ a h
        · cases hOk
  | actualizar t t' idMenu nuevaFecha nuevosAlimentos numAlimentos b _ hOk ih =>
    unfold actualizarMenu at hOk
    split at hOk
    · cases hOk
    · cases hOk
      exact ih
    · simp only at hOk
      split at hOk
      · split at hOk
        · cases hOk
        · split at hOk
          · cases hOk
          · rename_i copia hcopia
            cases hOk
            have hm := memcpyInts_ok 50 nuevosAlimentos numAlimentos copia hcopia
            apply Tabla.todos_poner _ _ _ _ ih
            apply cadenaModificar_todos _ _ _ _ _ (ih _)
            intro a _
            exact ⟨hm.1, by exact_mod_cast hm.2.1, hm.2.2⟩
      · cases hOk
  | eliminar t t' idMenu b _ hOk ih =>
    unfold eliminarMenu at hOk
    simp only at hOk
    split at hOk
    · split at hOk
      · rename_i cadena hcadena
        cases hOk
        apply Tabla.todos_poner _ _ _ _ ih
        exact cadenaEliminar_todos _ _ _ _ _ hcadena (ih _)
      · cases hOk
        exact ih
    · cases hOk

/-! ## Invariants of the stored records -/

/-- C27: the status of a stored order is not kept within "Pendiente", "En Proceso",
"Completado": `agregarPedido` with the status "Cancelado" into the empty order table
returns `true` and the order found afterwards has the status "Cancelado";
`actualizarPedido` of a pending order with the status "Listo" returns `true` and the
order found afterwards has the status "Listo". Both tables are reachable from the empty
table. -/
theorem pedido_estado_outside_fixed_set :
    agregarPedido true crearTablaPedidos tablaMenu10 tablaCliente5 1 5 "2024-03-04" [10] 1
        "Cancelado" = .ok (true, tablaPedidoCancelado) ∧
    PedidosAlcanzable (fun _ => True) tablaPedidoCancelado ∧
    buscarPedido tablaPedidoCancelado 1
      = .ok (some { idPedido := 1, idCliente := 5, fecha := "2024-03-04", menus := [10],
                    numMenus := 1, estado := "Cancelado" }) ∧
    "Cancelado" ∉ ["Pendiente", "En Proceso", "Completado"] ∧
    (∃ tabla', actualizarPedido tablaPedidoPendiente 1 "Listo" = .ok (true, tabla') ∧
      buscarPedido tabla' 1
        = .ok (some { idPedido := 1, idCliente := 5, fecha := "2024-03-04", menus := [10],
                      numMenus := 1, estado := "Listo" })) ∧
    "Listo" ∉ ["Pendiente", "En Proceso", "Completado"] :=
  ⟨rfl,
   PedidosAlcanzable.agregar true crearTablaPedidos tablaPedidoCancelado tablaMenu10
     tablaCliente5 1 5 "2024-03-04" [10] 1 "Cancelado" true PedidosAlcanzable.crear
     True.intro rfl,
   rfl, by decide, ⟨_, rfl, rfl⟩, by decide⟩

/-- C28: a food count above the 50 cells of `alimentos`, or a negative one, is not
refused: `agregarMenu` with 51 ids of an available food and the count 51 passes the
validation loop and its `memcpy` writes past the field; with the count -1 the loop is
skipped and the `memcpy` size is the conversion of a negative number; `actualizarMenu`
with the count 51 on an existing menu writes past the field as well. -/
theorem menu_count_above_capacity_overflows :
    cicloValidarAlimentos tablaTaco 51 (List.replicate 51 1) = .ok true ∧
    agregarMenu true crearTablaMenus 1 "2024-01-01" (List.replicate 51 1) 51 tablaTaco
      = .error .bufferOverflow ∧
    agregarMenu true crearTablaMenus 1 "2024-01-01" [] (-1) tablaTaco
      = .error .bufferOverflow ∧
    actualizarMenu tablaMenu10 10 "2024-02-02" (List.replicate 51 1) 51
      = .error .bufferOverflow :=
  ⟨rfl, rfl, rfl, rfl⟩

/-- C29 counterexample: `insertarAlimento` with the price -1 into the empty table returns
`true`; the table is reachable from the empty table and the food found under id 1 has
the price -1, which is negative. -/
theorem insertarAlimento_negative_price_stored :
    insertarAlimento true crearTablaHash 1 "Taco" (-1) "Si" = .ok (true, tablaPrecioNegativo) ∧
    AlimentosAlcanzable (fun _ => True) tablaPrecioNegativo ∧
    buscarAlimento tablaPrecioNegativo 1
      = some { id := 1, nombre := "Taco", precio := -1, disponible := 1 } ∧
    ¬ (0 : ℚ) ≤ ({ id := 1, nombre := "Taco", precio := -1, disponible := 1 } : Alimento).precio :=
  ⟨rfl,
   AlimentosAlcanzable.insertar true crearTablaHash tablaPrecioNegativo 1 "Taco" (-1) "Si" true
     AlimentosAlcanzable.crear True.intro rfl,
   rfl, by norm_num⟩

/-- C29, amended: in every food table reachable from the empty table by
`insertarAlimento`, `actualizarAlimento` and `eliminarAlimento` called with non-negative
prices (and any other arguments), every stored food has `precio >= 0`. -/
theorem precio_nonneg_of_nonneg_arguments (t : HashTable)
    (h : AlimentosAlcanzable (fun p => 0 ≤ p) t) :
    ∀ i : Fin 64, ∀ a ∈ t.buckets i, 0 ≤ a.precio := by
  induction h with
  | crear =>
    intro i a ha
    simp [crearTablaHash, Tabla.vacia] at ha
  | insertar mallocOk t t' id nombre precio disponibleStr b _ hP hOk ih =>
    unfold insertarAlimento at hOk
    split at hOk
    · cases hOk
      exact ih
    · split at hOk
      · cases hOk
        exact ih
      · simp only at hOk
        split at hOk
        · cases hOk
          exact ih
        · split at hOk
          · cases hOk
          · cases hOk
            apply Tabla.todos_poner _ _ _ _ ih
            intro a ha
            rcases List.mem_cons.1 ha with h | h
            · rw [h]
              exact hP
            · exact ih _ a h
  | actualizar t t' id nombre precio disponibleStr b _ hP hOk ih =>
    unfold actualizarAlimento at hOk
    split at hOk
    · cases hOk
      exact ih
    · split at hOk
      · cases hOk
        exact ih
      · split at hOk
        · cases hOk
        · simp only at hOk
          cases hOk
          apply Tabla.todos_poner _ _ _ _ ih
          apply cadenaModificar_todos _ _ _ _ _ (ih _)
          intro a _
          exact hP
  | eliminar t id _ ih =>
    unfold eliminarAlimento
    simp only
    split
    · rename_i cadena hcadena
      apply Tabla.todos_poner _ _ _ _ ih
      exact cadenaEliminar_todos _ _ _ _ _ hcadena (ih _)
    · exact ih

/-- C29 witness: Taco of price 5/2 inserted into the empty table. -/
theorem precio_nonneg_of_nonneg_arguments_witness :
    AlimentosAlcanzable (fun p => 0 ≤ p) tablaTaco ∧
    ∀ i : Fin 64, ∀ a ∈ tablaTaco.buckets i, 0 ≤ a.precio :=
  have h : AlimentosAlcanzable (fun p => 0 ≤ p) tablaTaco :=
    AlimentosAlcanzable.insertar true crearTablaHash tablaTaco 1 "Taco" (5 / 2) "Si" true
      AlimentosAlcanzable.crear (by norm_num) rfl
  ⟨h, precio_nonneg_of_nonneg_arguments tablaTaco h⟩

/-! ## serializar_datos.c: the menus -/

theorem cicloGuardarAlimentos_todos (formato2f : ℚ → String) (tablaAlimentos : HashTable) :
    ∀ alimentos : List Int,
      cicloGuardarAlimentos formato2f tablaAlimentos alimentos.length alimentos
        = .ok (alimentos.map (guardarAlimentoDeMenu formato2f tablaAlimentos)).flatten := by
  intro alimentos
  induction alimentos with
  | nil => rfl
  | cons x l ih =>
    simp only [List.length_cons, cicloGuardarAlimentos, ih, List.map_cons, List.flatten_cons]

theorem guardarMenu_spec (formato2f : ℚ → String) (tablaAlimentos : HashTable) (m : Menu)
    (hWf : (m.alimentos.length : Int) = m.numAlimentos) :
    guardarMenu formato2f tablaAlimentos m
      = .ok (["  - id: " ++ formatoD m.idMenu ++ "\n",
              "    fecha: \"" ++ m.fecha ++ "\"\n",
              "    alimentos:\n"]
            ++ (m.alimentos.map (guardarAlimentoDeMenu formato2f tablaAlimentos)).flatten) := by
  have hn : m.numAlimentos.toNat = m.alimentos.length := by omega
  simp only [guardarMenu, hn, cicloGuardarAlimentos_todos]

theorem guardarListaDeMenus_spec (formato2f : ℚ → String) (tablaAlimentos : HashTable) :
    ∀ menus : List Menu, (∀ m ∈ menus, (m.alimentos.length : Int) = m.numAlimentos) →
      guardarListaDeMenus formato2f tablaAlimentos menus
        = .ok (menus.map (fun m =>
            ["  - id: " ++ formatoD m.idMenu ++ "\n",
             "    fecha: \"" ++ m.fecha ++ "\"\n",
             "    alimentos:\n"]
            ++ (m.alimentos.map (guardarAlimentoDeMenu formato2f tablaAlimentos)).flatten)).flatten := by
  intro menus
  induction menus with
  | nil =>
    intro _
    rfl
  | cons x l ih =>
    intro h
    simp only [guardarListaDeMenus,
      guardarMenu_spec formato2f tablaAlimentos x (h x (List.mem_cons_self _ _)),
      ih (fun m hm => h m (List.mem_cons_of_mem _ hm)), List.map_cons, List.flatten_cons]

/-- C30: for every menu table whose records hold `numAlimentos` food ids and every food
table, `guardarMenus` returns; it writes `menus:` and then, for the menus in the order of
the buckets and of the chains, the three header strings of the menu followed by one entry
for each food id of the menu, in list order; the number of entries of a menu is its
`numAlimentos`; the entry of an id that `buscarAlimento` finds is the four strings with
the id of the food found (which is the id asked for), its quoted `nombre`, its `precio`
and `Si` when `disponible` is non-zero, `No` otherwise; the entry of an id that
`buscarAlimento` does not find is the two strings `- id: <id>` and
`error: "No encontrado"`. -/
theorem guardarMenus_entries (formato2f : ℚ → String) (tablaMenus : MenuHashTable)
    (tablaAlimentos : HashTable)
    (hWf : ∀ m ∈ tablaMenus.registros, (m.alimentos.length : Int) = m.numAlimentos) :
    guardarMenus formato2f tablaMenus tablaAlimentos
      = .ok ("menus:\n" ::
          (tablaMenus.registros.map (fun m =>
            ["  - id: " ++ formatoD m.idMenu ++ "\n",
             "    fecha: \"" ++ m.fecha ++ "\"\n",
             "    alimentos:\n"]
            ++ (m.alimentos.map
                  (guardarAlimentoDeMenu formato2f tablaAlimentos)).flatten)).flatten) ∧
    (∀ m ∈ tablaMenus.registros,
      ((m.alimentos.map (guardarAlimentoDeMenu formato2f tablaAlimentos)).length : Int)
        = m.numAlimentos) ∧
    (∀ (idAlimento : Int) (a : Alimento), buscarAlimento tablaAlimentos idAlimento = some a →
      a.id = idAlimento ∧
      guardarAlimentoDeMenu formato2f tablaAlimentos idAlimento
        = ["      - id: " ++ formatoD a.id ++ "\n",
           "        nombre: \"" ++ a.nombre ++ "\"\n",
           "        precio: " ++ formato2f a.precio ++ "\n",
           "        disponible: " ++ (if a.disponible ≠ 0 then "Si" else "No") ++ "\n"]) ∧
    (∀ idAlimento : Int, buscarAlimento tablaAlimentos idAlimento = none →
      guardarAlimentoDeMenu formato2f tablaAlimentos idAlimento
        = ["      - id: " ++ formatoD idAlimento ++ "\n",
           "        error: \"No encontrado\"\n"]) := by
  refine ⟨?_, ?_, ?_, ?_⟩
  · simp only [guardarMenus,
      guardarListaDeMenus_spec formato2f tablaAlimentos tablaMenus.registros hWf]
  · intro m hm
    rw [List.length_map]
    exact hWf m hm
  · intro idAlimento a ha
    obtain ⟨_, _, _, _, hid⟩ := cadenaBuscar_split Alimento.id idAlimento _ a ha
    exact ⟨hid, by simp only [guardarAlimentoDeMenu, ha]⟩
  · intro idAlimento ha
    simp only [guardarAlimentoDeMenu, ha]

/-- C30 witness: menu 10 lists food 1, which the food table holds, and food 99, which it
does not; the price conversion of the example writes 2.50. -/
theorem guardarMenus_entries_witness :
    guardarMenus (fun _ => "2.50") tablaMenuColgante tablaTaco
      = .ok ["menus:\n",
             "  - id: 10\n",
             "    fecha: \"2024-01-01\"\n",
             "    alimentos:\n",
             "      - id: 1\n",
             "        nombre: \"Taco\"\n",
             "        precio: 2.50\n",
             "        disponible: Si\n",
             "      - id: 99\n",
             "        error: \"No encontrado\"\n"] :=
  ((guardarMenus_entries (fun _ => "2.50") tablaMenuColgante tablaTaco
    (by
      intro m hm
      have h : tablaMenuColgante.registros
          = [{ idMenu := 10, fecha := "2024-01-01", alimentos := [1, 99],
               numAlimentos := 2 }] := rfl
      rw [h, List.mem_singleton] at hm
      rw [hm]
      rfl)).1).trans (congrArg Except.ok (by decide))

/-! ## Ranges of an array -/

/-- An array is its cells before a range, the cells of the range and the cells after it. -/
theorem descomponer_tres {α : Type} (arr : List α) (a m : Nat) :
    arr = arr.take a ++ ((arr.drop a).take m ++ arr.drop (a + m)) := by
  rw [← List.drop_drop, List.take_append_drop, List.take_append_drop]

theorem rango_de_tres {α : Type} (A M B : List α) :
    ((A ++ (M ++ B)).drop A.length).take M.length = M := by
  simp

/-- Two arrays that differ only inside a range have the same cells outside it. -/
theorem marco_tres {α : Type} (A M M' B : List α) (hlen : M'.length = M.length) (k : Nat)
    (hk : k < A.length ∨ A.length + M.length ≤ k) :
    (A ++ (M' ++ B))[k]? = (A ++ (M ++ B))[k]? := by
  rcases hk with hk | hk
  · rw [List.getElem?_append_left hk, List.getElem?_append_left hk]
  · rw [List.getElem?_append_right (by omega), List.getElem?_append_right (by omega),
      List.getElem?_append_right (by omega), List.getElem?_append_right (by omega), hlen]

/-- The partition in terms of indices: what `particion` returns on the range
`[low, high]` of an array. -/
theorem particion_indices {α K : Type} [LT K] [DecidableRel (fun a b : K => a < b)]
    (key : α → K) (arr : List α) (low high : Int)
    (h0 : 0 ≤ low) (hlh : low ≤ high) (hn : high < (arr.length : Int)) :
    ∃ (salida : List α) (p : Int) (pv : α),
      particion key arr low high = .ok (salida, p) ∧ low ≤ p ∧ p ≤ high ∧
      salida.length = arr.length ∧
      arr[high.toNat]? = some pv ∧ salida[p.toNat]? = some pv ∧
      (∀ (k : Nat) (r : α), low ≤ (k : Int) → (k : Int) < p → salida[k]? = some r →
        key r < key pv) ∧
      (∀ (k : Nat) (r : α), p < (k : Int) → (k : Int) ≤ high → salida[k]? = some r →
        ¬ key r < key pv) ∧
      ((salida.drop low.toNat).take (high - low + 1).toNat).Perm
        ((arr.drop low.toNat).take (high - low + 1).toNat) ∧
      (∀ k : Nat, ((k : Int) < low ∨ high < (k : Int)) → salida[k]? = arr[k]?) := by
  have hdec := descomponer_tres arr low.toNat (high - low + 1).toNat
  have hAlen : (arr.take low.toNat).length = low.toNat := by
    rw [List.length_take]; omega
  have hSlen : ((arr.drop low.toNat).take (high - low + 1).toNat).length
      = (high - low + 1).toNat := by
    rw [List.length_take, List.length_drop]; omega
  generalize hA : arr.take low.toNat = A at hdec hAlen
  generalize hS : (arr.drop low.toNat).take (high - low + 1).toNat = S at hdec hSlen
  generalize hB : arr.drop (low.toNat + (high - low + 1).toNat) = B at hdec
  rcases List.eq_nil_or_concat S with hnil | ⟨S0, pv, hcat⟩
  · rw [hnil] at hSlen
    simp only [List.length_nil] at hSlen
    omega
  rw [List.concat_eq_append] at hcat
  have hS0len : S0.length = (high - low).toNat := by
    rw [hcat] at hSlen
    simp only [List.length_append, List.length_cons, List.length_nil] at hSlen
    omega
  have harr : arr = A ++ (S0 ++ pv :: B) := by
    rw [hdec, hcat]; simp
  obtain ⟨L, R, hp, hL, hR, hperm⟩ := particion_spec key A S0 pv B low high (by omega) (by omega)
  have hLR : L.length + R.length = S0.length := by
    have := hperm.length_eq
    simpa using this
  have hsal : A ++ (L ++ pv :: (R ++ B)) = A ++ ((L ++ pv :: R) ++ B) := by simp
  have harr' : arr = A ++ ((S0 ++ [pv]) ++ B) := by rw [harr]; simp
  refine ⟨A ++ (L ++ pv :: (R ++ B)), (A.length : Int) + L.length, pv, ?_, by omega, by omega,
    ?_, ?_, ?_, ?_, ?_, ?_, ?_⟩
  · rw [harr]; exact hp
  · rw [harr]
    simp only [List.length_append, List.length_cons]
    omega
  · rw [harr]
    have e : A ++ (S0 ++ pv :: B) = (A ++ S0) ++ pv :: B := by simp
    rw [e]
    have : high.toNat = (A ++ S0).length := by
      simp only [List.length_append]; omega
    rw [this]
    exact getElem?_append_length _ pv _
  · have e : A ++ (L ++ pv :: (R ++ B)) = (A ++ L) ++ pv :: (R ++ B) := by simp
    rw [e]
    have : ((A.length : Int) + L.length).toNat = (A ++ L).length := by
      simp only [List.length_append]; omega
    rw [this]
    exact getElem?_append_length _ pv _
  · intro k r hk1 hk2 hget
    rw [List.getElem?_append_right (by omega), List.getElem?_append_left (by omega)] at hget
    exact hL r (List.getElem?_mem hget)
  · intro k r hk1 hk2 hget
    have e : A ++ (L ++ pv :: (R ++ B)) = (A ++ L ++ [pv]) ++ (R ++ B) := by simp
    rw [e, List.getElem?_append_right
      (by simp only [List.length_append, List.length_cons, List.length_nil]; omega),
      List.getElem?_append_left
      (by simp only [List.length_append, List.length_cons, List.length_nil]; omega)] at hget
    exact hR r (List.getElem?_mem hget)
  · rw [hsal]
    have h1 : low.toNat = A.length := by omega
    have h2 : (high - low + 1).toNat = (L ++ pv :: R).length := by
      simp only [List.length_append, List.length_cons]; omega
    rw [h1, h2, rango_de_tres, hcat]
    have : (L ++ pv :: R).Perm (pv :: (L ++ R)) := List.perm_middle
    refine this.trans ?_
    refine (List.Perm.cons pv hperm).trans ?_
    exact (List.perm_append_singleton pv S0).symm
  · intro k hk
    rw [hsal, harr']
    apply marco_tres
    · simp only [List.length_append, List.length_cons, List.length_nil]; omega
    · simp only [List.length_append, List.length_cons, List.length_nil]
      omega


/-- A range of at most one cell: the call returns the array as it is, whatever the depth
bound. -/
theorem quicksortHasta_fuera {α K : Type} [LT K] [DecidableRel (fun a b : K => a < b)]
    (key : α → K) (d : Nat) (arr : List α) (low high : Int) (h : ¬ low < high) :
    quicksortHasta key d arr low high = .ok arr := by
  cases d with
  | zero => rfl
  | succ n => simp only [quicksortHasta, if_neg h]

/-- The quicksort in terms of indices: with a depth bound of at least `high - low` the
call returns an array of the same length, equal to the first outside `[low, high]`, whose
cells of `[low, high]` are a permutation of the former ones in non-decreasing order. -/
theorem quicksortHasta_indices {α K : Type} [LinearOrder K] (key : α → K) (d : Nat)
    (arr : List α) (low high : Int)
    (h0 : 0 ≤ low) (hn : high < (arr.length : Int)) (hd : (high - low).toNat ≤ d) :
    ∃ salida : List α,
      quicksortHasta key d arr low high = .ok salida ∧ salida.length = arr.length ∧
      (∀ k : Nat, ((k : Int) < low ∨ high < (k : Int)) → salida[k]? = arr[k]?) ∧
      ((salida.drop low.toNat).take (high - low + 1).toNat).Perm
        ((arr.drop low.toNat).take (high - low + 1).toNat) ∧
      ((salida.drop low.toNat).take (high - low + 1).toNat).Pairwise
        (fun a b => key a ≤ key b) := by
  by_cases hlt : low < high
  · have hdec := descomponer_tres arr low.toNat (high - low + 1).toNat
    have hAlen : (arr.take low.toNat).length = low.toNat := by
      rw [List.length_take]; omega
    have hSlen : ((arr.drop low.toNat).take (high - low + 1).toNat).length
        = (high - low + 1).toNat := by
      rw [List.length_take, List.length_drop]; omega
    generalize hA : arr.take low.toNat = A at hdec hAlen
    generalize hS : (arr.drop low.toNat).take (high - low + 1).toNat = S at hdec hSlen
    generalize hB : arr.drop (low.toNat + (high - low + 1).toNat) = B at hdec
    obtain ⟨S', hq, hperm, hsorted⟩ := quicksortHasta_spec key d A S B low high (by omega)
      (by omega) (by omega)
    have hlen' : S'.length = S.length := hperm.length_eq
    have h1 : low.toNat = A.length := by omega
    have h2 : (high - low + 1).toNat = S'.length := by omega
    refine ⟨A ++ (S' ++ B), ?_, ?_, ?_, ?_, ?_⟩
    · rw [hdec]; exact hq
    · rw [hdec]
      simp only [List.length_append]
      omega
    · intro k hk
      rw [hdec]
      apply marco_tres _ _ _ _ hlen'
      omega
    · rw [h1, h2, rango_de_tres]
      exact hperm
    · rw [h1, h2, rango_de_tres]
      exact hsorted
  · rw [quicksortHasta_fuera key d arr low high hlt]
    refine ⟨arr, rfl, rfl, fun _ _ => rfl, List.Perm.refl _, ?_⟩
    have hle : ((arr.drop low.toNat).take (high - low + 1).toNat).length ≤ 1 := by
      rw [List.length_take]
      omega
    match hm : (arr.drop low.toNat).take (high - low + 1).toNat, hle with
    | [], _ => exact List.Pairwise.nil
    | [a], _ => exact List.pairwise_singleton _ a

/-- The depth bound is never used up: every bound of at least `high - low` gives the same
run. -/
theorem quicksortHasta_suficiente {α K : Type} [LinearOrder K] (key : α → K) :
    ∀ (d : Nat) (arr : List α) (low high : Int), 0 ≤ low → high < (arr.length : Int) →
      (high - low).toNat ≤ d → ∀ d' : Nat, (high - low).toNat ≤ d' →
      quicksortHasta key d arr low high = quicksortHasta key d' arr low high := by
  intro d
  induction d with
  | zero =>
    intro arr low high _ _ hd d' _
    have h : ¬ low < high := by omega
    rw [quicksortHasta_fuera key 0 arr low high h, quicksortHasta_fuera key d' arr low high h]
  | succ n ih =>
    intro arr low high h0 hn hd d' hd'
    by_cases hlt : low < high
    · cases d' with
      | zero => omega
      | succ m =>
        obtain ⟨arr1, p, pv, hp, hp1, hp2, hlen1, -⟩ :=
          particion_indices key arr low high h0 (le_of_lt hlt) hn
        obtain ⟨arr2, h2, hlen2, -⟩ :=
          quicksortHasta_indices key m arr1 low (p - 1) h0 (by omega) (by omega)
        have e1 := ih arr1 low (p - 1) h0 (by omega) (by omega) m (by omega)
        have e2 := ih arr2 (p + 1) high (by omega) (by omega) (by omega) m (by omega)
        simp only [quicksortHasta, if_pos hlt, hp, e1, h2, e2]
    · rw [quicksortHasta_fuera key _ arr low high hlt,
        quicksortHasta_fuera key d' arr low high hlt]

/-- The body of `quicksort...Parallel` on a range of two cells or more: the partition,
then the call on `[low, pi - 1]`, then the call on `[pi + 1, high]`. -/
theorem quicksort_desplegar {α K : Type} [LinearOrder K] (key : α → K) (arr : List α)
    (low high : Int) (h0 : 0 ≤ low) (hn : high < (arr.length : Int)) (hlt : low < high) :
    ∃ (arr1 : List α) (pi : Int) (arr2 salida : List α),
      particion key arr low high = .ok (arr1, pi) ∧ low ≤ pi ∧ pi ≤ high ∧
      quicksort key arr1 low (pi - 1) = .ok arr2 ∧
      quicksort key arr2 (pi + 1) high = .ok salida ∧
      quicksort key arr low high = .ok salida ∧
      arr1.length = arr.length ∧ arr2.length = arr.length ∧
      (∀ k : Nat, ((k : Int) < low ∨ high < (k : Int)) → arr1[k]? = arr[k]?) ∧
      (∀ k : Nat, ((k : Int) < low ∨ pi - 1 < (k : Int)) → arr2[k]? = arr1[k]?) ∧
      (∀ k : Nat, ((k : Int) < pi + 1 ∨ high < (k : Int)) → salida[k]? = arr2[k]?) := by
  obtain ⟨arr1, p, pv, hp, hp1, hp2, hlen1, -, -, -, -, -, hf1⟩ :=
    particion_indices key arr low high h0 (le_of_lt hlt) hn
  obtain ⟨arr2, h2, hlen2, hf2, -⟩ :=
    quicksortHasta_indices key (p - 1 - low).toNat arr1 low (p - 1) h0 (by omega) (le_refl _)
  obtain ⟨salida, h3, hlen3, hf3, -⟩ :=
    quicksortHasta_indices key (high - (p + 1)).toNat arr2 (p + 1) high (by omega) (by omega)
      (le_refl _)
  refine ⟨arr1, p, arr2, salida, hp, hp1, hp2, h2, h3, ?_, hlen1, by omega, hf1, hf2, hf3⟩
  obtain ⟨n, hnn⟩ : ∃ n : Nat, (high - low).toNat = n + 1 := ⟨(high - low).toNat - 1, by omega⟩
  have e1 := quicksortHasta_suficiente key n arr1 low (p - 1) h0 (by omega) (by omega)
    (p - 1 - low).toNat (le_refl _)
  have e2 := quicksortHasta_suficiente key n arr2 (p + 1) high (by omega) (by omega) (by omega)
    (high - (p + 1)).toNat (le_refl _)
  simp only [quicksort, hnn, quicksortHasta, if_pos hlt, hp, e1, h2, e2, h3]

/-! ## A range of an array and the cells around it -/

theorem leer_contexto {α : Type} (A S B : List α) (k : Int) (h1 : (A.length : Int) ≤ k)
    (h2 : k < (A.length : Int) + S.length) :
    leer (A ++ (S ++ B)) k = leer S (k - A.length) := by
  have e : k.toNat - A.length = (k - (A.length : Int)).toNat := by omega
  simp only [leer, if_pos (by omega : (0 : Int) ≤ k),
    if_pos (by omega : (0 : Int) ≤ k - A.length)]
  rw [List.getElem?_append_right (by omega), List.getElem?_append_left (by omega), e]

theorem escribir_contexto {α : Type} (A S B : List α) (k : Int) (v : α)
    (h1 : (A.length : Int) ≤ k) (h2 : k < (A.length : Int) + S.length) :
    escribir (A ++ (S ++ B)) k v = .ok (A ++ (S.set (k - A.length).toNat v ++ B)) := by
  have e : k.toNat - A.length = (k - (A.length : Int)).toNat := by omega
  have hc : 0 ≤ k ∧ k.toNat < (A ++ (S ++ B)).length := by
    simp only [List.length_append]
    omega
  simp only [escribir, if_pos hc]
  rw [List.set_append_right _ _ (by omega), List.set_append_left _ _ (by omega), e]

/-- An exchange of two cells of a range: the new cells of the range depend on the cells
of the range alone. -/
theorem intercambiar_contexto {α : Type} (S : List α) (off a b : Int)
    (ha1 : off ≤ a) (ha2 : a < off + S.length) (hb1 : off ≤ b) (hb2 : b < off + S.length) :
    ∃ S' : List α, S'.length = S.length ∧
      ∀ A B : List α, (A.length : Int) = off →
        intercambiar (A ++ (S ++ B)) a b = .ok (A ++ (S' ++ B)) := by
  obtain ⟨va, hva, -⟩ := leer_en_rango S (a - off) (by omega) (by omega)
  obtain ⟨vb, hvb, -⟩ := leer_en_rango S (b - off) (by omega) (by omega)
  refine ⟨(S.set (a - off).toNat vb).set (b - off).toNat va, by simp, ?_⟩
  intro A B hA
  subst hA
  have hlen : ((S.set (a - (A.length : Int)).toNat vb).length : Int) = S.length := by simp
  simp only [intercambiar, leer_contexto A S B a ha1 ha2, hva, leer_contexto A S B b hb1 hb2,
    hvb, escribir_contexto A S B a vb ha1 ha2]
  rw [escribir_contexto A _ B b va hb1 (by omega)]

/-- The loop of the partition on a range: the new cells of the range and the final `i`
depend on the cells of the range alone. -/
theorem cicloParticion_contexto {α K : Type} [LT K] [DecidableRel (fun a b : K => a < b)]
    (key : α → K) (pivot : K) (off : Int) :
    ∀ (n : Nat) (S : List α) (i j : Int), off - 1 ≤ i → i < j → off ≤ j →
      j + n ≤ off + S.length →
      ∃ (S' : List α) (i' : Int), S'.length = S.length ∧ off - 1 ≤ i' ∧ i' < j + n ∧
        ∀ A B : List α, (A.length : Int) = off →
          cicloParticion key pivot n (A ++ (S ++ B)) i j = .ok (A ++ (S' ++ B), i') := by
  intro n
  induction n with
  | zero =>
    intro S i j hi hij _ _
    exact ⟨S, i, rfl, hi, by simpa using hij, fun _ _ _ => rfl⟩
  | succ n ih =>
    intro S i j hi hij hj hjn
    obtain ⟨aj, haj, -⟩ := leer_en_rango S (j - off) (by omega) (by omega)
    by_cases hlt : key aj < pivot
    · obtain ⟨S1, hlen1, hS1⟩ := intercambiar_contexto S off (i + 1) j (by omega) (by omega)
        hj (by omega)
      obtain ⟨S', i', hlen', hi1, hi2, hS'⟩ := ih S1 (i + 1) (j + 1) (by omega) (by omega)
        (by omega) (by omega)
      refine ⟨S', i', by omega, hi1, by push_cast; omega, ?_⟩
      intro A B hA
      have hr : leer (A ++ (S ++ B)) j = .ok aj := by
        rw [leer_contexto A S B j (by omega) (by omega), hA]
        exact haj
      simp only [cicloParticion, hr, if_pos hlt, hS1 A B hA, hS' A B hA]
    · obtain ⟨S', i', hlen', hi1, hi2, hS'⟩ := ih S i (j + 1) hi (by omega) (by omega)
        (by omega)
      refine ⟨S', i', hlen', hi1, by push_cast; omega, ?_⟩
      intro A B hA
      have hr : leer (A ++ (S ++ B)) j = .ok aj := by
        rw [leer_contexto A S B j (by omega) (by omega), hA]
        exact haj
      simp only [cicloParticion, hr, if_neg hlt, hS' A B hA]

/-- The partition of a range: the new cells of the range and the index returned depend on
the cells of the range alone. -/
theorem particion_contexto {α K : Type} [LT K] [DecidableRel (fun a b : K => a < b)]
    (key : α → K) (S : List α) (off high : Int) (hhigh : high = off + S.length - 1)
    (hS : 0 < S.length) :
    ∃ (S' : List α) (p : Int), S'.length = S.length ∧ off ≤ p ∧ p ≤ high ∧
      ∀ A B : List α, (A.length : Int) = off →
        particion key (A ++ (S ++ B)) off high = .ok (A ++ (S' ++ B), p) := by
  obtain ⟨pv, hpv, -⟩ := leer_en_rango S (high - off) (by omega) (by omega)
  obtain ⟨S1, i, hlen1, hi1, hi2, hS1⟩ := cicloParticion_contexto key (key pv) off
    (high - off).toNat S (off - 1) off (le_refl _) (by omega) (le_refl _) (by omega)
  obtain ⟨S2, hlen2, hS2⟩ := intercambiar_contexto S1 off (i + 1) high (by omega) (by omega)
    (by omega) (by omega)
  refine ⟨S2, i + 1, by omega, by omega, by omega, ?_⟩
  intro A B hA
  have hr : leer (A ++ (S ++ B)) high = .ok pv := by
    rw [leer_contexto A S B high (by omega) (by omega), hA]
    exact hpv
  simp only [particion, hr, hS1 A B hA, hS2 A B hA]

/-- The quicksort of a range: the new cells of the range depend on the cells of the range
alone, whatever the cells before and after it. -/
theorem quicksortHasta_contexto {α K : Type} [LT K] [DecidableRel (fun a b : K => a < b)]
    (key : α → K) :
    ∀ (d : Nat) (S : List α) (off high : Int), 0 ≤ off → high = off + S.length - 1 →
      ∃ S' : List α, S'.length = S.length ∧
        ∀ A B : List α, (A.length : Int) = off →
          quicksortHasta key d (A ++ (S ++ B)) off high = .ok (A ++ (S' ++ B)) := by
  intro d
  induction d with
  | zero =>
    intro S off high _ _
    exact ⟨S, rfl, fun _ _ _ => rfl⟩
  | succ n ih =>
    intro S off high hoff hhigh
    by_cases hlt : off < high
    · obtain ⟨S1, p, hlen1, hp1, hp2, hS1⟩ := particion_contexto key S off high hhigh
        (by omega)
      have hdec := descomponer_tres S1 (p - off).toNat 1
      have hLlen : (S1.take (p - off).toNat).length = (p - off).toNat := by
        rw [List.length_take]; omega
      have hMlen : ((S1.drop (p - off).toNat).take 1).length = 1 := by
        rw [List.length_take, List.length_drop]; omega
      have hRlen : (S1.drop ((p - off).toNat + 1)).length = S1.length - ((p - off).toNat + 1) := by
        rw [List.length_drop]
      generalize S1.take (p - off).toNat = L at hdec hLlen
      generalize (S1.drop (p - off).toNat).take 1 = M at hdec hMlen
      generalize S1.drop ((p - off).toNat + 1) = R at hdec hRlen
      obtain ⟨pv, rfl⟩ : ∃ pv, M = [pv] := List.length_eq_one.mp hMlen
      obtain ⟨L', hlenL, hL'⟩ := ih L off (p - 1) hoff (by omega)
      obtain ⟨R', hlenR, hR'⟩ := ih R (p + 1) high (by omega) (by omega)
      refine ⟨L' ++ ([pv] ++ R'), ?_, ?_⟩
      · rw [← hlen1, hdec]
        simp only [List.length_append, List.length_cons, List.length_nil]
        omega
      · intro A B hA
        have e1 : A ++ (S1 ++ B) = A ++ (L ++ ([pv] ++ R ++ B)) := by
          rw [hdec]; simp
        have e2 : A ++ (L' ++ ([pv] ++ R ++ B)) = (A ++ L' ++ [pv]) ++ (R ++ B) := by simp
        have e3 : (A ++ L' ++ [pv]) ++ (R' ++ B) = A ++ (L' ++ ([pv] ++ R') ++ B) := by simp
        have hA2 : (((A ++ L' ++ [pv]).length : Nat) : Int) = p + 1 := by
          simp only [List.length_append, List.length_cons, List.length_nil]
          push_cast
          omega
        simp only [quicksortHasta, if_pos hlt, hS1 A B hA]
        rw [e1, hL' A _ hA]
        simp only
        rw [e2, hR' _ B hA2, e3]
    · refine ⟨S, rfl, ?_⟩
      intro A B _
      simp only [quicksortHasta, if_neg hlt]

/-- The two calls that follow the partition can be made in either order: the call on
`[low, p - 1]` and then the call on `[p + 1, high]` give the array that the call on
`[p + 1, high]` and then the call on `[low, p - 1]` give. -/
theorem quicksort_secciones_conmutan {α K : Type} [LT K]
    [DecidableRel (fun a b : K => a < b)] (key : α → K) (arr : List α) (low p high : Int)
    (h0 : 0 ≤ low) (hp1 : low ≤ p) (hp2 : p ≤ high) (hn : high < (arr.length : Int)) :
    ∃ arr2 arr3 salida : List α,
      quicksort key arr low (p - 1) = .ok arr2 ∧
      quicksort key arr2 (p + 1) high = .ok salida ∧
      quicksort key arr (p + 1) high = .ok arr3 ∧
      quicksort key arr3 low (p - 1) = .ok salida := by
  have hdec := descomponer_tres arr low.toNat (high - low + 1).toNat
  have hAlen : (arr.take low.toNat).length = low.toNat := by
    rw [List.length_take]; omega
  have hSlen : ((arr.drop low.toNat).take (high - low + 1).toNat).length
      = (high - low + 1).toNat := by
    rw [List.length_take, List.length_drop]; omega
  generalize arr.take low.toNat = A at hdec hAlen
  generalize (arr.drop low.toNat).take (high - low + 1).toNat = S at hdec hSlen
  generalize arr.drop (low.toNat + (high - low + 1).toNat) = B at hdec
  have hdec2 := descomponer_tres S (p - low).toNat 1
  have hLlen : (S.take (p - low).toNat).length = (p - low).toNat := by
    rw [List.length_take]; omega
  have hMlen : ((S.drop (p - low).toNat).take 1).length = 1 := by
    rw [List.length_take, List.length_drop]; omega
  have hRlen : (S.drop ((p - low).toNat + 1)).length = S.length - ((p - low).toNat + 1) := by
    rw [List.length_drop]
  generalize S.take (p - low).toNat = L at hdec2 hLlen
  generalize (S.drop (p - low).toNat).take 1 = M at hdec2 hMlen
  generalize S.drop ((p - low).toNat + 1) = R at hdec2 hRlen
  obtain ⟨pv, rfl⟩ : ∃ pv, M = [pv] := List.length_eq_one.mp hMlen
  obtain ⟨L', hlenL, hL'⟩ := quicksortHasta_contexto key (p - 1 - low).toNat L low (p - 1)
    h0 (by omega)
  obtain ⟨R', hlenR, hR'⟩ := quicksortHasta_contexto key (high - (p + 1)).toNat R (p + 1) high
    (by omega) (by omega)
  have e0 : arr = A ++ (L ++ ([pv] ++ R ++ B)) := by
    rw [hdec, hdec2]; simp
  have e0' : arr = (A ++ L ++ [pv]) ++ (R ++ B) := by
    rw [e0]; simp
  have e1 : A ++ (L' ++ ([pv] ++ R ++ B)) = (A ++ L' ++ [pv]) ++ (R ++ B) := by simp
  have e2 : (A ++ L ++ [pv]) ++ (R' ++ B) = A ++ (L ++ ([pv] ++ R' ++ B)) := by simp
  have e3 : (A ++ L' ++ [pv]) ++ (R' ++ B) = A ++ (L' ++ ([pv] ++ R' ++ B)) := by simp
  have hA : (A.length : Int) = low := by omega
  have hA1 : (((A ++ L ++ [pv]).length : Nat) : Int) = p + 1 := by
    simp only [List.length_append, List.length_cons, List.length_nil]
    push_cast
    omega
  have hA2 : (((A ++ L' ++ [pv]).length : Nat) : Int) = p + 1 := by
    simp only [List.length_append, List.length_cons, List.length_nil]
    push_cast
    omega
  refine ⟨A ++ (L' ++ ([pv] ++ R ++ B)), (A ++ L ++ [pv]) ++ (R' ++ B),
    A ++ (L' ++ ([pv] ++ R' ++ B)), ?_, ?_, ?_, ?_⟩
  · rw [e0]
    exact hL' A _ hA
  · rw [e1, ← e3]
    exact hR' _ B hA2
  · rw [e0']
    exact hR' _ B hA1
  · rw [e2]
    exact hL' A _ hA

/-! ## Records of equal price -/

/-- The loop of the partition over cells none of which is smaller than the pivot: no
exchange is made and `i` stays where it was. -/
theorem cicloParticion_sin_menores {α K : Type} [LT K] [DecidableRel (fun a b : K => a < b)]
    (key : α → K) (pivot : K) (A Z : List α) (i : Int) :
    ∀ (Rest Ge : List α) (j : Int), j = (A.length : Int) + Ge.length →
      (∀ x ∈ Rest, ¬ key x < pivot) →
      cicloParticion key pivot Rest.length (A ++ (Ge ++ (Rest ++ Z))) i j
        = .ok (A ++ (Ge ++ (Rest ++ Z)), i) := by
  intro Rest
  induction Rest with
  | nil =>
    intro Ge j _ _
    rfl
  | cons x Rest ih =>
    intro Ge j hj hRest
    have hread : leer (A ++ (Ge ++ (x :: Rest ++ Z))) j = .ok x := by
      have e : A ++ (Ge ++ (x :: Rest ++ Z)) = (A ++ Ge) ++ x :: (Rest ++ Z) := by simp
      rw [e]
      exact leer_append _ x _ j (by simp only [List.length_append]; push_cast; omega)
    have hx : ¬ key x < pivot := hRest x (List.mem_cons_self _ _)
    have e2 : A ++ (Ge ++ (x :: Rest ++ Z)) = A ++ ((Ge ++ [x]) ++ (Rest ++ Z)) := by simp
    simp only [List.length_cons, cicloParticion, hread, if_neg hx]
    rw [e2]
    exact ih (Ge ++ [x]) (j + 1)
      (by simp only [List.length_append, List.length_cons, List.length_nil]; push_cast; omega)
      (fun y hy => hRest y (List.mem_cons_of_mem _ hy))

/-- The partition of a range none of whose cells is smaller than the pivot: the pivot
comes first, the former first cell takes its place at the end, and the index returned is
`low`. -/
theorem particion_sin_menores {α K : Type} [LT K] [DecidableRel (fun a b : K => a < b)]
    (key : α → K) (A : List α) (x : α) (M : List α) (pv : α) (B : List α) (low high : Int)
    (hlow : low = A.length) (hhigh : high = (A.length : Int) + 1 + M.length)
    (hS : ∀ y ∈ x :: M, ¬ key y < key pv) :
    particion key (A ++ (x :: (M ++ pv :: B))) low high
      = .ok (A ++ (pv :: (M ++ x :: B)), low) := by
  have hread : leer (A ++ (x :: (M ++ pv :: B))) high = .ok pv := by
    have e : A ++ (x :: (M ++ pv :: B)) = (A ++ x :: M) ++ pv :: B := by simp
    rw [e]
    exact leer_append _ pv B high
      (by simp only [List.length_append, List.length_cons]; push_cast; omega)
  have hn : (high - low).toNat = (x :: M).length := by
    simp only [List.length_cons]; omega
  have hc := cicloParticion_sin_menores key (key pv) A (pv :: B) (low - 1) (x :: M) [] low
    (by simp only [List.length_nil]; push_cast; omega) hS
  simp only [List.nil_append] at hc
  have e1 : A ++ (x :: (M ++ pv :: B)) = A ++ (x :: M ++ pv :: B) := by simp
  have hsw := intercambiar_append A x M pv B (low - 1 + 1) high (by omega) hhigh
  simp only [particion, hread, hn]
  rw [e1, hc]
  simp only
  rw [← e1, hsw]
  have e : low - 1 + 1 = low := by omega
  rw [e]

/-- The quicksort of a range no cell of which is smaller than another: the last cell of
the range comes first and the others follow in their former order. -/
theorem quicksortHasta_sin_menores {α K : Type} [LT K] [DecidableRel (fun a b : K => a < b)]
    (key : α → K) :
    ∀ (d : Nat) (A S0 : List α) (pv : α) (B : List α) (low high : Int),
      low = A.length → high = (A.length : Int) + S0.length → S0.length ≤ d →
      (∀ y ∈ S0 ++ [pv], ∀ z ∈ S0 ++ [pv], ¬ key y < key z) →
      quicksortHasta key d (A ++ (S0 ++ pv :: B)) low high = .ok (A ++ (pv :: (S0 ++ B))) := by
  intro d
  induction d with
  | zero =>
    intro A S0 pv B low high _ _ hd _
    have : S0 = [] := List.length_eq_zero.mp (Nat.le_zero.mp hd)
    subst this
    rfl
  | succ n ih =>
    intro A S0 pv B low high hlow hhigh hd hkeys
    cases S0 with
    | nil =>
      have hlt : ¬ low < high := by
        simp only [List.length_nil] at hhigh
        omega
      simp only [quicksortHasta, if_neg hlt]
      rfl
    | cons x M =>
      have hlt : low < high := by
        simp only [List.length_cons] at hhigh
        omega
      have hp := particion_sin_menores key A x M pv B low high hlow
        (by simp only [List.length_cons] at hhigh; omega)
        (fun y hy => hkeys y (List.mem_append_left _ hy) pv (by simp))
      have e0 : A ++ (x :: M ++ pv :: B) = A ++ (x :: (M ++ pv :: B)) := by simp
      have hleft : ¬ low < low - 1 := by omega
      have e1 : A ++ (pv :: (M ++ x :: B)) = (A ++ [pv]) ++ (M ++ x :: B) := by simp
      have hright := ih (A ++ [pv]) M x B (low + 1) high
        (by simp only [List.length_append, List.length_cons, List.length_nil]; push_cast; omega)
        (by
          simp only [List.length_append, List.length_cons, List.length_nil] at hhigh ⊢
          push_cast at hhigh ⊢
          omega)
        (by simp only [List.length_cons] at hd; omega)
        (fun y hy z hz => hkeys y (by
            rcases List.mem_append.1 hy with h | h
            · exact List.mem_append_left _ (List.mem_cons_of_mem _ h)
            · rw [List.mem_singleton.1 h]; simp)
          z (by
            rcases List.mem_append.1 hz with h | h
            · exact List.mem_append_left _ (List.mem_cons_of_mem _ h)
            · rw [List.mem_singleton.1 h]; simp))
      rw [e0]
      simp only [quicksortHasta, if_pos hlt, hp,
        quicksortHasta_fuera key n _ low (low - 1) hleft]
      rw [e1, hright]
      simp

/-- The top-level call on an array no cell of which is smaller than another. -/
theorem quicksort_sin_menores {α K : Type} [LT K] [DecidableRel (fun a b : K => a < b)]
    (key : α → K) (S0 : List α) (pv : α)
    (hkeys : ∀ y ∈ S0 ++ [pv], ∀ z ∈ S0 ++ [pv], ¬ key y < key z) :
    quicksort key (S0 ++ [pv]) 0 (((S0 ++ [pv]).length : Int) - 1) = .ok (pv :: S0) := by
  have h := quicksortHasta_sin_menores key S0.length [] S0 pv [] 0 (S0.length : Int)
    (by simp) (by simp) (le_refl _) hkeys
  simp only [List.nil_append, List.append_nil] at h
  have hd : ((((S0 ++ [pv]).length : Int) - 1) - 0).toNat = S0.length := by
    simp only [List.length_append, List.length_cons, List.length_nil]
    push_cast
    omega
  have hh : (((S0 ++ [pv]).length : Int) - 1) = (S0.length : Int) := by
    simp only [List.length_append, List.length_cons, List.length_nil]
    push_cast
    omega
  simp only [quicksort, hd, hh]
  exact h

/-- C15, amended: the sort is not stable. On an array of `n >= 1` foods that all have
the same `precio`, `quicksortAlimentosParallel(arr, 0, n - 1)` returns the last record of
the input followed by the other `n - 1` records in their input order; when there are two
records or more and the last one is not among the others, the records of that price do
not come in the order they had in the input. -/
theorem quicksortAlimentos_equal_prices_rotate (alimentos : List Alimento) (ultimo : Alimento)
    (p : ℚ) (hAll : ∀ a ∈ alimentos ++ [ultimo], a.precio = p) :
    quicksortAlimentosParallel (alimentos ++ [ultimo]) 0
        (((alimentos ++ [ultimo]).length : Int) - 1) = .ok (ultimo :: alimentos) ∧
    (alimentos ≠ [] → ultimo ∉ alimentos →
      ¬ OrdenRelativoConservado (alimentos ++ [ultimo]) (ultimo :: alimentos)) := by
  constructor
  · apply quicksort_sin_menores Alimento.precio alimentos ultimo
    intro y hy z hz
    rw [hAll y hy, hAll z hz]
    exact lt_irrefl p
  · intro hne hnot hcons
    have h := hcons p
    have hin : ∀ a ∈ alimentos ++ [ultimo], decide (a.precio = p) = true := by
      intro a ha
      simpa using hAll a ha
    have hout : ∀ a ∈ ultimo :: alimentos, decide (a.precio = p) = true := by
      intro a ha
      apply hin
      rcases List.mem_cons.1 ha with e | e
      · rw [e]; simp
      · exact List.mem_append_left _ e
    rw [List.filter_eq_self.2 hin, List.filter_eq_self.2 hout] at h
    cases alimentos with
    | nil => exact hne rfl
    | cons a rest =>
      simp only [List.cons_append, List.cons.injEq] at h
      exact hnot (h.1 ▸ List.mem_cons_self _ _)

/-- C15 witness: Taco, Sopa and Flan, all of price 2, come out as Flan, Taco, Sopa. -/
theorem quicksortAlimentos_equal_prices_rotate_witness :
    quicksortAlimentosParallel
        ([{ id := 1, nombre := "Taco", precio := 2, disponible := 1 },
          { id := 2, nombre := "Sopa", precio := 2, disponible := 1 }]
          ++ [{ id := 3, nombre := "Flan", precio := 2, disponible := 1 }]) 0
        ((([{ id := 1, nombre := "Taco", precio := 2, disponible := 1 },
            { id := 2, nombre := "Sopa", precio := 2, disponible := 1 }]
            ++ [{ id := 3, nombre := "Flan", precio := 2, disponible := 1 }] :
            List Alimento).length : Int) - 1)
      = .ok ({ id := 3, nombre := "Flan", precio := 2, disponible := 1 }
              :: [{ id := 1, nombre := "Taco", precio := 2, disponible := 1 },
                  { id := 2, nombre := "Sopa", precio := 2, disponible := 1 }]) ∧
    (([{ id := 1, nombre := "Taco", precio := 2, disponible := 1 },
       { id := 2, nombre := "Sopa", precio := 2, disponible := 1 }] : List Alimento) ≠ [] →
      ({ id := 3, nombre := "Flan", precio := 2, disponible := 1 } : Alimento)
        ∉ ([{ id := 1, nombre := "Taco", precio := 2, disponible := 1 },
            { id := 2, nombre := "Sopa", precio := 2, disponible := 1 }] : List Alimento) →
      ¬ OrdenRelativoConservado
        ([{ id := 1, nombre := "Taco", precio := 2, disponible := 1 },
          { id := 2, nombre := "Sopa", precio := 2, disponible := 1 }]
          ++ [{ id := 3, nombre := "Flan", precio := 2, disponible := 1 }])
        ({ id := 3, nombre := "Flan", precio := 2, disponible := 1 }
          :: [{ id := 1, nombre := "Taco", precio := 2, disponible := 1 },
              { id := 2, nombre := "Sopa", precio := 2, disponible := 1 }])) :=
  quicksortAlimentos_equal_prices_rotate
    [{ id := 1, nombre := "Taco", precio := 2, disponible := 1 },
     { id := 2, nombre := "Sopa", precio := 2, disponible := 1 }]
    { id := 3, nombre := "Flan", precio := 2, disponible := 1 } 2
    (by
      intro a ha
      simp only [List.cons_append, List.nil_append, List.mem_cons, List.mem_singleton,
        List.not_mem_nil, or_false] at ha
      rcases ha with rfl | rfl | rfl <;> rfl)

/-! ## Partition and quicksort on a range -/

/-- C34: for `0 <= low <= high < n`, `particionMenus` returns an array of the same length
and an index `p` with `low <= p <= high`; the cell `p` holds the record that was at index
`high`; every record at an index of `[low, p)` has an `idMenu` strictly smaller than the
pivot, every record at an index of `(p, high]` an `idMenu` greater than or equal to it;
the cells of `[low, high]` are a permutation of the former ones and the cells outside
`[low, high]` are as before. -/
theorem particionMenus_postcondition (menus : List Menu) (low high : Int)
    (h0 : 0 ≤ low) (hlh : low ≤ high) (hn : high < (menus.length : Int)) :
    ∃ (salida : List Menu) (p : Int) (pivote : Menu),
      particionMenus menus low high = .ok (salida, p) ∧ low ≤ p ∧ p ≤ high ∧
      salida.length = menus.length ∧
      menus[high.toNat]? = some pivote ∧ salida[p.toNat]? = some pivote ∧
      (∀ (k : Nat) (r : Menu), low ≤ (k : Int) → (k : Int) < p → salida[k]? = some r →
        r.idMenu < pivote.idMenu) ∧
      (∀ (k : Nat) (r : Menu), p < (k : Int) → (k : Int) ≤ high → salida[k]? = some r →
        pivote.idMenu ≤ r.idMenu) ∧
      ((salida.drop low.toNat).take (high - low + 1).toNat).Perm
        ((menus.drop low.toNat).take (high - low + 1).toNat) ∧
      (∀ k : Nat, ((k : Int) < low ∨ high < (k : Int)) → salida[k]? = menus[k]?) := by
  obtain ⟨salida, p, pv, hp, h1, h2, h3, h4, h5, h6, h7, h8, h9⟩ :=
    particion_indices Menu.idMenu menus low high h0 hlh hn
  exact ⟨salida, p, pv, hp, h1, h2, h3, h4, h5, h6,
    fun k r hk1 hk2 hget => not_lt.mp (h7 k r hk1 hk2 hget), h8, h9⟩

/-- C32: for `0 <= low` and `high < n`, `quicksortPedidosParallel` returns an array of the
same length whose cells outside `[low, high]` are those of the array given and whose
cells of `[low, high]` are a permutation of the former ones. When `low < high` the call
is the partition, which returns `pi` in `[low, high]`, then the call on `[low, pi - 1]`,
which leaves every cell outside `[low, pi - 1]` as it is, then the call on
`[pi + 1, high]`, which leaves every cell outside `[pi + 1, high]` as it is; no index is
in both ranges, and `pi` is in neither; and the two calls made in the other order, first
on `[pi + 1, high]` and then on `[low, pi - 1]`, give the same array. -/
theorem quicksortPedidos_frame (pedidos : List Pedido) (low high : Int)
    (h0 : 0 ≤ low) (hn : high < (pedidos.length : Int)) :
    (∃ salida : List Pedido,
      quicksortPedidosParallel pedidos low high = .ok salida ∧
      salida.length = pedidos.length ∧
      (∀ k : Nat, ((k : Int) < low ∨ high < (k : Int)) → salida[k]? = pedidos[k]?) ∧
      ((salida.drop low.toNat).take (high - low + 1).toNat).Perm
        ((pedidos.drop low.toNat).take (high - low + 1).toNat)) ∧
    (low < high →
      ∃ (arr1 : List Pedido) (pi : Int) (arr2 salida : List Pedido),
        particionPedidos pedidos low high = .ok (arr1, pi) ∧ low ≤ pi ∧ pi ≤ high ∧
        quicksortPedidosParallel arr1 low (pi - 1) = .ok arr2 ∧
        quicksortPedidosParallel arr2 (pi + 1) high = .ok salida ∧
        quicksortPedidosParallel pedidos low high = .ok salida ∧
        (∀ k : Nat, ((k : Int) < low ∨ pi - 1 < (k : Int)) → arr2[k]? = arr1[k]?) ∧
        (∀ k : Nat, ((k : Int) < pi + 1 ∨ high < (k : Int)) → salida[k]? = arr2[k]?) ∧
        (∀ k : Int, ¬ ((low ≤ k ∧ k ≤ pi - 1) ∧ (pi + 1 ≤ k ∧ k ≤ high))) ∧
        ¬ (low ≤ pi ∧ pi ≤ pi - 1) ∧ ¬ (pi + 1 ≤ pi ∧ pi ≤ high) ∧
        ∃ arr3 : List Pedido,
          quicksortPedidosParallel arr1 (pi + 1) high = .ok arr3 ∧
          quicksortPedidosParallel arr3 low (pi - 1) = .ok salida) := by
  constructor
  · obtain ⟨salida, hq, hlen, hf, hperm, -⟩ := quicksortHasta_indices Pedido.idPedido
      (high - low).toNat pedidos low high h0 hn (le_refl _)
    exact ⟨salida, hq, hlen, hf, hperm⟩
  · intro hlt
    obtain ⟨arr1, pi, arr2, salida, hp, hp1, hp2, h2, h3, h4, hlen1, -, -, hf2, hf3⟩ :=
      quicksort_desplegar Pedido.idPedido pedidos low high h0 hn hlt
    obtain ⟨arr2', arr3, salida', g1, g2, g3, g4⟩ :=
      quicksort_secciones_conmutan Pedido.idPedido arr1 low pi high h0 hp1 hp2 (by omega)
    have e1 : arr2' = arr2 := Except.ok.inj (g1.symm.trans h2)
    subst e1
    have e2 : salida' = salida := Except.ok.inj (g2.symm.trans h3)
    subst e2
    exact ⟨arr1, pi, arr2', salida', hp, hp1, hp2, h2, h3, h4, hf2, hf3,
      fun k hk => by omega, fun hk => by omega, fun hk => by omega, arr3, g3, g4⟩

/-- C33: for `0 <= low` and `high < n`, `quicksortClientesParallel` returns; every depth
bound of at least `high - low` gives the same run, so the bound of the embedding is never
used up. When `low < high`, `particionClientes` returns `pi` with `low <= pi <= high`, the
two ranges `[low, pi - 1]` and `[pi + 1, high]` are strictly shorter than `[low, high]`,
and the call is the two calls on them one after the other. When `high <= low`, the call
`(0, -1)` on an empty array included, it returns the array as it is. -/
theorem quicksortClientes_terminates (clientes : List Cliente) (low high : Int)
    (h0 : 0 ≤ low) (hn : high < (clientes.length : Int)) :
    (∃ salida : List Cliente, quicksortClientesParallel clientes low high = .ok salida) ∧
    (∀ d : Nat, (high - low).toNat ≤ d →
      quicksortHasta Cliente.idCliente d clientes low high
        = quicksortClientesParallel clientes low high) ∧
    (low < high →
      ∃ (arr1 : List Cliente) (pi : Int) (arr2 salida : List Cliente),
        particionClientes clientes low high = .ok (arr1, pi) ∧ low ≤ pi ∧ pi ≤ high ∧
        (pi - 1 - low).toNat < (high - low).toNat ∧
        (high - (pi + 1)).toNat < (high - low).toNat ∧
        quicksortClientesParallel arr1 low (pi - 1) = .ok arr2 ∧
        quicksortClientesParallel arr2 (pi + 1) high = .ok salida ∧
        quicksortClientesParallel clientes low high = .ok salida) ∧
    (high ≤ low → quicksortClientesParallel clientes low high = .ok clientes) := by
  refine ⟨?_, ?_, ?_, ?_⟩
  · obtain ⟨salida, hq, -⟩ := quicksortHasta_indices Cliente.idCliente
      (high - low).toNat clientes low high h0 hn (le_refl _)
    exact ⟨salida, hq⟩
  · intro d hd
    exact quicksortHasta_suficiente Cliente.idCliente d clientes low high h0 hn hd _ (le_refl _)
  · intro hlt
    obtain ⟨arr1, pi, arr2, salida, hp, hp1, hp2, h2, h3, h4, -⟩ :=
      quicksort_desplegar Cliente.idCliente clientes low high h0 hn hlt
    exact ⟨arr1, pi, arr2, salida, hp, hp1, hp2, by omega, by omega, h2, h3, h4⟩
  · intro hle
    exact quicksortHasta_fuera Cliente.idCliente _ clientes low high (by omega)

/-- C34 witness: three menus in the order of the ids 30, 10, 20 and the whole range. -/
theorem particionMenus_postcondition_witness :
    ∃ (salida : List Menu) (p : Int) (pivote : Menu),
      particionMenus menusDesordenados 0 2 = .ok (salida, p) ∧ 0 ≤ p ∧ p ≤ 2 ∧
      salida.length = menusDesordenados.length ∧
      menusDesordenados[(2 : Int).toNat]? = some pivote ∧ salida[p.toNat]? = some pivote ∧
      (∀ (k : Nat) (r : Menu), 0 ≤ (k : Int) → (k : Int) < p → salida[k]? = some r →
        r.idMenu < pivote.idMenu) ∧
      (∀ (k : Nat) (r : Menu), p < (k : Int) → (k : Int) ≤ 2 → salida[k]? = some r →
        pivote.idMenu ≤ r.idMenu) ∧
      ((salida.drop (0 : Int).toNat).take ((2 : Int) - 0 + 1).toNat).Perm
        ((menusDesordenados.drop (0 : Int).toNat).take ((2 : Int) - 0 + 1).toNat) ∧
      (∀ k : Nat, ((k : Int) < 0 ∨ 2 < (k : Int)) → salida[k]? = menusDesordenados[k]?) :=
  particionMenus_postcondition menusDesordenados 0 2 (by decide) (by decide) (by decide)

/-- C32 witness: four orders in the order of the ids 9, 7, 3, 5 and the range `[1, 3]`. -/
theorem quicksortPedidos_frame_witness :
    (∃ salida : List Pedido,
      quicksortPedidosParallel pedidosDesordenados 1 3 = .ok salida ∧
      salida.length = pedidosDesordenados.length ∧
      (∀ k : Nat, ((k : Int) < 1 ∨ 3 < (k : Int)) → salida[k]? = pedidosDesordenados[k]?) ∧
      ((salida.drop (1 : Int).toNat).take ((3 : Int) - 1 + 1).toNat).Perm
        ((pedidosDesordenados.drop (1 : Int).toNat).take ((3 : Int) - 1 + 1).toNat)) ∧
    ((1 : Int) < 3 →
      ∃ (arr1 : List Pedido) (pi : Int) (arr2 salida : List Pedido),
        particionPedidos pedidosDesordenados 1 3 = .ok (arr1, pi) ∧ 1 ≤ pi ∧ pi ≤ 3 ∧
        quicksortPedidosParallel arr1 1 (pi - 1) = .ok arr2 ∧
        quicksortPedidosParallel arr2 (pi + 1) 3 = .ok salida ∧
        quicksortPedidosParallel pedidosDesordenados 1 3 = .ok salida ∧
        (∀ k : Nat, ((k : Int) < 1 ∨ pi - 1 < (k : Int)) → arr2[k]? = arr1[k]?) ∧
        (∀ k : Nat, ((k : Int) < pi + 1 ∨ 3 < (k : Int)) → salida[k]? = arr2[k]?) ∧
        (∀ k : Int, ¬ ((1 ≤ k ∧ k ≤ pi - 1) ∧ (pi + 1 ≤ k ∧ k ≤ 3))) ∧
        ¬ (1 ≤ pi ∧ pi ≤ pi - 1) ∧ ¬ (pi + 1 ≤ pi ∧ pi ≤ 3) ∧
        ∃ arr3 : List Pedido,
          quicksortPedidosParallel arr1 (pi + 1) 3 = .ok arr3 ∧
          quicksortPedidosParallel arr3 1 (pi - 1) = .ok salida) :=
  quicksortPedidos_frame pedidosDesordenados 1 3 (by decide) (by decide)

/-- C33 witness: the call `(0, 2)` on three clients in the order of the ids 7, 3, 5, and
the call `(0, -1)` on the empty snapshot. -/
theorem quicksortClientes_terminates_witness :
    ((∃ salida : List Cliente, quicksortClientesParallel clientesDesordenados 0 2 = .ok salida) ∧
      (∀ d : Nat, ((2 : Int) - 0).toNat ≤ d →
        quicksortHasta Cliente.idCliente d clientesDesordenados 0 2
          = quicksortClientesParallel clientesDesordenados 0 2) ∧
      ((0 : Int) < 2 →
        ∃ (arr1 : List Cliente) (pi : Int) (arr2 salida : List Cliente),
          particionClientes clientesDesordenados 0 2 = .ok (arr1, pi) ∧ 0 ≤ pi ∧ pi ≤ 2 ∧
          (pi - 1 - 0).toNat < ((2 : Int) - 0).toNat ∧
          ((2 : Int) - (pi + 1)).toNat < ((2 : Int) - 0).toNat ∧
          quicksortClientesParallel arr1 0 (pi - 1) = .ok arr2 ∧
          quicksortClientesParallel arr2 (pi + 1) 2 = .ok salida ∧
          quicksortClientesParallel clientesDesordenados 0 2 = .ok salida) ∧
      ((2 : Int) ≤ 0 → quicksortClientesParallel clientesDesordenados 0 2
        = .ok clientesDesordenados)) ∧
    ((∃ salida : List Cliente, quicksortClientesParallel [] 0 (-1) = .ok salida) ∧
      (∀ d : Nat, ((-1 : Int) - 0).toNat ≤ d →
        quicksortHasta Cliente.idCliente d [] 0 (-1) = quicksortClientesParallel [] 0 (-1)) ∧
      ((0 : Int) < -1 →
        ∃ (arr1 : List Cliente) (pi : Int) (arr2 salida : List Cliente),
          particionClientes [] 0 (-1) = .ok (arr1, pi) ∧ 0 ≤ pi ∧ pi ≤ -1 ∧
          (pi - 1 - 0).toNat < ((-1 : Int) - 0).toNat ∧
          ((-1 : Int) - (pi + 1)).toNat < ((-1 : Int) - 0).toNat ∧
          quicksortClientesParallel arr1 0 (pi - 1) = .ok arr2 ∧
          quicksortClientesParallel arr2 (pi + 1) (-1) = .ok salida ∧
          quicksortClientesParallel [] 0 (-1) = .ok salida) ∧
      ((-1 : Int) ≤ 0 → quicksortClientesParallel [] 0 (-1) = .ok [])) :=
  ⟨quicksortClientes_terminates clientesDesordenados 0 2 (by decide) (by decide),
    quicksortClientes_terminates [] 0 (-1) (by decide) (by decide)⟩

/-! ## Order store: update, delete and snapshot -/

/-- C35: on an order table where `buscarPedido` finds `original` under the non-negative
id `k`, with a new status of at most 14 bytes, `actualizarPedido` returns `true`; the
order found under `k` afterwards has the new `estado` and the `idPedido`, `idCliente`,
`fecha`, menu list and `numMenus` of `original`; it stands in its bucket at the place of
`original`, between the same records in the same order; every other bucket and the lookup
of every other id are as before. -/
theorem actualizarPedido_changes_estado_only (tabla : PedidosHashTable) (k : Int)
    (original : Pedido) (nuevoEstado : String)
    (hId : 0 ≤ k)
    (hHolds : buscarPedido tabla k = .ok (some original))
    (hEstado : nuevoEstado.utf8ByteSize ≤ 14) :
    ∃ (h : hashPedido k < 64) (tabla' : PedidosHashTable) (antes despues : List Pedido),
      actualizarPedido tabla k nuevoEstado = .ok (true, tabla') ∧
      original.idPedido = k ∧
      buscarPedido tabla' k
        = .ok (some { idPedido := original.idPedido, idCliente := original.idCliente,
                      fecha := original.fecha, menus := original.menus,
                      numMenus := original.numMenus, estado := nuevoEstado }) ∧
      tabla.buckets ⟨hashPedido k, h⟩ = antes ++ original :: despues ∧
      (∀ p ∈ antes, p.idPedido ≠ k) ∧
      tabla'.buckets ⟨hashPedido k, h⟩
        = antes ++ { idPedido := original.idPedido, idCliente := original.idCliente,
                     fecha := original.fecha, menus := original.menus,
                     numMenus := original.numMenus, estado := nuevoEstado } :: despues ∧
      (∀ i : Fin 64, i ≠ ⟨hashPedido k, h⟩ → tabla'.buckets i = tabla.buckets i) ∧
      ∀ j : Int, j ≠ k → buscarPedido tabla' j = buscarPedido tabla j := by
  have hIdx : hashPedido k < 64 := hashPedido_lt k hId
  have hb : cadenaBuscar Pedido.idPedido k (tabla.buckets ⟨hashPedido k, hIdx⟩)
      = some original := by
    simp only [buscarPedido, dif_pos hIdx, Except.ok.injEq] at hHolds
    exact hHolds
  obtain ⟨antes, despues, hl, hantes, hid⟩ := cadenaBuscar_split Pedido.idPedido k _ original hb
  have hcpy : strcpy 15 nuevoEstado = .ok nuevoEstado := strcpy_fits 15 nuevoEstado (by omega)
  have hmod := cadenaModificar_split Pedido.idPedido k
    (fun p => { p with estado := nuevoEstado }) antes original despues hantes hid
  refine ⟨hIdx, tabla.poner ⟨hashPedido k, hIdx⟩
    (antes ++ { original with estado := nuevoEstado } :: despues), antes, despues,
    ?_, hid, ?_, hl, hantes, Tabla.buckets_poner_same _ _ _, ?_, ?_⟩
  · simp only [actualizarPedido, hHolds, dif_pos hIdx, hcpy]
    rw [hl, hmod]
  · simp only [buscarPedido, dif_pos hIdx, Tabla.buckets_poner_same]
    exact congrArg Except.ok
      (cadenaBuscar_append_found Pedido.idPedido k antes _ despues hantes hid)
  · intro i hi
    exact Tabla.buckets_poner_other _ _ _ _ hi
  · intro j hj
    simp only [buscarPedido]
    by_cases hjx : hashPedido j < 64
    · simp only [dif_pos hjx]
      by_cases hij : (⟨hashPedido j, hjx⟩ : Fin 64) = ⟨hashPedido k, hIdx⟩
      · rw [hij, Tabla.buckets_poner_same, hl]
        rw [cadenaBuscar_reemplazo Pedido.idPedido j antes _ original despues
          (by rw [hid]; exact fun h => hj h.symm) (by rw [hid]; exact fun h => hj h.symm)]
      · rw [Tabla.buckets_poner_other _ _ _ _ hij]
    · simp only [dif_neg hjx]

/-- C35 witness: the pending order 1 becomes "Completado". -/
theorem actualizarPedido_changes_estado_only_witness :
    ∃ (h : hashPedido 1 < 64) (tabla' : PedidosHashTable) (antes despues : List Pedido),
      actualizarPedido tablaPedidoPendiente 1 "Completado" = .ok (true, tabla') ∧
      (1 : Int) = 1 ∧
      buscarPedido tabla' 1
        = .ok (some { idPedido := 1, idCliente := 5, fecha := "2024-03-04", menus := [10],
                      numMenus := 1, estado := "Completado" }) ∧
      tablaPedidoPendiente.buckets ⟨hashPedido 1, h⟩
        = antes ++ { idPedido := 1, idCliente := 5, fecha := "2024-03-04", menus := [10],
                     numMenus := 1, estado := "Pendiente" } :: despues ∧
      (∀ p ∈ antes, p.idPedido ≠ 1) ∧
      tabla'.buckets ⟨hashPedido 1, h⟩
        = antes ++ { idPedido := 1, idCliente := 5, fecha := "2024-03-04", menus := [10],
                     numMenus := 1, estado := "Completado" } :: despues ∧
      (∀ i : Fin 64, i ≠ ⟨hashPedido 1, h⟩ → tabla'.buckets i = tablaPedidoPendiente.buckets i) ∧
      ∀ j : Int, j ≠ 1 → buscarPedido tabla' j = buscarPedido tablaPedidoPendiente j :=
  actualizarPedido_changes_estado_only tablaPedidoPendiente 1
    { idPedido := 1, idCliente := 5, fecha := "2024-03-04", menus := [10], numMenus := 1,
      estado := "Pendiente" } "Completado" (by decide) rfl (by decide)

/-- With pairwise distinct keys over the whole table, records of two different buckets
have different keys. -/
theorem Tabla.claves_disjuntas {α : Type} (key : α → Int) (t : Tabla α)
    (h : (t.registros.map key).Nodup) (i j : Fin 64) (hij : i ≠ j) (a b : α)
    (ha : a ∈ t.buckets i) (hb : b ∈ t.buckets j) : key a ≠ key b := by
  simp only [Tabla.registros, List.map_flatten, List.map_map] at h
  rw [List.nodup_flatten, List.pairwise_map] at h
  have hsym : Symmetric (fun x y : Fin 64 =>
      List.Disjoint ((List.map key ∘ t.buckets) x) ((List.map key ∘ t.buckets) y)) :=
    fun _ _ hxy => hxy.symm
  have hd := List.Pairwise.forall hsym h.2 (List.mem_finRange i) (List.mem_finRange j) hij
  intro hab
  exact List.disjoint_left.mp hd (List.mem_map_of_mem key ha) (hab ▸ List.mem_map_of_mem key hb)

/-- The snapshot of a table after the unlinking of one record of a chain, with pairwise
distinct keys: the former snapshot without the records of that key. -/
theorem Tabla.registros_quitar {α : Type} (key : α → Int) (t : Tabla α) (i : Fin 64)
    (antes despues : List α) (p : α)
    (hnd : (t.registros.map key).Nodup) (hl : t.buckets i = antes ++ p :: despues) :
    (t.poner i (antes ++ despues)).registros
      = t.registros.filter (fun r => decide (key r ≠ key p)) := by
  have hp : p ∈ t.buckets i := by rw [hl]; simp
  have hbucket := Tabla.nodup_bucket key t hnd i
  rw [hl] at hbucket
  simp only [List.map_append, List.map_cons] at hbucket
  have hpa : ∀ a ∈ antes, key a ≠ key p := by
    intro a ha hk
    have := (List.nodup_append.1 hbucket).2.2
    exact List.disjoint_left.mp this (List.mem_map_of_mem key ha)
      (by rw [hk]; exact List.mem_cons_self _ _)
  have hpd : ∀ a ∈ despues, key a ≠ key p := by
    intro a ha hk
    have := (List.nodup_cons.1 (List.nodup_append.1 hbucket).2.1).1
    exact this (hk ▸ List.mem_map_of_mem key ha)
  simp only [Tabla.registros, List.filter_flatten, List.map_map]
  congr 1
  apply List.map_congr_left
  intro j _
  simp only [Function.comp]
  by_cases hji : j = i
  · subst hji
    rw [Tabla.buckets_poner_same, hl, List.filter_append, List.filter_cons]
    simp only [ne_eq, not_true_eq_false, decide_False, Bool.false_eq_true, if_false]
    rw [List.filter_eq_self.2 (fun a ha => by simpa using hpa a ha),
      List.filter_eq_self.2 (fun a ha => by simpa using hpd a ha)]
  · rw [Tabla.buckets_poner_other _ _ _ _ hji]
    symm
    rw [List.filter_eq_self]
    intro a ha
    have := Tabla.claves_disjuntas key t hnd j i hji a p ha hp
    simpa using this

/-- In a list with pairwise distinct keys, keeping the records of another key than that
of `p` erases `p` and nothing else. -/
theorem filter_quita_uno {α : Type} (key : α → Int) (l : List α) (p : α)
    (hnd : (l.map key).Nodup) (hp : p ∈ l) :
    ∃ antes despues, l = antes ++ p :: despues ∧
      l.filter (fun r => decide (key r ≠ key p)) = antes ++ despues ∧
      (∀ a ∈ antes, key a ≠ key p) ∧ (∀ a ∈ despues, key a ≠ key p) := by
  obtain ⟨antes, despues, rfl⟩ := List.append_of_mem hp
  simp only [List.map_append, List.map_cons] at hnd
  have hpa : ∀ a ∈ antes, key a ≠ key p := by
    intro a ha hk
    have := (List.nodup_append.1 hnd).2.2
    exact List.disjoint_left.mp this (List.mem_map_of_mem key ha)
      (by rw [hk]; exact List.mem_cons_self _ _)
  have hpd : ∀ a ∈ despues, key a ≠ key p := by
    intro a ha hk
    have := (List.nodup_cons.1 (List.nodup_append.1 hnd).2.1).1
    exact this (hk ▸ List.mem_map_of_mem key ha)
  refine ⟨antes, despues, rfl, ?_, hpa, hpd⟩
  rw [List.filter_append, List.filter_cons]
  simp only [ne_eq, not_true_eq_false, decide_False, Bool.false_eq_true, if_false]
  rw [List.filter_eq_self.2 (fun a ha => by simpa using hpa a ha),
    List.filter_eq_self.2 (fun a ha => by simpa using hpd a ha)]

/-- C39: on an order table with pairwise distinct ids where `buscarPedido` finds
`original` under the non-negative id `k`, `eliminarPedido` returns `true`; the snapshot
before is `antes ++ original :: despues`, the snapshot after is `antes ++ despues`, and no
record of `antes` or `despues` has the id `k`: the record of id `k` is erased and the
others keep their fields and their order. `copiarPedidosDesdeTabla` writes these two
snapshots into an array of `obtenerNumeroDePedidos` cells, and the count drops by one. -/
theorem eliminarPedido_snapshot_erases_one (tabla : PedidosHashTable) (k : Int)
    (original : Pedido)
    (hDistinct : (tabla.registros.map Pedido.idPedido).Nodup)
    (hId : 0 ≤ k)
    (hHolds : buscarPedido tabla k = .ok (some original)) :
    ∃ (tabla' : PedidosHashTable) (antes despues : List Pedido),
      eliminarPedido tabla k = .ok (true, tabla') ∧
      original.idPedido = k ∧
      tabla.registros = antes ++ original :: despues ∧
      tabla'.registros = antes ++ despues ∧
      (∀ p ∈ antes, p.idPedido ≠ k) ∧ (∀ p ∈ despues, p.idPedido ≠ k) ∧
      (∀ destino : List Pedido, destino.length = obtenerNumeroDePedidos tabla →
        copiarPedidosDesdeTabla tabla destino = .ok (antes ++ original :: despues)) ∧
      (∀ destino : List Pedido, destino.length = obtenerNumeroDePedidos tabla' →
        copiarPedidosDesdeTabla tabla' destino = .ok (antes ++ despues)) ∧
      obtenerNumeroDePedidos tabla' + 1 = obtenerNumeroDePedidos tabla := by
  have hIdx : hashPedido k < 64 := hashPedido_lt k hId
  have hb : cadenaBuscar Pedido.idPedido k (tabla.buckets ⟨hashPedido k, hIdx⟩)
      = some original := by
    simp only [buscarPedido, dif_pos hIdx, Except.ok.injEq] at hHolds
    exact hHolds
  obtain ⟨a, d, hl, ha, hid⟩ := cadenaBuscar_split Pedido.idPedido k _ original hb
  have hdel : cadenaEliminar Pedido.idPedido k (tabla.buckets ⟨hashPedido k, hIdx⟩)
      = some (a ++ d) := by
    rw [hl]
    exact cadenaEliminar_split Pedido.idPedido k a original d ha hid
  have hmem : original ∈ tabla.registros :=
    Tabla.mem_registros tabla ⟨hashPedido k, hIdx⟩ original (by rw [hl]; simp)
  obtain ⟨antes, despues, hreg, hfil, hantes, hdespues⟩ :=
    filter_quita_uno Pedido.idPedido tabla.registros original hDistinct hmem
  have hreg' : (tabla.poner ⟨hashPedido k, hIdx⟩ (a ++ d)).registros = antes ++ despues := by
    rw [Tabla.registros_quitar Pedido.idPedido tabla _ a d original hDistinct hl]
    exact hfil
  rw [hid] at hantes hdespues
  refine ⟨tabla.poner ⟨hashPedido k, hIdx⟩ (a ++ d), antes, despues, ?_, hid, hreg, hreg',
    hantes, hdespues, ?_, ?_, ?_⟩
  · simp only [eliminarPedido, dif_pos hIdx, hdel]
  · intro destino hlen
    rw [← hreg]
    exact Tabla.copiar_spec tabla destino hlen
  · intro destino hlen
    rw [← hreg']
    exact Tabla.copiar_spec _ destino hlen
  · simp only [obtenerNumeroDePedidos, Tabla.contar_eq, hreg, hreg', List.length_append,
      List.length_cons]
    omega

/-- C39 witness: the orders 65 and 1 chained in bucket 1 and the order 2 in bucket 2;
the order 1 is deleted. -/
theorem eliminarPedido_snapshot_erases_one_witness :
    ∃ (tabla' : PedidosHashTable) (antes despues : List Pedido),
      eliminarPedido tablaTresPedidos 1 = .ok (true, tabla') ∧
      (1 : Int) = 1 ∧
      tablaTresPedidos.registros
        = antes ++ { idPedido := 1, idCliente := 5, fecha := "2024-03-04", menus := [10],
                     numMenus := 1, estado := "Pendiente" } :: despues ∧
      tabla'.registros = antes ++ despues ∧
      (∀ p ∈ antes, p.idPedido ≠ 1) ∧ (∀ p ∈ despues, p.idPedido ≠ 1) ∧
      (∀ destino : List Pedido, destino.length = obtenerNumeroDePedidos tablaTresPedidos →
        copiarPedidosDesdeTabla tablaTresPedidos destino
          = .ok (antes ++ { idPedido := 1, idCliente := 5, fecha := "2024-03-04",
                            menus := [10], numMenus := 1, estado := "Pendiente" }
                  :: despues)) ∧
      (∀ destino : List Pedido, destino.length = obtenerNumeroDePedidos tabla' →
        copiarPedidosDesdeTabla tabla' destino = .ok (antes ++ despues)) ∧
      obtenerNumeroDePedidos tabla' + 1 = obtenerNumeroDePedidos tablaTresPedidos :=
  eliminarPedido_snapshot_erases_one tablaTresPedidos 1
    { idPedido := 1, idCliente := 5, fecha := "2024-03-04", menus := [10], numMenus := 1,
      estado := "Pendiente" }
    (by
      have h : tablaTresPedidos.registros.map Pedido.idPedido = [65, 1, 2] := rfl
      rw [h]
      decide)
    (by decide) rfl

/-! ## Binary search on any array -/

/-- The loop of the search on any array: for a window inside the array it ends without a
fault, and its result is -1 or an index of the window whose cell has the key sought. -/
theorem cicloBusqueda_sound {α : Type} (key : α → Int) (arr : List α) (idBuscado : Int) :
    ∀ (n : Nat) (low high : Int), (high - low + 1).toNat ≤ n → 0 ≤ low →
      high < (arr.length : Int) →
      ∃ r, cicloBusqueda key arr idBuscado low high = .ok r ∧
        (r = -1 ∨ (low ≤ r ∧ r ≤ high ∧ ∃ c, arr[r.toNat]? = some c ∧ key c = idBuscado)) := by
  intro n
  induction n with
  | zero =>
    intro low high hn _ _
    rw [cicloBusqueda, if_neg (by omega)]
    exact ⟨-1, rfl, Or.inl rfl⟩
  | succ n ih =>
    intro low high hn hlow hhigh
    rw [cicloBusqueda]
    by_cases hle : low ≤ high
    · obtain ⟨hm1, hm2⟩ := mid_entre low high hle
      obtain ⟨v, hv, hget⟩ := leer_en_rango arr (low + (high - low).tdiv 2) (by omega) (by omega)
      simp only [if_pos hle, hv]
      by_cases heq : key v = idBuscado
      · simp only [if_pos heq]
        exact ⟨_, rfl, Or.inr ⟨hm1, hm2, v, hget, heq⟩⟩
      · simp only [if_neg heq]
        by_cases hlt : key v < idBuscado
        · simp only [if_pos hlt]
          obtain ⟨r, hr, hs⟩ := ih (low + (high - low).tdiv 2 + 1) high (by omega) (by omega) hhigh
          refine ⟨r, hr, ?_⟩
          rcases hs with hs | ⟨h1, h2, h3⟩
          · exact Or.inl hs
          · exact Or.inr ⟨by omega, h2, h3⟩
        · simp only [if_neg hlt]
          obtain ⟨r, hr, hs⟩ := ih low (low + (high - low).tdiv 2 - 1) (by omega) hlow (by omega)
          refine ⟨r, hr, ?_⟩
          rcases hs with hs | ⟨h1, h2, h3⟩
          · exact Or.inl hs
          · exact Or.inr ⟨h1, by omega, h3⟩
    · rw [if_neg hle]
      exact ⟨-1, rfl, Or.inl rfl⟩

theorem leer_take {α : Type} (arr : List α) (n : Nat) (k : Int) (hk : k < (n : Int)) :
    leer (arr.take n) k = leer arr k := by
  unfold leer
  by_cases h0 : 0 ≤ k
  · have : k.toNat < n := by omega
    simp only [if_pos h0, List.getElem?_take_of_lt this]
  · simp only [if_neg h0]

/-- The loop of the search on a window below `n` reads no cell of index `n` or more: it
runs the same on the array cut after its first `n` cells. -/
theorem cicloBusqueda_take {α : Type} (key : α → Int) (arr : List α) (idBuscado : Int)
    (n : Nat) :
    ∀ (m : Nat) (low high : Int), (high - low + 1).toNat ≤ m → high < (n : Int) →
      cicloBusqueda key (arr.take n) idBuscado low high
        = cicloBusqueda key arr idBuscado low high := by
  intro m
  induction m with
  | zero =>
    intro low high hm _
    rw [cicloBusqueda, if_neg (by omega), cicloBusqueda, if_neg (by omega)]
  | succ m ih =>
    intro low high hm hhigh
    rw [cicloBusqueda]
    conv_rhs => rw [cicloBusqueda]
    by_cases hle : low ≤ high
    · obtain ⟨hm1, hm2⟩ := mid_entre low high hle
      simp only [if_pos hle, leer_take arr n (low + (high - low).tdiv 2) (by omega)]
      rw [ih (low + (high - low).tdiv 2 + 1) high (by omega) hhigh,
        ih low (low + (high - low).tdiv 2 - 1) (by omega) (by omega)]
    · simp only [if_neg hle]

/-- C37: on an array in any order holding at least `numClientes` records,
`busquedaBinariaClientesParallel` returns without a fault; it returns the same on the
array cut after its first `numClientes` cells, so every index it reads is in
`[0, numClientes)`; the value returned is -1 or an index `r` with `0 <= r < numClientes`
whose cell has `idCliente = idBuscado`. -/
theorem busquedaBinariaClientes_sound (clientes : List Cliente) (numClientes : Int)
    (idBuscado : Int) (hn : numClientes ≤ (clientes.length : Int)) :
    ∃ r, busquedaBinariaClientesParallel clientes numClientes idBuscado = .ok r ∧
      busquedaBinariaClientesParallel (clientes.take numClientes.toNat) numClientes idBuscado
        = .ok r ∧
      (r = -1 ∨ (0 ≤ r ∧ r < numClientes ∧
        ∃ c, clientes[r.toNat]? = some c ∧ c.idCliente = idBuscado)) := by
  obtain ⟨r, hr, hs⟩ := cicloBusqueda_sound Cliente.idCliente clientes idBuscado
    (numClientes - 1 - 0 + 1).toNat 0 (numClientes - 1) (le_refl _) (le_refl _) (by omega)
  refine ⟨r, hr, ?_, ?_⟩
  · simp only [busquedaBinariaClientesParallel, busquedaBinaria]
    rw [cicloBusqueda_take Cliente.idCliente clientes idBuscado numClientes.toNat
      (numClientes - 1 - 0 + 1).toNat 0 (numClientes - 1) (le_refl _) (by omega)]
    exact hr
  · rcases hs with hs | ⟨h1, h2, h3⟩
    · exact Or.inl hs
    · exact Or.inr ⟨h1, by omega, h3⟩

/-- C37 witness: three clients in the order of the ids 7, 3, 5 and the id 5. -/
theorem busquedaBinariaClientes_sound_witness :
    ∃ r, busquedaBinariaClientesParallel clientesDesordenados 3 5 = .ok r ∧
      busquedaBinariaClientesParallel (clientesDesordenados.take (3 : Int).toNat) 3 5
        = .ok r ∧
      (r = -1 ∨ (0 ≤ r ∧ r < 3 ∧
        ∃ c, clientesDesordenados[r.toNat]? = some c ∧ c.idCliente = 5)) :=
  busquedaBinariaClientes_sound clientesDesordenados 3 5 (by decide)

/-! ## The workers of the binary search -/

/-- What holds of a worker during the region, `r` being the result of the loop of one
worker alone. -/
theorem pasoTrabajador_invariante {α : Type} (key : α → Int) (arr : List α)
    (idBuscado r : Int) (w : Trabajador) (resultado : Int)
    (hw : w.enCiclo = true → 0 ≤ w.low ∧ w.high < (arr.length : Int) ∧
      cicloBusqueda key arr idBuscado w.low w.high = .ok r) :
    ∃ (w' : Trabajador) (resultado' : Int),
      pasoTrabajador key arr idBuscado w resultado = .ok (w', resultado') ∧
      (resultado' = resultado ∨ resultado' = r) ∧
      (w'.enCiclo = true → 0 ≤ w'.low ∧ w'.high < (arr.length : Int) ∧
        cicloBusqueda key arr idBuscado w'.low w'.high = .ok r) ∧
      (w.enCiclo = true → w'.enCiclo = false → resultado' = r ∨ r = -1) ∧
      (w.enCiclo = false → w' = w ∧ resultado' = resultado) ∧
      (w.enCiclo = true → w'.medida < w.medida) := by
  unfold pasoTrabajador
  by_cases hc : w.enCiclo = true
  · obtain ⟨h0, hn, hr⟩ := hw hc
    rw [cicloBusqueda] at hr
    simp only [hc, if_true]
    by_cases hle : w.low ≤ w.high
    · obtain ⟨hm1, hm2⟩ := mid_entre w.low w.high hle
      obtain ⟨v, hv, -⟩ := leer_en_rango arr (w.low + (w.high - w.low).tdiv 2) (by omega)
        (by omega)
      simp only [if_pos hle, hv] at hr ⊢
      by_cases heq : key v = idBuscado
      · simp only [if_pos heq, Except.ok.injEq] at hr ⊢
        refine ⟨_, _, rfl, Or.inr hr, ?_, fun _ _ => Or.inl hr, ?_, ?_⟩
        · intro h; simp at h
        · intro h; simp at h
        · intro _
          simp only [Trabajador.medida, hc, if_true]
          simp
      · simp only [if_neg heq] at hr ⊢
        by_cases hlt : key v < idBuscado
        · simp only [if_pos hlt] at hr ⊢
          refine ⟨_, _, rfl, Or.inl rfl, fun _ => ⟨by simp only; omega, hn, hr⟩, ?_, ?_, ?_⟩
          · intro _ h; simp at h
          · intro h; simp at h
          · intro _
            simp only [Trabajador.medida, hc, if_true]
            omega
        · simp only [if_neg hlt] at hr ⊢
          refine ⟨_, _, rfl, Or.inl rfl, fun _ => ⟨h0, by simp only; omega, hr⟩, ?_, ?_, ?_⟩
          · intro _ h; simp at h
          · intro h; simp at h
          · intro _
            simp only [Trabajador.medida, hc, if_true]
            omega
    · simp only [if_neg hle, Except.ok.injEq] at hr ⊢
      refine ⟨_, _, rfl, Or.inl rfl, ?_, fun _ _ => Or.inr hr.symm, ?_, ?_⟩
      · intro h; simp at h
      · intro h; simp at h
      · intro _
        simp only [Trabajador.medida, hc, if_true]
        simp
  · have hc' : w.enCiclo = false := by simpa using hc
    simp only [hc', Bool.false_eq_true, if_false]
    refine ⟨w, resultado, rfl, Or.inl rfl, ?_, ?_, fun _ => ⟨rfl, rfl⟩, ?_⟩
    · intro h; simp [hc'] at h
    · intro h; exact h.elim
    · intro h; exact h.elim


theorem medida_set_lt (nuevo : Trabajador) :
    ∀ (l : List Trabajador) (q : Nat) (w : Trabajador), l[q]? = some w →
      nuevo.medida < w.medida →
      ((l.set q nuevo).map Trabajador.medida).sum < (l.map Trabajador.medida).sum := by
  intro l
  induction l with
  | nil =>
    intro q w h _
    simp at h
  | cons x l ih =>
    intro q w h hlt
    cases q with
    | zero =>
      simp only [List.getElem?_cons_zero, Option.some.injEq] at h
      subst h
      simp only [List.set_cons_zero, List.map_cons, List.sum_cons]
      omega
    | succ q =>
      simp only [List.getElem?_cons_succ] at h
      have := ih q w h hlt
      simp only [List.set_cons_succ, List.map_cons, List.sum_cons]
      omega

/-- One step of the region keeps what holds of the region; `r` is the result of the loop
of one worker alone. The step changes the worker that makes it and no other, and a step
of a worker still in its loop brings the end nearer. -/
theorem pasoRegion_invariante {α : Type} (key : α → Int) (arr : List α) (idBuscado r : Int)
    (estado : Region) (quien : Nat)
    (h1 : estado.resultado = -1 ∨ estado.resultado = r)
    (h2 : ∀ w ∈ estado.trabajadores,
      (w.enCiclo = true → 0 ≤ w.low ∧ w.high < (arr.length : Int) ∧
        cicloBusqueda key arr idBuscado w.low w.high = .ok r) ∧
      (w.enCiclo = false → estado.resultado = r ∨ r = -1)) :
    ∃ estado' : Region, pasoRegion key arr idBuscado estado quien = .ok estado' ∧
      (estado'.resultado = -1 ∨ estado'.resultado = r) ∧
      (∀ w ∈ estado'.trabajadores,
        (w.enCiclo = true → 0 ≤ w.low ∧ w.high < (arr.length : Int) ∧
          cicloBusqueda key arr idBuscado w.low w.high = .ok r) ∧
        (w.enCiclo = false → estado'.resultado = r ∨ r = -1)) ∧
      estado'.trabajadores.length = estado.trabajadores.length ∧
      (∀ w, estado.trabajadores[quien]? = some w → w.enCiclo = true →
        estado'.medida < estado.medida) := by
  unfold pasoRegion
  cases hq : estado.trabajadores[quien]? with
  | none =>
    refine ⟨estado, rfl, h1, h2, rfl, ?_⟩
    intro w hw
    cases hw
  | some w =>
    have hwmem : w ∈ estado.trabajadores := List.getElem?_mem hq
    obtain ⟨w', res', hp, hres, hact, hfin, hidle, hmed⟩ :=
      pasoTrabajador_invariante key arr idBuscado r w estado.resultado (h2 w hwmem).1
    simp only [hp]
    refine ⟨_, rfl, ?_, ?_, ?_, ?_⟩
    · rcases hres with e | e
      · simp only [e]; exact h1
      · exact Or.inr e
    · intro x hx
      simp only at hx ⊢
      rcases List.mem_or_eq_of_mem_set hx with hx | hx
      · refine ⟨(h2 x hx).1, ?_⟩
        intro hxi
        rcases hres with e | e
        · rw [e]; exact (h2 x hx).2 hxi
        · exact Or.inl e
      · subst hx
        refine ⟨hact, ?_⟩
        intro hxi
        by_cases hc : w.enCiclo = true
        · exact hfin hc hxi
        · have hc' : w.enCiclo = false := by simpa using hc
          obtain ⟨e1, e2⟩ := hidle hc'
          rw [e2]
          exact (h2 w hwmem).2 hc'
    · simp only [List.length_set]
    · intro w0 hw0 hc
      cases hw0
      simp only [Region.medida]
      exact medida_set_lt w' _ quien w hq (hmed hc)

/-- Under every schedule the region runs without a fault and keeps what holds of it. -/
theorem ejecutarRegion_invariante {α : Type} (key : α → Int) (arr : List α)
    (idBuscado r : Int) :
    ∀ (plan : List Nat) (estado : Region),
      (estado.resultado = -1 ∨ estado.resultado = r) →
      (∀ w ∈ estado.trabajadores,
        (w.enCiclo = true → 0 ≤ w.low ∧ w.high < (arr.length : Int) ∧
          cicloBusqueda key arr idBuscado w.low w.high = .ok r) ∧
        (w.enCiclo = false → estado.resultado = r ∨ r = -1)) →
      ∃ final : Region, ejecutarRegion key arr idBuscado estado plan = .ok final ∧
        (final.resultado = -1 ∨ final.resultado = r) ∧
        (∀ w ∈ final.trabajadores, w.enCiclo = false → final.resultado = r ∨ r = -1) ∧
        final.trabajadores.length = estado.trabajadores.length := by
  intro plan
  induction plan with
  | nil =>
    intro estado h1 h2
    exact ⟨estado, rfl, h1, fun w hw => (h2 w hw).2, rfl⟩
  | cons q plan ih =>
    intro estado h1 h2
    obtain ⟨estado', hp, h1', h2', hlen, -⟩ :=
      pasoRegion_invariante key arr idBuscado r estado q h1 h2
    obtain ⟨final, hf, hf1, hf2, hflen⟩ := ih estado' h1' h2'
    refine ⟨final, ?_, hf1, hf2, by omega⟩
    simp only [ejecutarRegion, hp, hf]

/-- From every state of the region some schedule brings every worker out of its loop. -/
theorem ejecutarRegion_termina {α : Type} (key : α → Int) (arr : List α)
    (idBuscado r : Int) :
    ∀ (m : Nat) (estado : Region), estado.medida ≤ m →
      (estado.resultado = -1 ∨ estado.resultado = r) →
      (∀ w ∈ estado.trabajadores,
        (w.enCiclo = true → 0 ≤ w.low ∧ w.high < (arr.length : Int) ∧
          cicloBusqueda key arr idBuscado w.low w.high = .ok r) ∧
        (w.enCiclo = false → estado.resultado = r ∨ r = -1)) →
      ∃ (plan : List Nat) (final : Region),
        ejecutarRegion key arr idBuscado estado plan = .ok final ∧
        final.terminada = true := by
  intro m
  induction m with
  | zero =>
    intro estado hm h1 h2
    by_cases ht : estado.terminada = true
    · exact ⟨[], estado, rfl, ht⟩
    · simp only [Region.terminada, List.all_eq_true, Bool.not_eq_true', not_forall] at ht
      obtain ⟨w, hw, hc⟩ := ht
      obtain ⟨q, hq⟩ := List.mem_iff_getElem?.1 hw
      obtain ⟨estado', -, -, -, -, hmed⟩ :=
        pasoRegion_invariante key arr idBuscado r estado q h1 h2
      have := hmed w hq (by simpa using hc)
      omega
  | succ m ih =>
    intro estado hm h1 h2
    by_cases ht : estado.terminada = true
    · exact ⟨[], estado, rfl, ht⟩
    · simp only [Region.terminada, List.all_eq_true, Bool.not_eq_true', not_forall] at ht
      obtain ⟨w, hw, hc⟩ := ht
      obtain ⟨q, hq⟩ := List.mem_iff_getElem?.1 hw
      obtain ⟨estado', hp, h1', h2', -, hmed⟩ :=
        pasoRegion_invariante key arr idBuscado r estado q h1 h2
      have hlt := hmed w hq (by simpa using hc)
      obtain ⟨plan, final, hf, hfin⟩ := ih estado' (by omega) h1' h2'
      refine ⟨q :: plan, final, ?_, hfin⟩
      simp only [ejecutarRegion, hp, hf]

/-- An iteration leaves `resultado` as it is unless it stores in it the index of a cell
that holds the key. -/
theorem pasoTrabajador_marco {α : Type} (key : α → Int) (arr : List α) (idBuscado : Int)
    (w w' : Trabajador) (resultado resultado' : Int)
    (h : pasoTrabajador key arr idBuscado w resultado = .ok (w', resultado')) :
    resultado' = resultado ∨ ∃ c, leer arr resultado' = .ok c ∧ key c = idBuscado := by
  unfold pasoTrabajador at h
  by_cases hc : w.enCiclo = true
  · simp only [hc, if_true] at h
    by_cases hle : w.low ≤ w.high
    · simp only [if_pos hle] at h
      cases hl : leer arr (w.low + (w.high - w.low).tdiv 2) with
      | error e => simp [hl] at h
      | ok c =>
        simp only [hl] at h
        by_cases hk : key c = idBuscado
        · simp only [if_pos hk, Except.ok.injEq, Prod.mk.injEq] at h
          obtain ⟨-, rfl⟩ := h
          exact Or.inr ⟨c, hl, hk⟩
        · simp only [if_neg hk] at h
          by_cases hlt : key c < idBuscado
          · simp only [if_pos hlt, Except.ok.injEq, Prod.mk.injEq] at h
            exact Or.inl h.2.symm
          · simp only [if_neg hlt, Except.ok.injEq, Prod.mk.injEq] at h
            exact Or.inl h.2.symm
    · simp only [if_neg hle, Except.ok.injEq, Prod.mk.injEq] at h
      exact Or.inl h.2.symm
  · rw [if_neg hc] at h
    simp only [Except.ok.injEq, Prod.mk.injEq] at h
    exact Or.inl h.2.symm

/-- A step of the region changes the private variables of the worker that makes it and
of no other, and leaves `resultado` as it is unless it stores in it the index of a cell
that holds the key. -/
theorem pasoRegion_marco {α : Type} (key : α → Int) (arr : List α) (idBuscado : Int)
    (estado estado' : Region) (quien : Nat)
    (h : pasoRegion key arr idBuscado estado quien = .ok estado') :
    (∀ j : Nat, j ≠ quien → estado'.trabajadores[j]? = estado.trabajadores[j]?) ∧
    (estado'.resultado = estado.resultado ∨
      ∃ c, leer arr estado'.resultado = .ok c ∧ key c = idBuscado) := by
  unfold pasoRegion at h
  cases hq : estado.trabajadores[quien]? with
  | none =>
    simp only [hq, Except.ok.injEq] at h
    subst h
    exact ⟨fun _ _ => rfl, Or.inl rfl⟩
  | some w =>
    simp only [hq] at h
    cases hp : pasoTrabajador key arr idBuscado w estado.resultado with
    | error e => simp [hp] at h
    | ok par =>
      obtain ⟨w', resultado'⟩ := par
      simp only [hp, Except.ok.injEq] at h
      subst h
      refine ⟨?_, pasoTrabajador_marco key arr idBuscado w w' _ _ hp⟩
      intro j hj
      simp only
      rw [List.getElem?_set_ne (Ne.symm hj)]

/-- The result of the region does not depend on the number of workers or on the
schedule. -/
theorem busquedaBinariaPlanificada_spec {α : Type} (key : α → Int) (arr : List α) (n : Int)
    (idBuscado r : Int) (hn : n ≤ (arr.length : Int))
    (hr : busquedaBinaria key arr n idBuscado = .ok r) :
    (∀ (hilos : Nat) (plan : List Nat), 0 < hilos →
      busquedaBinariaPlanificada key arr n idBuscado hilos plan = .ok (some r) ∨
      busquedaBinariaPlanificada key arr n idBuscado hilos plan = .ok none) ∧
    (∀ hilos : Nat, 0 < hilos → ∃ plan : List Nat,
      busquedaBinariaPlanificada key arr n idBuscado hilos plan = .ok (some r)) := by
  have h1 : (regionInicial 0 n).resultado = -1 := rfl
  have hini : ∀ hilos : Nat, ∀ w ∈ (regionInicial hilos n).trabajadores,
      (w.enCiclo = true → 0 ≤ w.low ∧ w.high < (arr.length : Int) ∧
        cicloBusqueda key arr idBuscado w.low w.high = .ok r) ∧
      (w.enCiclo = false → (regionInicial hilos n).resultado = r ∨ r = -1) := by
    intro hilos w hw
    simp only [regionInicial, List.mem_replicate] at hw
    obtain ⟨-, rfl⟩ := hw
    refine ⟨fun _ => ⟨le_refl _, by simp only; omega, hr⟩, ?_⟩
    intro h
    simp at h
  have hfin : ∀ (hilos : Nat) (final : Region), 0 < hilos →
      (final.resultado = -1 ∨ final.resultado = r) →
      (∀ w ∈ final.trabajadores, w.enCiclo = false → final.resultado = r ∨ r = -1) →
      final.trabajadores.length = (regionInicial hilos n).trabajadores.length →
      final.terminada = true → final.resultado = r := by
    intro hilos final hpos hf1 hf2 hlen hterm
    simp only [regionInicial, List.length_replicate] at hlen
    obtain ⟨w, hw⟩ : ∃ w, w ∈ final.trabajadores :=
      List.exists_mem_of_length_pos (by omega)
    simp only [Region.terminada, List.all_eq_true, Bool.not_eq_true'] at hterm
    rcases hf2 w hw (hterm w hw) with e | e
    · exact e
    · rcases hf1 with e1 | e1
      · rw [e1, e]
      · exact e1
  constructor
  · intro hilos plan hpos
    obtain ⟨final, hf, hf1, hf2, hlen⟩ := ejecutarRegion_invariante key arr idBuscado r plan
      (regionInicial hilos n) (Or.inl rfl) (hini hilos)
    simp only [busquedaBinariaPlanificada, hf]
    by_cases ht : final.terminada = true
    · left
      simp only [ht, if_true, hfin hilos final hpos hf1 hf2 hlen ht]
    · right
      simp only [ht, Bool.false_eq_true, if_false]
  · intro hilos hpos
    obtain ⟨plan, final, hf, ht⟩ := ejecutarRegion_termina key arr idBuscado r
      (regionInicial hilos n).medida (regionInicial hilos n) (le_refl _) (Or.inl rfl)
      (hini hilos)
    obtain ⟨final', hf', hf1, hf2, hlen⟩ := ejecutarRegion_invariante key arr idBuscado r plan
      (regionInicial hilos n) (Or.inl rfl) (hini hilos)
    rw [hf] at hf'
    cases hf'
    refine ⟨plan, ?_⟩
    simp only [busquedaBinariaPlanificada, hf, ht, if_true,
      hfin hilos final hpos hf1 hf2 hlen ht]

/-- C36: on an array of at least `numMenus` menus the loop of one worker returns a value
`r`, and with any number of workers (one at least) every schedule that brings all the
workers out of their loops makes `busquedaBinariaMenusParallel` return `r`; no schedule
runs into a fault, and for every number of workers some schedule ends. A step changes
the `low`, `high` and loop state of the worker that makes it and of no other, and
`resultado` is left as it is unless the step stores in it the index of a cell that holds
the key. -/
theorem busquedaBinariaMenus_schedule_independent (menus : List Menu)
    (numMenus idBuscado : Int) (hn : numMenus ≤ (menus.length : Int)) :
    ∃ r : Int, busquedaBinariaMenusParallel menus numMenus idBuscado = .ok r ∧
      (∀ (hilos : Nat) (plan : List Nat), 0 < hilos →
        busquedaBinariaMenusPlanificada menus numMenus idBuscado hilos plan = .ok (some r) ∨
        busquedaBinariaMenusPlanificada menus numMenus idBuscado hilos plan = .ok none) ∧
      (∀ hilos : Nat, 0 < hilos → ∃ plan : List Nat,
        busquedaBinariaMenusPlanificada menus numMenus idBuscado hilos plan = .ok (some r)) ∧
      (∀ (estado estado' : Region) (quien : Nat),
        pasoRegion Menu.idMenu menus idBuscado estado quien = .ok estado' →
        (∀ j : Nat, j ≠ quien → estado'.trabajadores[j]? = estado.trabajadores[j]?) ∧
        (estado'.resultado = estado.resultado ∨
          ∃ m, leer menus estado'.resultado = .ok m ∧ m.idMenu = idBuscado)) := by
  obtain ⟨r, hr, -⟩ := cicloBusqueda_sound Menu.idMenu menus idBuscado
    (numMenus - 1 - 0 + 1).toNat 0 (numMenus - 1) (le_refl _) (le_refl _) (by omega)
  have hs := busquedaBinariaPlanificada_spec Menu.idMenu menus numMenus idBuscado r hn hr
  exact ⟨r, hr, hs.1, hs.2,
    fun estado estado' quien h => pasoRegion_marco Menu.idMenu menus idBuscado estado estado'
      quien h⟩

/-- C36 witness: the menus 10, 20, 30 and the id 30, which every worker finds at index 2
in two iterations; two workers under three schedules that end and one that does not. -/
theorem busquedaBinariaMenus_schedule_independent_witness :
    (∃ r : Int, busquedaBinariaMenusParallel menusOrdenados 3 30 = .ok r ∧
      (∀ (hilos : Nat) (plan : List Nat), 0 < hilos →
        busquedaBinariaMenusPlanificada menusOrdenados 3 30 hilos plan = .ok (some r) ∨
        busquedaBinariaMenusPlanificada menusOrdenados 3 30 hilos plan = .ok none) ∧
      (∀ hilos : Nat, 0 < hilos → ∃ plan : List Nat,
        busquedaBinariaMenusPlanificada menusOrdenados 3 30 hilos plan = .ok (some r)) ∧
      (∀ (estado estado' : Region) (quien : Nat),
        pasoRegion Menu.idMenu menusOrdenados 30 estado quien = .ok estado' →
        (∀ j : Nat, j ≠ quien → estado'.trabajadores[j]? = estado.trabajadores[j]?) ∧
        (estado'.resultado = estado.resultado ∨
          ∃ m, leer menusOrdenados estado'.resultado = .ok m ∧ m.idMenu = 30))) ∧
    busquedaBinariaMenusPlanificada menusOrdenados 3 30 2 [0, 0, 1, 1] = .ok (some 2) ∧
    busquedaBinariaMenusPlanificada menusOrdenados 3 30 2 [0, 1, 0, 1] = .ok (some 2) ∧
    busquedaBinariaMenusPlanificada menusOrdenados 3 30 2 [1, 0, 1, 0] = .ok (some 2) ∧
    busquedaBinariaMenusPlanificada menusOrdenados 3 30 2 [0, 0, 1] = .ok none :=
  ⟨busquedaBinariaMenus_schedule_independent menusOrdenados 3 30 (by decide),
    rfl, rfl, rfl, rfl⟩

/-! ## Client store: insert, then delete -/

theorem cadenaEliminar_cabeza {α : Type} (key : α → Int) (x : α) (l : List α) :
    cadenaEliminar key (key x) (x :: l) = some l := by
  simp [cadenaEliminar]

theorem Tabla.poner_poner {α : Type} (t : Tabla α) (i : Fin 64) (c : List α) :
    (t.poner i c).poner i (t.buckets i) = t := by
  cases t with
  | mk b =>
    simp only [Tabla.poner, Function.update_idem, Function.update_eq_self]

/-- C38: for every client table, every non-negative id `k` that no record of the table
carries, every name that fits `nombre[50]` and every phone that fits `telefono[15]`,
`agregarCliente` returns `true` (allocation succeeding) and `eliminarCliente` of `k` on the
table obtained returns `true` and gives back the table of the start, bucket by bucket and
in the same chain order. -/
theorem agregarCliente_then_eliminarCliente (tabla : ClientesHashTable) (k : Int)
    (nombre telefono : String)
    (hId : 0 ≤ k)
    (hAbsent : ∀ i : Fin 64, ∀ c ∈ tabla.buckets i, c.idCliente ≠ k)
    (hNombre : nombre.utf8ByteSize ≤ 49) (hTelefono : telefono.utf8ByteSize ≤ 14) :
    ∃ tabla', agregarCliente true tabla k nombre telefono = .ok (true, tabla') ∧
      eliminarCliente tabla' k = .ok (true, tabla) := by
  have hIdx : hashCliente k < 64 := hashCliente_lt k hId
  have hb : cadenaBuscar Cliente.idCliente k (tabla.buckets ⟨hashCliente k, hIdx⟩) = none :=
    cadenaBuscar_eq_none Cliente.idCliente k _ (hAbsent _)
  have hn : strcpy 50 nombre = .ok nombre := strcpy_fits 50 nombre (by omega)
  have ht : strcpy 15 telefono = .ok telefono := strcpy_fits 15 telefono (by omega)
  refine ⟨tabla.poner ⟨hashCliente k, hIdx⟩
    ({ idCliente := k, nombre := nombre, telefono := telefono }
      :: tabla.buckets ⟨hashCliente k, hIdx⟩), ?_, ?_⟩
  · simp only [agregarCliente, buscarCliente, dif_pos hIdx, hb, hn, ht]
    rfl
  · simp only [eliminarCliente, dif_pos hIdx, Tabla.buckets_poner_same]
    have hd := cadenaEliminar_cabeza Cliente.idCliente
      ({ idCliente := k, nombre := nombre, telefono := telefono } : Cliente)
      (tabla.buckets ⟨hashCliente k, hIdx⟩)
    simp only at hd
    rw [hd]
    simp only [Tabla.poner_poner]

/-- C38 witness: client 69 into the table that holds client 5, then out of it. -/
theorem agregarCliente_then_eliminarCliente_witness :
    ∃ tabla', agregarCliente true tablaCliente5 69 "Luis" "5550002" = .ok (true, tabla') ∧
      eliminarCliente tabla' 69 = .ok (true, tablaCliente5) :=
  agregarCliente_then_eliminarCliente tablaCliente5 69 "Luis" "5550002" (by decide)
    (by
      intro i c hc
      have h := Tabla.mem_vacia_poner _ _ _ _ hc
      rw [List.mem_singleton.mp h]
      decide)
    (by decide) (by decide)

/-! ## Uniqueness of the keys and placement in the buckets -/

theorem cadenaBuscar_none_ne {α : Type} (key : α → Int) (id : Int) :
    ∀ l : List α, cadenaBuscar key id l = none → ∀ a ∈ l, key a ≠ id := by
  intro l
  induction l with
  | nil =>
    intro _ a ha
    simp at ha
  | cons x l ih =>
    intro h a ha
    simp only [cadenaBuscar] at h
    split at h
    · cases h
    · rename_i hx
      rcases List.mem_cons.1 ha with e | e
      · rw [e]; exact hx
      · exact ih h a e

theorem cadenaBuscar_of_mem {α : Type} (key : α → Int) :
    ∀ (l : List α) (a : α), (l.map key).Nodup → a ∈ l → cadenaBuscar key (key a) l = some a := by
  intro l
  induction l with
  | nil =>
    intro a _ ha
    simp at ha
  | cons x l ih =>
    intro a hnd ha
    simp only [List.map_cons, List.nodup_cons] at hnd
    rcases List.mem_cons.1 ha with e | e
    · rw [e]
      simp [cadenaBuscar]
    · have hne : key x ≠ key a := by
        intro hx
        exact hnd.1 (hx ▸ List.mem_map_of_mem key e)
      simp only [cadenaBuscar, if_neg hne]
      exact ih a hnd.2 e

theorem cadenaModificar_claves {α : Type} (key : α → Int) (id : Int) (f : α → α)
    (hf : ∀ a, key (f a) = key a) :
    ∀ l : List α, (cadenaModificar key id f l).map key = l.map key := by
  intro l
  induction l with
  | nil => rfl
  | cons x l ih =>
    simp only [cadenaModificar]
    split
    · simp only [List.map_cons, hf]
    · simp only [List.map_cons, ih]

theorem cadenaEliminar_sublist {α : Type} (key : α → Int) (id : Int) :
    ∀ l r : List α, cadenaEliminar key id l = some r → r.Sublist l := by
  intro l
  induction l with
  | nil =>
    intro r h
    simp [cadenaEliminar] at h
  | cons x l ih =>
    intro r h
    simp only [cadenaEliminar] at h
    split at h
    · cases h
      exact List.sublist_cons_self x l
    · cases hr : cadenaEliminar key id l with
      | none => simp [hr] at h
      | some r' =>
        simp only [hr, Option.map_some', Option.some.injEq] at h
        subst h
        exact (ih r' hr).cons₂ x

/-- Keys placed by `g` and pairwise distinct in every chain: kept by an assignment of a
chain with the same two properties. -/
theorem Tabla.invariante_poner {α : Type} (key : α → Int) (g : Int → Nat) (t : Tabla α)
    (i : Fin 64) (c : List α)
    (ht : (∀ j : Fin 64, ∀ a ∈ t.buckets j, g (key a) = j.val) ∧
      (∀ j : Fin 64, ((t.buckets j).map key).Nodup))
    (hc1 : ∀ a ∈ c, g (key a) = i.val) (hc2 : (c.map key).Nodup) :
    (∀ j : Fin 64, ∀ a ∈ (t.poner i c).buckets j, g (key a) = j.val) ∧
      (∀ j : Fin 64, (((t.poner i c).buckets j).map key).Nodup) := by
  constructor
  · intro j a ha
    by_cases hji : j = i
    · subst hji
      rw [Tabla.buckets_poner_same] at ha
      exact hc1 a ha
    · rw [Tabla.buckets_poner_other _ _ _ _ hji] at ha
      exact ht.1 j a ha
  · intro j
    by_cases hji : j = i
    · subst hji
      rw [Tabla.buckets_poner_same]
      exact hc2
    · rw [Tabla.buckets_poner_other _ _ _ _ hji]
      exact ht.2 j

theorem Tabla.invariante_insertar {α : Type} (key : α → Int) (g : Int → Nat) (t : Tabla α)
    (i : Fin 64) (nuevo : α)
    (ht : (∀ j : Fin 64, ∀ a ∈ t.buckets j, g (key a) = j.val) ∧
      (∀ j : Fin 64, ((t.buckets j).map key).Nodup))
    (hi : g (key nuevo) = i.val)
    (hb : cadenaBuscar key (key nuevo) (t.buckets i) = none) :
    (∀ j : Fin 64, ∀ a ∈ (t.poner i (nuevo :: t.buckets i)).buckets j, g (key a) = j.val) ∧
      (∀ j : Fin 64, (((t.poner i (nuevo :: t.buckets i)).buckets j).map key).Nodup) := by
  apply Tabla.invariante_poner key g t i _ ht
  · intro a ha
    rcases List.mem_cons.1 ha with e | e
    · rw [e]; exact hi
    · exact ht.1 i a e
  · simp only [List.map_cons, List.nodup_cons]
    refine ⟨?_, ht.2 i⟩
    intro hmem
    obtain ⟨a, ha, hka⟩ := List.mem_map.1 hmem
    exact cadenaBuscar_none_ne key _ _ hb a ha hka

theorem Tabla.invariante_modificar {α : Type} (key : α → Int) (g : Int → Nat) (t : Tabla α)
    (i : Fin 64) (id : Int) (f : α → α) (hf : ∀ a, key (f a) = key a)
    (ht : (∀ j : Fin 64, ∀ a ∈ t.buckets j, g (key a) = j.val) ∧
      (∀ j : Fin 64, ((t.buckets j).map key).Nodup)) :
    (∀ j : Fin 64, ∀ a ∈ (t.poner i (cadenaModificar key id f (t.buckets i))).buckets j,
        g (key a) = j.val) ∧
      (∀ j : Fin 64,
        (((t.poner i (cadenaModificar key id f (t.buckets i))).buckets j).map key).Nodup) := by
  apply Tabla.invariante_poner key g t i _ ht
  · apply cadenaModificar_todos (fun a => g (key a) = i.val) key id f _ (ht.1 i)
    intro a ha
    show g (key (f a)) = i.val
    rw [hf]
    exact ht.1 i a ha
  · rw [cadenaModificar_claves key id f hf]
    exact ht.2 i

theorem Tabla.invariante_eliminar {α : Type} (key : α → Int) (g : Int → Nat) (t : Tabla α)
    (i : Fin 64) (id : Int) (cadena : List α)
    (hc : cadenaEliminar key id (t.buckets i) = some cadena)
    (ht : (∀ j : Fin 64, ∀ a ∈ t.buckets j, g (key a) = j.val) ∧
      (∀ j : Fin 64, ((t.buckets j).map key).Nodup)) :
    (∀ j : Fin 64, ∀ a ∈ (t.poner i cadena).buckets j, g (key a) = j.val) ∧
      (∀ j : Fin 64, (((t.poner i cadena).buckets j).map key).Nodup) := by
  have hsub := cadenaEliminar_sublist key id _ _ hc
  apply Tabla.invariante_poner key g t i _ ht
  · intro a ha
    exact ht.1 i a (hsub.subset ha)
  · exact List.Nodup.sublist (hsub.map key) (ht.2 i)

/-- With the keys placed by `g` and pairwise distinct in every chain, the keys are
pairwise distinct over the whole table. -/
theorem Tabla.nodup_registros {α : Type} (key : α → Int) (g : Int → Nat) (t : Tabla α)
    (ht : (∀ j : Fin 64, ∀ a ∈ t.buckets j, g (key a) = j.val) ∧
      (∀ j : Fin 64, ((t.buckets j).map key).Nodup)) :
    (t.registros.map key).Nodup := by
  simp only [Tabla.registros, List.map_flatten, List.map_map]
  rw [List.nodup_flatten]
  constructor
  · intro l hl
    obtain ⟨j, _, rfl⟩ := List.mem_map.1 hl
    exact ht.2 j
  · rw [List.pairwise_map]
    refine List.Pairwise.imp ?_ (List.nodup_finRange 64)
    intro i j hij
    simp only [Function.comp]
    rw [List.disjoint_left]
    intro x hx1 hx2
    obtain ⟨a, ha, rfl⟩ := List.mem_map.1 hx1
    obtain ⟨b, hb, hkb⟩ := List.mem_map.1 hx2
    apply hij
    apply Fin.ext
    rw [← ht.1 i a ha, ← ht.1 j b hb, hkb]

theorem alimentos_alcanzables_invariante (t : HashTable)
    (h : AlimentosAlcanzable (fun _ => True) t) :
    (∀ j : Fin 64, ∀ a ∈ t.buckets j, hashFunctionMidSquare a.id = j.val) ∧
      (∀ j : Fin 64, ((t.buckets j).map Alimento.id).Nodup) := by
  induction h with
  | crear =>
    simp [crearTablaHash, Tabla.vacia]
  | insertar mallocOk t t' id nombre precio disponibleStr b _ _ hOk ih =>
    unfold insertarAlimento at hOk
    split at hOk
    · cases hOk
      exact ih
    · split at hOk
      · cases hOk
        exact ih
      · rename_i hb
        simp only at hOk
        split at hOk
        · cases hOk
          exact ih
        · split at hOk
          · cases hOk
          · cases hOk
            exact Tabla.invariante_insertar Alimento.id hashFunctionMidSquare t
              (indiceAlimento id) _ ih rfl hb
  | actualizar t t' id nombre precio disponibleStr b _ _ hOk ih =>
    unfold actualizarAlimento at hOk
    split at hOk
    · cases hOk
      exact ih
    · split at hOk
      · cases hOk
        exact ih
      · split at hOk
        · cases hOk
        · simp only at hOk
          cases hOk
          exact Tabla.invariante_modificar Alimento.id hashFunctionMidSquare t
            (indiceAlimento id) id _ (fun _ => rfl) ih
  | eliminar t id _ ih =>
    unfold eliminarAlimento
    simp only
    split
    · rename_i cadena hcadena
      exact Tabla.invariante_eliminar Alimento.id hashFunctionMidSquare t
        (indiceAlimento id) id cadena hcadena ih
    · exact ih

theorem clientes_alcanzables_invariante (P : Int → Prop) (t : ClientesHashTable)
    (h : ClientesAlcanzable P t) :
    (∀ j : Fin 64, ∀ c ∈ t.buckets j, hashCliente c.idCliente = j.val) ∧
      (∀ j : Fin 64, ((t.buckets j).map Cliente.idCliente).Nodup) := by
  induction h with
  | crear =>
    simp [crearTablaClientes, Tabla.vacia]
  | agregar mallocOk t t' idCliente nombre telefono b _ _ hOk ih =>
    unfold agregarCliente buscarCliente at hOk
    simp only at hOk
    by_cases hIdx : hashCliente idCliente < 64
    · simp only [dif_pos hIdx] at hOk
      cases hb : cadenaBuscar Cliente.idCliente idCliente
          (t.buckets ⟨hashCliente idCliente, hIdx⟩) with
      | some c =>
        simp only [hb] at hOk
        cases hOk
        exact ih
      | none =>
        simp only [hb] at hOk
        split at hOk
        · cases hOk
          exact ih
        · split at hOk
          · cases hOk
          · split at hOk
            · cases hOk
            · cases hOk
              exact Tabla.invariante_insertar Cliente.idCliente hashCliente t
                ⟨hashCliente idCliente, hIdx⟩ _ ih rfl hb
    · simp only [dif_neg hIdx] at hOk
      cases hOk
  | actualizar t t' idCliente nuevoNombre nuevoTelefono b _ _ hOk ih =>
    unfold actualizarCliente buscarCliente at hOk
    simp only at hOk
    by_cases hIdx : hashCliente idCliente < 64
    · simp only [dif_pos hIdx] at hOk
      cases hb : cadenaBuscar Cliente.idCliente idCliente
          (t.buckets ⟨hashCliente idCliente, hIdx⟩) with
      | none =>
        simp only [hb] at hOk
        cases hOk
        exact ih
      | some c =>
        simp only [hb] at hOk
        split at hOk
        · cases hOk
        · split at hOk
          · cases hOk
          · cases hOk
            exact Tabla.invariante_modificar Cliente.idCliente hashCliente t
              ⟨hashCliente idCliente, hIdx⟩ idCliente _ (fun _ => rfl) ih
    · simp only [dif_neg hIdx] at hOk
      cases hOk
  | eliminar t t' idCliente b _ _ hOk ih =>
    unfold eliminarCliente at hOk
    simp only at hOk
    by_cases hIdx : hashCliente idCliente < 64
    · simp only [dif_pos hIdx] at hOk
      split at hOk
      · rename_i cadena hcadena
        cases hOk
        exact Tabla.invariante_eliminar Cliente.idCliente hashCliente t
          ⟨hashCliente idCliente, hIdx⟩ idCliente cadena hcadena ih
      · cases hOk
        exact ih
    · simp only [dif_neg hIdx] at hOk
      cases hOk

/-- C31: in every food table built from `crearTablaHash` by `insertarAlimento`,
`actualizarAlimento` and `eliminarAlimento`, and in every client table built from
`crearTablaClientes` by `agregarCliente`, `actualizarCliente` and `eliminarCliente` with
non-negative ids, the ids of the records are pairwise distinct, every record of bucket
`i` has an id whose hash is `i`, and the lookup of the id of a stored record returns that
record. -/
theorem keys_unique_and_placed (tablaAlimentos : HashTable) (tablaClientes : ClientesHashTable)
    (hAlimentos : AlimentosAlcanzable (fun _ => True) tablaAlimentos)
    (hClientes : ClientesAlcanzable (fun idCliente => 0 ≤ idCliente) tablaClientes) :
    ((tablaAlimentos.registros.map Alimento.id).Nodup ∧
      (∀ i : Fin 64, ∀ a ∈ tablaAlimentos.buckets i, hashFunctionMidSquare a.id = i.val) ∧
      (∀ i : Fin 64, ∀ a ∈ tablaAlimentos.buckets i,
        buscarAlimento tablaAlimentos a.id = some a)) ∧
    ((tablaClientes.registros.map Cliente.idCliente).Nodup ∧
      (∀ i : Fin 64, ∀ c ∈ tablaClientes.buckets i, hashCliente c.idCliente = i.val) ∧
      (∀ i : Fin 64, ∀ c ∈ tablaClientes.buckets i,
        buscarCliente tablaClientes c.idCliente = .ok (some c))) := by
  have hA := alimentos_alcanzables_invariante tablaAlimentos hAlimentos
  have hC := clientes_alcanzables_invariante _ tablaClientes hClientes
  refine ⟨⟨Tabla.nodup_registros Alimento.id hashFunctionMidSquare _ hA, hA.1, ?_⟩,
    ⟨Tabla.nodup_registros Cliente.idCliente hashCliente _ hC, hC.1, ?_⟩⟩
  · intro i a ha
    have hi : indiceAlimento a.id = i := Fin.ext (hA.1 i a ha)
    simp only [buscarAlimento, hi]
    exact cadenaBuscar_of_mem Alimento.id _ a (hA.2 i) ha
  · intro i c hc
    have hi := hC.1 i c hc
    have hIdx : hashCliente c.idCliente < 64 := by rw [hi]; exact i.isLt
    have hfin : (⟨hashCliente c.idCliente, hIdx⟩ : Fin 64) = i := Fin.ext hi
    simp only [buscarCliente, dif_pos hIdx, hfin]
    exact congrArg Except.ok (cadenaBuscar_of_mem Cliente.idCliente _ c (hC.2 i) hc)

/-- C31 witness: the food table after the inserts of the foods 1 and 2, which share
bucket 0, and the client table after the inserts of the clients 5, 69 and 7, of which 5
and 69 share bucket 5. -/
theorem keys_unique_and_placed_witness :
    ((tablaDosAlimentos.registros.map Alimento.id).Nodup ∧
      (∀ i : Fin 64, ∀ a ∈ tablaDosAlimentos.buckets i, hashFunctionMidSquare a.id = i.val) ∧
      (∀ i : Fin 64, ∀ a ∈ tablaDosAlimentos.buckets i,
        buscarAlimento tablaDosAlimentos a.id = some a)) ∧
    ((tablaTresClientes.registros.map Cliente.idCliente).Nodup ∧
      (∀ i : Fin 64, ∀ c ∈ tablaTresClientes.buckets i, hashCliente c.idCliente = i.val) ∧
      (∀ i : Fin 64, ∀ c ∈ tablaTresClientes.buckets i,
        buscarCliente tablaTresClientes c.idCliente = .ok (some c))) :=
  keys_unique_and_placed tablaDosAlimentos tablaTresClientes
    (AlimentosAlcanzable.insertar true tablaUnAlimento tablaDosAlimentos 2 "Sopa" 2 "Si" true
      (AlimentosAlcanzable.insertar true crearTablaHash tablaUnAlimento 1 "Taco" 3 "Si" true
        AlimentosAlcanzable.crear True.intro rfl)
      True.intro rfl)
    (ClientesAlcanzable.agregar true tablaClientes5y69 tablaTresClientes 7 "Eva" "5550007" true
      (ClientesAlcanzable.agregar true tablaCliente5 tablaClientes5y69 69 "Luis" "5550002" true
        (ClientesAlcanzable.agregar true crearTablaClientes tablaCliente5 5 "Ana" "5550001"
          true ClientesAlcanzable.crear (by decide) rfl)
        (by decide) rfl)
      (by decide) rfl)

/-! ## Deleting a food: no cascade -/

/-- The table value `tablaDosTacos`, with two records of id 1, is built by no sequence of
calls: `insertarAlimento` refuses an id that the table holds. -/
theorem tablaDosTacos_no_alcanzable : ¬ AlimentosAlcanzable (fun _ => True) tablaDosTacos := by
  intro h
  have hnd := (alimentos_alcanzables_invariante tablaDosTacos h).2 (indiceAlimento 1)
  have hb : (tablaDosTacos.buckets (indiceAlimento 1)).map Alimento.id = [1, 1] := rfl
  rw [hb] at hnd
  exact absurd hnd (by decide)

/-- C11: on global tables whose food table is built from `crearTablaHash` by calls of
`insertarAlimento`, `actualizarAlimento` and `eliminarAlimento` and whose menu table holds
a menu `m` listing the food id `f`, after `eliminarAlimento` of `f` succeeds
`buscarAlimento` of `f` is `NULL`, while the menu table is the same and `buscarMenuPorID`
of `m` returns the same record as before: same date, same food list, still containing
`f`, same count. -/
theorem eliminarAlimento_no_cascade (s : Sistema) (m f : Int) (menu : Menu)
    (hReachable : AlimentosAlcanzable (fun _ => True) s.tablaAlimentos)
    (hMenu : buscarMenuPorID s.tablaMenus m = .ok (some menu))
    (hLists : f ∈ menu.alimentos)
    (hDeleted : (s.eliminarAlimento f).1 = true) :
    buscarAlimento (s.eliminarAlimento f).2.tablaAlimentos f = none ∧
    buscarMenuPorID (s.eliminarAlimento f).2.tablaMenus m = .ok (some menu) ∧
    (s.eliminarAlimento f).2.tablaMenus = s.tablaMenus ∧
    f ∈ menu.alimentos :=
  have h := eliminarAlimento_sin_cascada s m f menu
    (Tabla.nodup_registros Alimento.id hashFunctionMidSquare s.tablaAlimentos
      (alimentos_alcanzables_invariante s.tablaAlimentos hReachable))
    hMenu hLists hDeleted
  ⟨h.1, h.2.1, rfl, h.2.2⟩

/-- C11 witness, the scenario of the specification: Food 1 "Taco" 2.50 available is
inserted, Menu 10 of 2024-01-01 lists the foods [1]; delete Food 1; Menu 10 still has the
foods [1]. -/
theorem eliminarAlimento_no_cascade_witness :
    AlimentosAlcanzable (fun _ => True) sistemaTacoMenu10.tablaAlimentos ∧
    buscarMenuPorID sistemaTacoMenu10.tablaMenus 10
      = .ok (some { idMenu := 10, fecha := "2024-01-01", alimentos := [1], numAlimentos := 1 }) ∧
    (sistemaTacoMenu10.eliminarAlimento 1).1 = true ∧
    buscarAlimento (sistemaTacoMenu10.eliminarAlimento 1).2.tablaAlimentos 1 = none ∧
    buscarMenuPorID (sistemaTacoMenu10.eliminarAlimento 1).2.tablaMenus 10
      = .ok (some { idMenu := 10, fecha := "2024-01-01", alimentos := [1], numAlimentos := 1 }) ∧
    (sistemaTacoMenu10.eliminarAlimento 1).2.tablaMenus = sistemaTacoMenu10.tablaMenus ∧
    (1 : Int) ∈ ({ idMenu := 10, fecha := "2024-01-01", alimentos := [1], numAlimentos := 1 } :
      Menu).alimentos :=
  have hR : AlimentosAlcanzable (fun _ => True) sistemaTacoMenu10.tablaAlimentos :=
    AlimentosAlcanzable.insertar true crearTablaHash tablaTaco 1 "Taco" (5 / 2) "Si" true
      AlimentosAlcanzable.crear True.intro rfl
  ⟨hR, rfl, rfl,
    eliminarAlimento_no_cascade sistemaTacoMenu10 10 1
      { idMenu := 10, fecha := "2024-01-01", alimentos := [1], numAlimentos := 1 }
      hR rfl (by simp) rfl⟩

/-! ## The mid-square hash on small ids -/

/-- C40: for every id with `0 <= id <= 31` the square is below 1024,
`hashFunctionMidSquare(id)` is 0 and the bucket of the id is bucket 0; a successful
`insertarAlimento` of such an id puts the new record, which carries the id, at the head of
bucket 0, in front of the records that were there. -/
theorem hashFunctionMidSquare_small_ids (id : Int) (h0 : 0 ≤ id) (h31 : id ≤ 31) :
    id * id < 1024 ∧
    hashFunctionMidSquare id = 0 ∧
    indiceAlimento id = ⟨0, by decide⟩ ∧
    ∀ (mallocOk : Bool) (tabla tabla' : HashTable) (nombre : String) (precio : ℚ)
      (disponibleStr : String),
      insertarAlimento mallocOk tabla id nombre precio disponibleStr = .ok (true, tabla') →
      ∃ nuevo : Alimento, nuevo.id = id ∧
        tabla'.buckets ⟨0, by decide⟩ = nuevo :: tabla.buckets ⟨0, by decide⟩ := by
  have hh : hashFunctionMidSquare id = 0 := by
    interval_cases id <;> rfl
  have hi : indiceAlimento id = ⟨0, by decide⟩ := Fin.ext hh
  refine ⟨by nlinarith, hh, hi, ?_⟩
  intro mallocOk tabla tabla' nombre precio disponibleStr hOk
  unfold insertarAlimento at hOk
  split at hOk
  · cases hOk
  · split at hOk
    · cases hOk
    · simp only at hOk
      split at hOk
      · cases hOk
      · split at hOk
        · cases hOk
        · rename_i d _ _ _ nc _
          cases hOk
          rw [hi]
          exact ⟨_, rfl, Tabla.buckets_poner_same _ _ _⟩

/-- C40 witness: the id 31, the largest one with a square below 1024. -/
theorem hashFunctionMidSquare_small_ids_witness :
    (31 : Int) * 31 < 1024 ∧
    hashFunctionMidSquare 31 = 0 ∧
    indiceAlimento 31 = ⟨0, by decide⟩ ∧
    ∀ (mallocOk : Bool) (tabla tabla' : HashTable) (nombre : String) (precio : ℚ)
      (disponibleStr : String),
      insertarAlimento mallocOk tabla 31 nombre precio disponibleStr = .ok (true, tabla') →
      ∃ nuevo : Alimento, nuevo.id = 31 ∧
        tabla'.buckets ⟨0, by decide⟩ = nuevo :: tabla.buckets ⟨0, by decide⟩ :=
  hashFunctionMidSquare_small_ids 31 (by decide) (by decide)

end EDAII
